import Mathlib

/-!
# NetworkDoc: the coordinator ("name server") metadata and lock layer

A shallow embedding of the name server of the NetworkDoc document store
(`src/nameserver/nm_db.c`, `nm_handlers.c`, `nm_handlers2.c`, `nm_main.c`,
`src/common/trie.c`, `src/common/utils.c`) and theorems about its lock table,
its authorization check, its placement policy, its name index, its listings
and the sentence splitting shared by the client and the storage node.

Conventions of the embedding

* C strings are Lean `String`s, a C `char` being a `Char` of code below 256;
  `strcmp(a, b) == 0` is `a = b`.  A zero-terminated string held in a
  `char buf[N]` field has length `< N`; `Message.wf` says so for the name
  fields of a request.  `receive_message` copies the bytes of a request as
  they arrive, so a name field may lack its terminator; the text the handlers
  then read runs on into the next field, and the field of the model holds
  that text, of length `≥ N`.  `strncpy(dst, src, N - 1)` into a field whose
  last byte is zero is `strncpy src (N - 1)` below, and `snprintf` truncates
  likewise.
* C `int` is `Int`.  `sscanf` with `%d` stores an `int`: `sscanf_d` returns
  the low 32 bits of what `strtol` converts; elsewhere a hypothesis
  `int_range` says that a value is an `int`.
* `is_alive` is written in one place, `ss->is_alive = 1` in
  `handle_register_ss`, and `main` starts with an empty registry: in the
  states the coordinator can be in every registered node is alive
  (`registry_live`).  `restart` is the state after the coordinator was stopped
  and started again over its store.
* The arrays `storage_servers[0 .. ss_count)`, `users[0 .. user_count)` and
  `locks[0 .. lock_count)` of `NameServerState` are lists; the counters are
  the lengths of those lists.
* The SQLite store is a record of row lists, one list per table the
  coordinator reads or writes (`undo_history` is created and never used).  A
  prepared statement on the fixed schema always compiles; `sqlite3_step` fails
  only where a PRIMARY KEY constraint is violated.
* Every handler runs under the coordinator-wide mutex, so a handler is an
  atomic function from the state before to the state after together with the
  response message that is sent.  `time(NULL)` is the argument `now`.
* Logging (`log_message`) has no effect on the coordinator state and is left
  out.
-/

namespace NetworkDoc

/-! ## Protocol constants (`include/common.h`, `include/nameserver.h`) -/

def MAX_FILENAME : Nat := 256
def MAX_USERNAME : Nat := 64
def INET_ADDRSTRLEN : Nat := 16
def MAX_STORAGE_SERVERS : Nat := 10
def MAX_USERS : Nat := 100
def MAX_LOCKS : Nat := 100

def ERR_SUCCESS : Int := 0
def ERR_FILE_NOT_FOUND : Int := 1
def ERR_FILE_EXISTS : Int := 2
def ERR_PERMISSION_DENIED : Int := 3
def ERR_LOCKED : Int := 4
def ERR_INVALID_PARAM : Int := 5
def ERR_SERVER_ERROR : Int := 6
def ERR_NOT_OWNER : Int := 7
def ERR_USER_NOT_FOUND : Int := 8
def ERR_SS_NOT_FOUND : Int := 9

def ACCESS_NONE : Int := 0
def ACCESS_READ : Int := 1
def ACCESS_WRITE : Int := 2
def ACCESS_READ_WRITE : Int := 3

/-! ## Strings and `sscanf` -/

/-- The string left in a zero-terminated field by `strncpy(dst, src, n)`:
the first `n` characters of `src`. -/
def strncpy (src : String) (n : Nat) : String := ⟨src.data.take n⟩

/-- The string `snprintf(buf, size, ...)` leaves in `buf` when the formatted
text is `s`: at most `size - 1` characters. -/
def snprintf (size : Nat) (s : String) : String := strncpy s (size - 1)

/-- The string in `dst` after `strncat(dst, src, n)`. -/
def strncat (dst src : String) (n : Nat) : String := dst ++ strncpy src n

/-- The C library's `isspace` in the "C" locale. -/
def isspace (c : Char) : Bool :=
  c = ' ' || c = '\t' || c = '\n' || c = '\r' || c.toNat = 11 || c.toNat = 12

/-- Value of a run of decimal digits, most significant first, on top of the
accumulator `acc`. -/
def digits_value : List Char → Nat → Nat
  | [], acc => acc
  | c :: cs, acc => digits_value cs (acc * 10 + (c.toNat - '0'.toNat))

/-- The least and the greatest value of a `long` on the host (LP64). -/
def LONG_MIN : Int := -9223372036854775808
def LONG_MAX : Int := 9223372036854775807

/-- The value `strtol` returns for a numeral whose exact value is `v`: out of
the range of `long` it is `LONG_MIN` or `LONG_MAX`. -/
def strtol_value (v : Int) : Int :=
  if v < LONG_MIN then LONG_MIN else if LONG_MAX < v then LONG_MAX else v

/-- The `int` left in `*p` by the assignment `*p = (int) v` of a `long`: the
low 32 bits of `v`, read in two's complement. -/
def int_of_long (v : Int) : Int := (v + 2147483648) % 4294967296 - 2147483648

/-- Whether the numeral that starts the text `cs` has a minus sign. -/
def numeral_neg : List Char → Bool
  | '-' :: _ => true
  | _ => false

/-- The text `cs` behind the optional sign of a numeral. -/
def numeral_body : List Char → List Char
  | '-' :: r => r
  | '+' :: r => r
  | r => r

/-- The conversion `%d` as `sscanf(s, "%d", &n)` performs it: leading white
space is skipped, an optional sign is read, then a non-empty run of decimal
digits.  `none` stands for a return value different from `1` (nothing is
stored); `some n` for a return value of `1` with `n` stored.  The C library
converts the numeral as `strtol` does and stores the result in the `int`, so
`n` is the value of the numeral for every numeral in the range of `int`, and
its low 32 bits beyond (`4294967296` is stored as `0`, `2147483648` as
`-2147483648`). -/
def sscanf_d (s : String) : Option Int :=
  let cs := s.data.dropWhile isspace
  let ds := (numeral_body cs).takeWhile Char.isDigit
  if ds.isEmpty then none
  else some (int_of_long (strtol_value
    (if numeral_neg cs then - (digits_value ds 0 : Int) else (digits_value ds 0 : Int))))

/-! ## Records (`include/common.h`) -/

/-- Protocol message structure `Message`. -/
structure Message where
  type : String := ""
  username : String := ""
  filename : String := ""
  data : String := ""
  error_code : Int := 0
  error_msg : String := ""
deriving DecidableEq, Repr

/-- The fields `username[MAX_USERNAME]` and `filename[MAX_FILENAME]` of a
received message hold zero-terminated strings. -/
def Message.wf (m : Message) : Prop :=
  m.filename.length < MAX_FILENAME ∧ m.username.length < MAX_USERNAME

instance (m : Message) : Decidable m.wf := by
  unfold Message.wf; exact inferInstance

/-- The C function `init_message`: `memset(msg, 0, sizeof(Message))`. -/
def init_message : Message := {}

/-- The C function `set_message_error`. -/
def set_message_error (msg : Message) (error_code : Int) (error_msg : String) : Message :=
  { msg with error_code := error_code, error_msg := strncpy error_msg (256 - 1) }

structure StorageServerInfo where
  id : Int := 0
  ip : String := ""
  port : Int := 0
  is_alive : Bool := false
  last_heartbeat : Int := 0
  file_count : Int := 0
deriving DecidableEq, Repr, Inhabited

structure UserInfo where
  username : String := ""
  registered_at : Int := 0
deriving DecidableEq, Repr

structure SentenceLock where
  filename : String
  sentence_number : Int
  username : String
  client_socket : Int
  locked_at : Int
deriving DecidableEq, Repr

/-! ## The relational store (`init_database` in `nm_db.c`) -/

/-- A row of table `files` (PRIMARY KEY `filename`).  `replica_server_id` is
`none` when the column is NULL. -/
structure FileRow where
  filename : String
  owner : String
  storage_server_id : Int
  replica_server_id : Option Int
  word_count : Int := 0
  char_count : Int := 0
  sentence_count : Int := 0
  created_at : Int := 0
  modified_at : Int := 0
  accessed_at : Int := 0
  is_folder : Int := 0
deriving DecidableEq, Repr

/-- A row of table `access_control` (PRIMARY KEY `(filename, username)`). -/
structure AccessRow where
  filename : String
  username : String
  permissions : Int
deriving DecidableEq, Repr

/-- A row of table `access_requests`. -/
structure AccessRequestRow where
  id : Int
  filename : String
  requester : String
  access_type : Int
  requested_at : Int
  status : String := "pending"
deriving DecidableEq, Repr

/-- A row of table `checkpoints`. -/
structure CheckpointRow where
  id : Int
  filename : String
  tag : String
  content : String
  created_at : Int
deriving DecidableEq, Repr

structure Database where
  files : List FileRow := []
  access_control : List AccessRow := []
  access_requests : List AccessRequestRow := []
  checkpoints : List CheckpointRow := []
  /-- Largest `id` ever given by the AUTOINCREMENT key of `access_requests`. -/
  access_requests_seq : Int := 0
deriving DecidableEq, Repr

/-- The C function `sqlite3_column_int` on a nullable integer column: NULL reads as `0`. -/
def column_int (v : Option Int) : Int := v.getD 0

/-- First row of `SELECT ... FROM files WHERE filename = ?`. -/
def select_file (db : Database) (filename : String) : Option FileRow :=
  db.files.find? (fun r => r.filename = filename)

/-- First row of `SELECT permissions FROM access_control WHERE filename = ? AND username = ?`. -/
def select_access (db : Database) (filename username : String) : Option AccessRow :=
  db.access_control.find? (fun r => r.filename = filename ∧ r.username = username)

/-- The PRIMARY KEY constraints of `files` and `access_control`. -/
def Database.keys_ok (db : Database) : Prop :=
  (db.files.map (fun r => r.filename)).Nodup ∧
  (db.access_control.map (fun r => (r.filename, r.username))).Nodup

instance (db : Database) : Decidable db.keys_ok := by
  unfold Database.keys_ok; exact inferInstance

/-! ## The name index (`src/common/trie.c`) -/

/-- A `TrieNode*`: `null` is the NULL pointer, `node` an allocated node with
its `is_end_of_word` flag, its `filename` copy and its 256 child pointers. -/
inductive TrieNode where
  | null : TrieNode
  | node (is_end_of_word : Bool) (filename : Option String)
      (children : Fin 256 → TrieNode) : TrieNode

structure Trie where
  root : TrieNode
  size : Int

/-- The index `(unsigned char)filename[i]` of a character. -/
def char_index (c : Char) : Fin 256 := ⟨c.toNat % 256, Nat.mod_lt _ (by decide)⟩

def TrieNode.is_null : TrieNode → Bool
  | .null => true
  | .node _ _ _ => false

def create_node : TrieNode := .node false none (fun _ => .null)

def trie_create : Trie := { root := create_node, size := 0 }

/-- The walk of `trie_search` from node `current` along the remaining characters. -/
def search_from : TrieNode → List Char → Bool
  | .null, _ => false
  | .node e _ _, [] => e
  | .node _ _ ch, c :: cs =>
    if (ch (char_index c)).is_null then false else search_from (ch (char_index c)) cs

def trie_search (trie : Trie) (filename : String) : Bool :=
  search_from trie.root filename.data

/-- The walk of `trie_insert` from node `current`: missing children are
allocated on the way down, the last node gets `is_end_of_word = 1` and a copy
of the name.  (`current` is never NULL in the C code.) -/
def insert_from : TrieNode → List Char → String → TrieNode
  | .null, _, _ => .null
  | .node _ _ ch, [], name => .node true (some name) ch
  | .node e f ch, c :: cs, name =>
    let child := if (ch (char_index c)).is_null then create_node else ch (char_index c)
    .node e f (Function.update ch (char_index c) (insert_from child cs name))

/-- The C function `trie_insert`; `size` grows when the last node was not yet
the end of a word. -/
def trie_insert (trie : Trie) (filename : String) : Trie :=
  { root := insert_from trie.root filename.data filename
    size := if trie_search trie filename then trie.size else trie.size + 1 }

/-- The loops `for (i < ALPHABET_SIZE) if (node->children[i] != NULL)` of `delete_helper`. -/
def has_children (ch : Fin 256 → TrieNode) : Bool :=
  (List.finRange 256).any (fun i => !(ch i).is_null)

/-- The C function `delete_helper`: the node after the call and the returned
flag ("this node can be freed by the caller"). -/
def delete_helper : TrieNode → List Char → TrieNode × Bool
  | .null, _ => (.null, false)
  | .node e f ch, [] =>
    ((if e then .node false none ch else .node e f ch), !has_children ch)
  | .node e f ch, c :: cs =>
    let r := delete_helper (ch (char_index c)) cs
    if r.2 then
      let ch' := Function.update ch (char_index c) TrieNode.null
      (.node e f ch', if !e then !has_children ch' else false)
    else
      (.node e f (Function.update ch (char_index c) r.1), false)

def trie_delete (trie : Trie) (filename : String) : Trie :=
  if trie_search trie filename then
    { root := (delete_helper trie.root filename.data).1, size := trie.size - 1 }
  else trie

/-! ## The coordinator state (`include/nameserver.h`) -/

structure NameServerState where
  db : Database := {}
  file_trie : Trie := trie_create
  storage_servers : List StorageServerInfo := []
  users : List UserInfo := []
  locks : List SentenceLock := []
  next_ss_id : Int := 1

/-! ## `nm_db.c` -/

/-- The C function `check_permission`. -/
def check_permission (db : Database) (username filename : String) (required_perm : Int) :
    Bool :=
  let is_owner : Bool := match select_file db filename with
    | some row => row.owner = username
    | none => false
  if is_owner then true
  else match select_access db filename username with
    | some r => decide (Int.land r.permissions required_perm = required_perm)
    | none => false

/-- The C function `get_ss_by_id`: the first registered node with that id that is alive. -/
def get_ss_by_id (servers : List StorageServerInfo) (ss_id : Int) : Option StorageServerInfo :=
  match servers with
  | [] => none
  | s :: rest => if s.id = ss_id ∧ s.is_alive then some s else get_ss_by_id rest ss_id

/-- The test of `release_lock` on one entry: all four of file, sentence, user and socket. -/
def lock_matches (filename : String) (sentence_num : Int) (username : String)
    (client_socket : Int) (l : SentenceLock) : Bool :=
  l.filename = filename ∧ l.sentence_number = sentence_num ∧
    l.username = username ∧ l.client_socket = client_socket

/-- The loop of `release_lock` over `locks[0 .. lock_count)`: the first
matching entry is removed by shifting the later ones down, then `break`. -/
def release_lock_loop (filename : String) (sentence_num : Int) (username : String)
    (client_socket : Int) : List SentenceLock → List SentenceLock
  | [] => []
  | l :: rest =>
    if lock_matches filename sentence_num username client_socket l then rest
    else l :: release_lock_loop filename sentence_num username client_socket rest

def release_lock (st : NameServerState) (filename : String) (sentence_num : Int)
    (username : String) (client_socket : Int) : NameServerState :=
  { st with locks := release_lock_loop filename sentence_num username client_socket st.locks }

/-! ## `nm_handlers.c`: `handle_write` -/

/-- Outcome of the scan "Check if sentence is already locked" in `handle_write`. -/
inductive LockScan where
  | free : LockScan
  | held : LockScan
  | locked_by (username : String) : LockScan
deriving DecidableEq, Repr

/-- The scan loop of `handle_write`: the first entry for `(filename,
sentence_num)` decides; same socket means re-acquire, another socket means
the request is refused. -/
def scan_locks (filename : String) (sentence_num : Int) (sock : Int) :
    List SentenceLock → LockScan
  | [] => .free
  | l :: rest =>
    if l.filename = filename ∧ l.sentence_number = sentence_num then
      if l.client_socket = sock then .held else .locked_by l.username
    else scan_locks filename sentence_num sock rest

/-- The entry written to `locks[lock_count]` by `handle_write` ("Acquire new lock"). -/
def new_lock (sock : Int) (msg : Message) (now : Int) (sentence_num : Int) : SentenceLock :=
  { filename := strncpy msg.filename (MAX_FILENAME - 1)
    sentence_number := sentence_num
    username := strncpy msg.username (MAX_USERNAME - 1)
    client_socket := sock
    locked_at := now }

/-- The tail of `handle_write` ("Get SS info"): the response built from the
file's row and the registry. -/
def write_ss_info (st : NameServerState) (filename : String) (sentence_num : Int)
    (resp : Message) : Message :=
  match select_file st.db filename with
  | some row =>
    let ss_id := row.storage_server_id
    let replica_id := column_int row.replica_server_id
    let ss := get_ss_by_id st.storage_servers ss_id
    let replica := if replica_id ≥ 0 then get_ss_by_id st.storage_servers replica_id else none
    match ss with
    | some ss =>
      let data := snprintf 65536
        ("SS:" ++ ss.ip ++ ":" ++ toString ss.port ++ "|SENTENCE:" ++ toString sentence_num)
      match replica with
      | some replica =>
        let replica_info := snprintf 128
          ("|REPLICA:" ++ replica.ip ++ ":" ++ toString replica.port)
        { resp with error_code := ERR_SUCCESS,
                    data := strncat data replica_info (65536 - data.length - 1) }
      | none => { resp with error_code := ERR_SUCCESS, data := data }
    | none => set_message_error resp ERR_SS_NOT_FOUND "Storage server not available"
  | none => set_message_error resp ERR_FILE_NOT_FOUND "File metadata not found"

/-- The C function `handle_write` (WRITE_LOCK and WRITE requests): the state
after the handler and the response it sends. -/
def handle_write (st : NameServerState) (sock : Int) (msg : Message) (now : Int) :
    NameServerState × Message :=
  let resp := init_message
  match sscanf_d msg.data with
  | none => (st, set_message_error resp ERR_INVALID_PARAM "Invalid sentence number")
  | some sentence_num =>
    if !trie_search st.file_trie msg.filename then
      (st, set_message_error resp ERR_FILE_NOT_FOUND "File not found")
    else if !check_permission st.db msg.username msg.filename ACCESS_WRITE then
      (st, set_message_error resp ERR_PERMISSION_DENIED "No write permission")
    else
      match scan_locks msg.filename sentence_num sock st.locks with
      | .locked_by holder =>
        let err_buf := snprintf 256
          ("Sentence " ++ toString sentence_num ++ " locked by " ++ holder ++
            " (different session)")
        (st, set_message_error resp ERR_LOCKED err_buf)
      | .held => (st, write_ss_info st msg.filename sentence_num resp)
      | .free =>
        if st.locks.length < MAX_LOCKS then
          let lock := new_lock sock msg now sentence_num
          let st' := { st with locks := st.locks ++ [lock] }
          (st', write_ss_info st' msg.filename sentence_num resp)
        else
          (st, set_message_error resp ERR_SERVER_ERROR "Lock table full")

/-! ## `nm_main.c`: the `ETIRW` branch of `handle_client` -/

/-- The statement `UPDATE files SET modified_at = ? WHERE filename = ?`. -/
def update_modified_at (db : Database) (filename : String) (now : Int) : Database :=
  let touch : FileRow → FileRow := fun r =>
    if r.filename = filename then { r with modified_at := now } else r
  { db with files := db.files.map touch }

/-- The local `sentence_num` of the `ETIRW` branch after
`sscanf(msg.data, "%d", &sentence_num)`.  The result of `sscanf` is not tested
there: when the payload holds no integer, `sentence_num` keeps the
indeterminate value `stack_value` of the uninitialised local. -/
def commit_sentence_num (msg : Message) (stack_value : Int) : Int :=
  (sscanf_d msg.data).getD stack_value

/-- The WRITE_COMMIT (`ETIRW`) branch of `handle_client`. -/
def handle_write_commit (st : NameServerState) (client_sock : Int) (msg : Message)
    (now : Int) (stack_value : Int) : NameServerState × Message :=
  let sentence_num := commit_sentence_num msg stack_value
  let st1 := release_lock st msg.filename sentence_num msg.username client_sock
  let st2 := { st1 with db := update_modified_at st1.db msg.filename now }
  (st2, { init_message with error_code := ERR_SUCCESS })

/-! ## `nm_handlers.c`: registration and placement -/

/-- The conversion `"%[^:]:%d"` of `handle_register_ss`: the text before the
first colon (it must not be empty), the colon, an integer.  Each component is
`none` when `sscanf` stops before storing it. -/
def sscanf_ip_port (s : String) : Option String × Option Int :=
  let ip := s.data.takeWhile (fun c => c ≠ ':')
  if ip.isEmpty then (none, none)
  else match s.data.dropWhile (fun c => c ≠ ':') with
    | ':' :: rest => (some ⟨ip⟩, sscanf_d ⟨rest⟩)
    | _ => (some ⟨ip⟩, none)

/-- The C function `handle_register_ss`.  The result of `sscanf` is not
tested: a component that was not stored keeps the indeterminate value
(`stack_ip`, `stack_port`) of the uninitialised local. -/
def handle_register_ss (st : NameServerState) (msg : Message) (now : Int)
    (stack_ip : String) (stack_port : Int) : NameServerState × Message :=
  let resp := init_message
  if st.storage_servers.length ≥ MAX_STORAGE_SERVERS then
    (st, set_message_error resp ERR_SERVER_ERROR "Max storage servers reached")
  else
    let parsed := sscanf_ip_port msg.data
    let ip := parsed.1.getD stack_ip
    let port := parsed.2.getD stack_port
    let ss_id := st.next_ss_id
    let ss : StorageServerInfo :=
      { id := ss_id, ip := strncpy ip (INET_ADDRSTRLEN - 1), port := port, is_alive := true,
        last_heartbeat := now, file_count := 0 }
    ({ st with next_ss_id := st.next_ss_id + 1, storage_servers := st.storage_servers ++ [ss] },
     { resp with error_code := ERR_SUCCESS,
                 data := snprintf 65536 ("SS_ID:" ++ toString ss_id) })

/-- The loop "Select SS with least files" of `handle_create` and
`handle_createfolder`, from index `i` on: `rest` is `storage_servers[i ..]`,
`ss_idx` the candidate so far. -/
def select_ss_from (servers : List StorageServerInfo) :
    List StorageServerInfo → Nat → Nat → Nat
  | [], _, ss_idx => ss_idx
  | s :: rest, i, ss_idx =>
    if s.file_count < (servers.getD ss_idx default).file_count ∧ s.is_alive then
      select_ss_from servers rest (i + 1) i
    else
      select_ss_from servers rest (i + 1) ss_idx

/-- The index `ss_idx` after the loop: it starts at `0` and the loop runs from `i = 1`. -/
def select_ss (servers : List StorageServerInfo) : Nat :=
  select_ss_from servers (servers.drop 1) 1 0

/-- The loop "Select replica server" of `handle_create` from index `i` on:
the first alive node whose index is not `ss_idx`; `none` is `replica_idx = -1`. -/
def select_replica_from (ss_idx : Nat) : List StorageServerInfo → Nat → Option Nat
  | [], _ => none
  | s :: rest, i =>
    if i ≠ ss_idx ∧ s.is_alive then some i else select_replica_from ss_idx rest (i + 1)

def select_replica (servers : List StorageServerInfo) (ss_idx : Nat) : Option Nat :=
  select_replica_from ss_idx servers 0

/-- Loop invariant of `select_ss_from`: the candidate `k` is alive and has the
least `file_count` among the alive nodes of index `< i`, and a strictly
smaller `file_count` than every alive node before it. -/
def select_inv (servers : List StorageServerInfo) (i k : Nat) : Prop :=
  k < i ∧ (servers.getD k default).is_alive = true ∧
  ∀ j, j < i → (servers.getD j default).is_alive = true →
    (servers.getD k default).file_count ≤ (servers.getD j default).file_count ∧
    (j < k → (servers.getD k default).file_count < (servers.getD j default).file_count)

/-- The statement `INSERT INTO files ...`: `none` when a row with that
`filename` exists (the PRIMARY KEY constraint makes `sqlite3_step` fail). -/
def insert_file (db : Database) (row : FileRow) : Option Database :=
  if db.files.any (fun r => r.filename = row.filename) then none
  else some { db with files := db.files ++ [row] }

/-- The registry after `ss->file_count++` on `storage_servers[ss_idx]`. -/
def increment_file_count (servers : List StorageServerInfo) (ss_idx : Nat) :
    List StorageServerInfo :=
  let ss := servers.getD ss_idx default
  servers.set ss_idx { ss with file_count := ss.file_count + 1 }

/-- The value bound to column `replica_server_id` by `handle_create`. -/
def replica_id_of (servers : List StorageServerInfo) (replica_idx : Option Nat) : Int :=
  match replica_idx with
  | some r => (servers.getD r default).id
  | none => -1

/-- The C function `handle_create`. -/
def handle_create (st : NameServerState) (msg : Message) (now : Int) :
    NameServerState × Message :=
  let resp := init_message
  if trie_search st.file_trie msg.filename then
    (st, set_message_error resp ERR_FILE_EXISTS "File already exists")
  else if st.storage_servers.length = 0 then
    (st, set_message_error resp ERR_SS_NOT_FOUND "No storage servers available")
  else
    let ss_idx := select_ss st.storage_servers
    let ss := st.storage_servers.getD ss_idx default
    let replica_idx := select_replica st.storage_servers ss_idx
    let row : FileRow :=
      { filename := msg.filename, owner := msg.username, storage_server_id := ss.id,
        replica_server_id := some (replica_id_of st.storage_servers replica_idx),
        created_at := now, modified_at := now, accessed_at := now }
    match insert_file st.db row with
    | some db' =>
      let st' : NameServerState :=
        { st with db := db'
                  file_trie := trie_insert st.file_trie msg.filename
                  storage_servers := increment_file_count st.storage_servers ss_idx }
      let data := snprintf 65536 ("SS:" ++ ss.ip ++ ":" ++ toString ss.port)
      match replica_idx with
      | some r =>
        let replica := st.storage_servers.getD r default
        let replica_info := snprintf 128
          ("|REPLICA:" ++ replica.ip ++ ":" ++ toString replica.port)
        (st', { resp with error_code := ERR_SUCCESS,
                          data := strncat data replica_info (65536 - data.length - 1) })
      | none => (st', { resp with error_code := ERR_SUCCESS, data := data })
    | none => (st, set_message_error resp ERR_SERVER_ERROR "Failed to create file metadata")

/-! ## `nm_handlers2.c`: `handle_createfolder` -/

/-- The C function `handle_createfolder`. -/
def handle_createfolder (st : NameServerState) (msg : Message) (now : Int) :
    NameServerState × Message :=
  let resp := init_message
  if trie_search st.file_trie msg.filename then
    (st, set_message_error resp ERR_FILE_EXISTS "Folder already exists")
  else if st.storage_servers.length = 0 then
    (st, set_message_error resp ERR_SS_NOT_FOUND "No storage servers available")
  else
    let ss_idx := select_ss st.storage_servers
    let ss := st.storage_servers.getD ss_idx default
    let row : FileRow :=
      { filename := msg.filename, owner := msg.username, storage_server_id := ss.id,
        replica_server_id := none,
        created_at := now, modified_at := now, accessed_at := now, is_folder := 1 }
    match insert_file st.db row with
    | some db' =>
      let st' : NameServerState :=
        { st with db := db'
                  file_trie := trie_insert st.file_trie msg.filename
                  storage_servers := increment_file_count st.storage_servers ss_idx }
      (st', { resp with error_code := ERR_SUCCESS,
                        data := snprintf 65536 ("Folder created: " ++ msg.filename) })
    | none => (st, set_message_error resp ERR_SERVER_ERROR "Failed to create folder")

/-! ## `nm_handlers.c`: `handle_register_client`, `handle_read`, `handle_delete` -/

/-- The loop over `users[0 .. user_count)` that looks for `username`
(`handle_register_client`, `handle_addaccess`). -/
def user_exists (users : List UserInfo) (username : String) : Bool :=
  match users with
  | [] => false
  | u :: rest => if u.username = username then true else user_exists rest username

/-- The C function `handle_register_client`. -/
def handle_register_client (st : NameServerState) (msg : Message) (now : Int) :
    NameServerState × Message :=
  let found := user_exists st.users msg.username
  let st' : NameServerState :=
    if !found ∧ st.users.length < MAX_USERS then
      { st with users := st.users ++
          [{ username := strncpy msg.username (MAX_USERNAME - 1), registered_at := now }] }
    else st
  (st', { init_message with error_code := ERR_SUCCESS, data := "Registered successfully" })

/-- The statement `UPDATE files SET accessed_at = ? WHERE filename = ?`. -/
def update_accessed_at (db : Database) (filename : String) (now : Int) : Database :=
  let touch : FileRow → FileRow := fun r =>
    if r.filename = filename then { r with accessed_at := now } else r
  { db with files := db.files.map touch }

/-- The node `handle_read` answers with: the primary when `get_ss_by_id` finds
it, else the replica when its id is not negative and `get_ss_by_id` finds it. -/
def read_target (servers : List StorageServerInfo) (ss_id replica_id : Int) :
    Option StorageServerInfo :=
  match get_ss_by_id servers ss_id with
  | some ss => some ss
  | none => if replica_id ≥ 0 then get_ss_by_id servers replica_id else none

/-- The C function `handle_read` (READ, STREAM and INFO requests). -/
def handle_read (st : NameServerState) (msg : Message) (now : Int) :
    NameServerState × Message :=
  let resp := init_message
  if !trie_search st.file_trie msg.filename then
    (st, set_message_error resp ERR_FILE_NOT_FOUND "File not found")
  else if !check_permission st.db msg.username msg.filename ACCESS_READ then
    (st, set_message_error resp ERR_PERMISSION_DENIED "No read permission")
  else
    let answer : Message :=
      match select_file st.db msg.filename with
      | some row =>
        match read_target st.storage_servers row.storage_server_id
            (column_int row.replica_server_id) with
        | some ss =>
          { resp with error_code := ERR_SUCCESS,
                      data := snprintf 65536 ("SS:" ++ ss.ip ++ ":" ++ toString ss.port) }
        | none => set_message_error resp ERR_SS_NOT_FOUND "Storage server not available"
      | none => set_message_error resp ERR_FILE_NOT_FOUND "File metadata not found"
    ({ st with db := update_accessed_at st.db msg.filename now }, answer)

/-- The loop "Decrease file count" of `handle_delete`: the first registered
node with id `ss_id`, alive or not, loses one file. -/
def decrement_file_count : List StorageServerInfo → Int → List StorageServerInfo
  | [], _ => []
  | s :: rest, ss_id =>
    if s.id = ss_id then { s with file_count := s.file_count - 1 } :: rest
    else s :: decrement_file_count rest ss_id

/-- The statement `DELETE FROM files WHERE filename = ?`. -/
def delete_file_rows (db : Database) (filename : String) : Database :=
  { db with files := db.files.filter (fun r => r.filename ≠ filename) }

/-- The statement `DELETE FROM access_control WHERE filename = ?`. -/
def delete_access_rows (db : Database) (filename : String) : Database :=
  { db with access_control := db.access_control.filter (fun r => r.filename ≠ filename) }

/-- The C function `handle_delete`. -/
def handle_delete (st : NameServerState) (msg : Message) : NameServerState × Message :=
  let resp := init_message
  if !trie_search st.file_trie msg.filename then
    (st, set_message_error resp ERR_FILE_NOT_FOUND "File not found")
  else
    let sel := select_file st.db msg.filename
    let other_owner : Bool := match sel with
      | some row => row.owner ≠ msg.username
      | none => false
    if other_owner then
      (st, set_message_error resp ERR_NOT_OWNER "Only owner can delete file")
    else
      let ss_id : Int := match sel with
        | some row => row.storage_server_id
        | none => -1
      let replica_id : Int := match sel with
        | some row => column_int row.replica_server_id
        | none => -1
      let db' := delete_access_rows (delete_file_rows st.db msg.filename) msg.filename
      let servers := decrement_file_count st.storage_servers ss_id
      let st' : NameServerState :=
        { st with db := db'
                  file_trie := trie_delete st.file_trie msg.filename
                  storage_servers := servers }
      let replica := if replica_id ≥ 0 then get_ss_by_id servers replica_id else none
      match get_ss_by_id servers ss_id with
      | some ss =>
        let data := snprintf 65536 ("SS:" ++ ss.ip ++ ":" ++ toString ss.port)
        match replica with
        | some replica =>
          let replica_info := snprintf 128
            ("|REPLICA:" ++ replica.ip ++ ":" ++ toString replica.port)
          (st', { resp with error_code := ERR_SUCCESS,
                            data := strncat data replica_info (65536 - data.length - 1) })
        | none => (st', { resp with error_code := ERR_SUCCESS, data := data })
      | none => (st', { resp with error_code := ERR_SUCCESS })

/-- The state after `handle_delete` once the request passes the name and
owner checks. -/
def deleted_state (st : NameServerState) (msg : Message) : NameServerState :=
  let ss_id : Int := match select_file st.db msg.filename with
    | some row => row.storage_server_id
    | none => -1
  { st with db := delete_access_rows (delete_file_rows st.db msg.filename) msg.filename
            file_trie := trie_delete st.file_trie msg.filename
            storage_servers := decrement_file_count st.storage_servers ss_id }

/-! ## `nm_handlers.c`: the query of `handle_view` -/

/-- The columns selected by the two statements of `handle_view`. -/
structure ViewRow where
  filename : String
  owner : String
  is_folder : Int
  word_count : Int
  sentence_count : Int
  created_at : Int
deriving DecidableEq, Repr

def view_row (r : FileRow) : ViewRow :=
  { filename := r.filename, owner := r.owner, is_folder := r.is_folder,
    word_count := r.word_count, sentence_count := r.sentence_count,
    created_at := r.created_at }

/-- The rows of `files f LEFT JOIN access_control ac ON f.filename = ac.filename`:
each file with each of its grants, or with NULL when it has none. -/
def left_join_access (db : Database) : List (FileRow × Option AccessRow) :=
  db.files.flatMap (fun f =>
    let grants := db.access_control.filter (fun a => a.filename = f.filename)
    if grants.isEmpty then [(f, none)] else grants.map (fun a => (f, some a)))

/-- The test `f.owner = ? OR ac.username = ?` on a joined row. -/
def view_where (username : String) (p : FileRow × Option AccessRow) : Bool :=
  p.1.owner = username ||
    (match p.2 with
     | some a => decide (a.username = username)
     | none => false)

/-- The order of the BINARY collation (`memcmp`, then length) on two texts:
`true` when the first sorts strictly before the second. -/
def text_lt : List Char → List Char → Bool
  | [], [] => false
  | [], _ :: _ => true
  | _ :: _, [] => false
  | a :: as, b :: bs =>
    if a.toNat < b.toNat then true
    else if b.toNat < a.toNat then false
    else text_lt as bs

/-- Insertion of a row into a list ordered by `filename`. -/
def insert_by_filename (r : ViewRow) : List ViewRow → List ViewRow
  | [] => [r]
  | x :: rest =>
    if text_lt r.filename.data x.filename.data then r :: x :: rest
    else x :: insert_by_filename r rest

/-- The clause `ORDER BY filename` (byte order of the names). -/
def order_by_filename : List ViewRow → List ViewRow
  | [] => []
  | r :: rest => insert_by_filename r (order_by_filename rest)

/-- The rows stepped through by `handle_view`: every file when `show_all`,
else `SELECT DISTINCT ... WHERE f.owner = ? OR ac.username = ?`; both
`ORDER BY filename`. -/
def view_query (db : Database) (username : String) (show_all : Bool) : List ViewRow :=
  let rows : List ViewRow :=
    if show_all then db.files.map view_row
    else (((left_join_access db).filter (view_where username)).map
      (fun p => view_row p.1)).dedup
  order_by_filename rows

/-! ## `nm_handlers2.c`: `handle_addaccess`, `handle_remaccess`, `handle_request_access` -/

/-- The conversion `"%[^|]|%d"` of `handle_addaccess` when `sscanf` returns
`2`: the non-empty text before the first bar, the bar, an integer. -/
def sscanf_user_perm (s : String) : Option (String × Int) :=
  let user := s.data.takeWhile (fun c => c ≠ '|')
  if user.isEmpty then none
  else match s.data.dropWhile (fun c => c ≠ '|') with
    | '|' :: rest => (sscanf_d ⟨rest⟩).map (fun p => (⟨user⟩, p))
    | _ => none

/-- The block "Check if requester is owner" of `handle_addaccess` and
`handle_remaccess`. -/
def is_file_owner (db : Database) (filename username : String) : Bool :=
  match select_file db filename with
  | some row => row.owner = username
  | none => false

/-- The statement `INSERT OR REPLACE INTO access_control ...`: a row with the
same `(filename, username)` is deleted, then the new row is inserted. -/
def upsert_access (db : Database) (row : AccessRow) : Database :=
  let others := db.access_control.filter
    (fun r => ¬ (r.filename = row.filename ∧ r.username = row.username))
  { db with access_control := others ++ [row] }

/-- The C function `handle_addaccess`. -/
def handle_addaccess (st : NameServerState) (msg : Message) : NameServerState × Message :=
  let resp := init_message
  match sscanf_user_perm msg.data with
  | none => (st, set_message_error resp ERR_INVALID_PARAM "Invalid format")
  | some (target_user, permissions) =>
    if !trie_search st.file_trie msg.filename then
      (st, set_message_error resp ERR_FILE_NOT_FOUND "File not found")
    else if !is_file_owner st.db msg.filename msg.username then
      (st, set_message_error resp ERR_NOT_OWNER "Only owner can grant access")
    else if !user_exists st.users target_user then
      (st, set_message_error resp ERR_USER_NOT_FOUND "Target user not found")
    else
      let row : AccessRow :=
        { filename := msg.filename, username := target_user, permissions := permissions }
      ({ st with db := upsert_access st.db row },
       { resp with error_code := ERR_SUCCESS,
                   data := snprintf 65536 ("Access granted to " ++ target_user) })

/-- The white space of `trim` in `utils.c`. -/
def is_trim_space (c : Char) : Bool := c = ' ' || c = '\t' || c = '\n' || c = '\r'

/-- The buffer after a call `trim(buf)` whose result is not used: `trim`
returns a pointer past the leading white space and cuts the trailing white
space in place, so the leading white space stays in `buf`. -/
def trim_in_place (s : String) : String :=
  let lead := s.data.takeWhile is_trim_space
  let rest := s.data.dropWhile is_trim_space
  ⟨lead ++ (rest.reverse.dropWhile is_trim_space).reverse⟩

/-- The statement `DELETE FROM access_control WHERE filename = ? AND username = ?`. -/
def delete_access_row (db : Database) (filename username : String) : Database :=
  let others := db.access_control.filter
    (fun r => ¬ (r.filename = filename ∧ r.username = username))
  { db with access_control := others }

/-- The local `target_user` of `handle_remaccess`: the first 63 characters of
the payload after `trim(target_user)`. -/
def remaccess_target (msg : Message) : String :=
  trim_in_place (strncpy msg.data (MAX_USERNAME - 1))

/-- The C function `handle_remaccess`. -/
def handle_remaccess (st : NameServerState) (msg : Message) : NameServerState × Message :=
  let resp := init_message
  let target_user := remaccess_target msg
  if !trie_search st.file_trie msg.filename then
    (st, set_message_error resp ERR_FILE_NOT_FOUND "File not found")
  else if !is_file_owner st.db msg.filename msg.username then
    (st, set_message_error resp ERR_NOT_OWNER "Only owner can revoke access")
  else
    ({ st with db := delete_access_row st.db msg.filename target_user },
     { resp with error_code := ERR_SUCCESS,
                 data := snprintf 65536 ("Access revoked from " ++ target_user) })

/-- The conversion `"%[^|]|%s"` of `handle_request_access` and
`handle_checkpoint`: the non-empty text before the first bar, then, after the
bar, a word without white space.  A component is `none` when `sscanf` stops
before storing it. -/
def sscanf_cmd_param (s : String) : Option String × Option String :=
  let cmd := s.data.takeWhile (fun c => c ≠ '|')
  if cmd.isEmpty then (none, none)
  else match s.data.dropWhile (fun c => c ≠ '|') with
    | '|' :: rest =>
      let word := (rest.dropWhile isspace).takeWhile (fun c => !isspace c)
      (some ⟨cmd⟩, if word.isEmpty then none else some ⟨word⟩)
    | _ => (some ⟨cmd⟩, none)

/-- The C library's `atoi` on a decimal string. -/
def atoi (s : String) : Int := (sscanf_d s).getD 0

/-- The statement `INSERT INTO access_requests (filename, requester,
access_type, requested_at)`: `id` is the next AUTOINCREMENT value, `status`
the default `'pending'`. -/
def insert_access_request (db : Database) (filename requester : String)
    (access_type requested_at : Int) : Database :=
  let id := db.access_requests_seq + 1
  let row : AccessRequestRow :=
    { id := id, filename := filename, requester := requester, access_type := access_type,
      requested_at := requested_at }
  { db with access_requests_seq := id, access_requests := db.access_requests ++ [row] }

/-- The rows of the VIEWREQUESTS statement: pending requests joined with the
files owned by `username`. -/
def pending_requests (db : Database) (username : String) : List AccessRequestRow :=
  db.access_requests.filter (fun ar =>
    ar.status = "pending" ∧ db.files.any (fun f => f.filename = ar.filename ∧ f.owner = username))

/-- The text accumulated by the VIEWREQUESTS loop: a line is appended while
it fits the 65536-byte buffer. -/
def requests_text : String → List AccessRequestRow → String
  | result, [] => result
  | result, ar :: rest =>
    let line := snprintf 256
      ("  " ++ ar.requester ++ " requests " ++
        (if ar.access_type = ACCESS_READ then "READ" else "WRITE") ++
        " access to " ++ ar.filename ++ "\n")
    if result.length + line.length < 65536 - 1 then requests_text (result ++ line) rest
    else requests_text result rest

/-- The C function `handle_request_access`.  `stack_param` is the
indeterminate content of the local `param` when `sscanf` stores only `cmd`. -/
def handle_request_access (st : NameServerState) (msg : Message) (now : Int)
    (stack_param : String) : NameServerState × Message :=
  let resp := init_message
  match sscanf_cmd_param msg.data with
  | (none, _) => (st, set_message_error resp ERR_INVALID_PARAM "Invalid request format")
  | (some cmd, parsed) =>
    let param := parsed.getD stack_param
    if cmd = "REQUEST" then
      let access_type := if param.length > 0 then atoi param else ACCESS_READ
      if !trie_search st.file_trie msg.filename then
        (st, set_message_error resp ERR_FILE_NOT_FOUND "File not found")
      else
        ({ st with db := insert_access_request st.db msg.filename msg.username access_type now },
         { resp with error_code := ERR_SUCCESS, data := "Access request submitted" })
    else if cmd = "VIEWREQUESTS" then
      (st, { resp with error_code := ERR_SUCCESS,
                       data := strncpy (requests_text "Pending Access Requests:\n"
                         (pending_requests st.db msg.username)) (65536 - 1) })
    else (st, resp)

/-! ## Sequences of lock requests -/

/-- A request that reaches the lock table: WRITE_LOCK (`handle_write`) or
WRITE_COMMIT (the `ETIRW` branch), with the socket of the session it arrives on. -/
inductive LockRequest where
  | write_lock (sock : Int) (msg : Message) (now : Int) : LockRequest
  | write_commit (sock : Int) (msg : Message) (now : Int) (stack_value : Int) : LockRequest
deriving DecidableEq, Repr

def LockRequest.msg : LockRequest → Message
  | .write_lock _ m _ => m
  | .write_commit _ m _ _ => m

/-- The entries of the lock table for the pair `(filename, sentence_num)`. -/
def locks_on (locks : List SentenceLock) (filename : String) (sentence_num : Int) :
    List SentenceLock :=
  locks.filter (fun l => l.filename = filename ∧ l.sentence_number = sentence_num)

/-- No two entries of the lock table have the same `(filename, sentence_number)`. -/
def locks_unique (locks : List SentenceLock) : Prop :=
  (locks.map (fun l => (l.filename, l.sentence_number))).Nodup

instance (locks : List SentenceLock) : Decidable (locks_unique locks) := by
  unfold locks_unique; exact inferInstance

/-- The range of a C `int`. -/
def int_range (n : Int) : Prop := -2147483648 ≤ n ∧ n ≤ 2147483647

instance (n : Int) : Decidable (int_range n) := by
  unfold int_range; exact inferInstance

/-! ## Scenario states -/

/-- Two registered nodes, user `alice` owns `doc.txt` (primary 1, replica 2),
user `bob` holds a read-write grant; no lock is held. -/
def scenario_state : NameServerState :=
  { db := { files := [{ filename := "doc.txt", owner := "alice", storage_server_id := 1,
                        replica_server_id := some 2 }],
            access_control := [{ filename := "doc.txt", username := "bob", permissions := 3 }] }
    file_trie := trie_insert trie_create "doc.txt"
    storage_servers := [{ id := 1, ip := "127.0.0.1", port := 9001, is_alive := true },
                        { id := 2, ip := "127.0.0.1", port := 9002, is_alive := true }]
    users := [{ username := "alice" }, { username := "bob" }]
    next_ss_id := 3 }

/-- A WRITE_LOCK request of `user` for sentence `0` of `doc.txt`. -/
def lock_msg (user : String) : Message :=
  { type := "WRITE_LOCK", username := user, filename := "doc.txt", data := "0" }

/-- An `ETIRW` request of `user` for sentence `0` of `doc.txt`. -/
def commit_msg (user : String) : Message :=
  { type := "ETIRW", username := user, filename := "doc.txt", data := "0" }

/-- The scenario state after session `5` (user `alice`) took the lock on
sentence `0` of `doc.txt` at time `100`. -/
def locked_state : NameServerState := (handle_write scenario_state 5 (lock_msg "alice") 100).1

/-- The lock held in `locked_state`. -/
def alice_lock : SentenceLock :=
  { filename := "doc.txt", sentence_number := 0, username := "alice", client_socket := 5,
    locked_at := 100 }

/-- The lock `bob` takes on socket `6`. -/
def bob_lock : SentenceLock :=
  { filename := "doc.txt", sentence_number := 0, username := "bob", client_socket := 6,
    locked_at := 100 }

/-- The scenario state after `bob` took the lock on socket `6` and the owner
then revoked his grant (the row of `access_control` is deleted). -/
def revoked_state : NameServerState :=
  let st := (handle_write scenario_state 6 (lock_msg "bob") 100).1
  { st with db := { st.db with access_control := [] } }

/-- The state after the same WRITE_LOCK request arrived on socket `sock` at
each of the times `nows`, one call after the other. -/
def repeat_write_lock (st : NameServerState) (sock : Int) (msg : Message) :
    List Int → NameServerState
  | [] => st
  | now :: rest => repeat_write_lock (handle_write st sock msg now).1 sock msg rest

/-- A CREATE request of `alice` for the name `filename`. -/
def create_msg (filename : String) : Message :=
  { type := "CREATE", username := "alice", filename := filename }

/-- A REGISTER_SS request announcing `address` (`ip:port`). -/
def register_msg (address : String) : Message :=
  { type := "REGISTER_SS", data := address }

/-- The end of a session in `handle_client` (`nm_main.c`): once
`receive_message` fails, that is when the connection is closed, the worker
leaves its `while` loop and runs `close(client_sock); return NULL;`.  No field
of `server_state` is read or written on that path, and `release_lock` is
called from the `ETIRW` branch only. -/
def handle_client_close (st : NameServerState) (_client_sock : Int) : NameServerState := st

/-! ## Requests and reachable states -/

/-- The events that can change the coordinator state: one constructor per
branch of the dispatcher in `handle_client` whose handler writes to
`server_state`, and the end of a session.  The remaining handlers
(`handle_view`, `handle_list`, `handle_undo`, `handle_exec`,
`handle_checkpoint`) only read the state. -/
inductive Request where
  | register_ss (msg : Message) (now : Int) (stack_ip : String) (stack_port : Int) : Request
  | register_client (msg : Message) (now : Int) : Request
  | create (msg : Message) (now : Int) : Request
  | createfolder (msg : Message) (now : Int) : Request
  | read (msg : Message) (now : Int) : Request
  | write (sock : Int) (msg : Message) (now : Int) : Request
  | write_commit (sock : Int) (msg : Message) (now : Int) (stack_value : Int) : Request
  | delete (msg : Message) : Request
  | addaccess (msg : Message) : Request
  | remaccess (msg : Message) : Request
  | request_access (msg : Message) (now : Int) (stack_param : String) : Request
  | close (sock : Int) : Request
deriving DecidableEq, Repr

def apply_request (st : NameServerState) : Request → NameServerState
  | .register_ss msg now stack_ip stack_port =>
    (handle_register_ss st msg now stack_ip stack_port).1
  | .register_client msg now => (handle_register_client st msg now).1
  | .create msg now => (handle_create st msg now).1
  | .createfolder msg now => (handle_createfolder st msg now).1
  | .read msg now => (handle_read st msg now).1
  | .write sock msg now => (handle_write st sock msg now).1
  | .write_commit sock msg now stack_value =>
    (handle_write_commit st sock msg now stack_value).1
  | .delete msg => (handle_delete st msg).1
  | .addaccess msg => (handle_addaccess st msg).1
  | .remaccess msg => (handle_remaccess st msg).1
  | .request_access msg now stack_param => (handle_request_access st msg now stack_param).1
  | .close sock => handle_client_close st sock

def run_requests (st : NameServerState) (reqs : List Request) : NameServerState :=
  reqs.foldl apply_request st

/-- The coordinator state set up by `main` over a fresh store: everything
empty, `next_ss_id = 1`. -/
def initial_state : NameServerState := {}

/-- Every grant of `access_control` names a file that has a row in `files`. -/
def grants_have_files (db : Database) : Prop :=
  ∀ g ∈ db.access_control, ∃ r ∈ db.files, r.filename = g.filename

/-- The PRIMARY KEY of `access_control`: at most one row per `(filename, username)`. -/
def access_unique (db : Database) : Prop :=
  (db.access_control.map (fun r => (r.filename, r.username))).Nodup

instance (db : Database) : Decidable (access_unique db) := by
  unfold access_unique; exact inferInstance

/-- The four ways in which a request can leave the catalog and the access
list: the grants stay and every file keeps a row with its name and owner; a
grant on a file of the catalog is upserted; one grant is deleted; a file is
deleted together with its grants. -/
def db_step (db db' : Database) : Prop :=
  (db'.access_control = db.access_control ∧
    ∀ x ∈ db.files, ∃ y ∈ db'.files, y.filename = x.filename ∧ y.owner = x.owner) ∨
  (∃ row, db' = upsert_access db row ∧ ∃ x ∈ db.files, x.filename = row.filename) ∨
  (∃ f u, db' = delete_access_row db f u) ∨
  (∃ f, db' = delete_access_rows (delete_file_rows db f) f)

/-- The rows of `access_control` for the pair `(filename, username)`. -/
def grants_on (db : Database) (filename username : String) : List AccessRow :=
  db.access_control.filter (fun g => g.filename = filename ∧ g.username = username)

/-- The registry as `handle_register_ss` builds it: ids are pairwise distinct
and at least `1` (`next_ss_id` starts at `1` and only grows). -/
def registry_ok (servers : List StorageServerInfo) : Prop :=
  (servers.map (fun s => s.id)).Nodup ∧ ∀ s ∈ servers, 1 ≤ s.id

instance (servers : List StorageServerInfo) : Decidable (registry_ok servers) := by
  unfold registry_ok; exact inferInstance

/-- The registry invariant carried along a run: the ids handed out so far
are pairwise distinct, at least `1` and below `next_ss_id`. -/
def registry_inv (st : NameServerState) : Prop :=
  (st.storage_servers.map (fun s => s.id)).Nodup ∧
  (∀ i ∈ st.storage_servers.map (fun s => s.id), 1 ≤ i ∧ i < st.next_ss_id) ∧
  1 ≤ st.next_ss_id

/-- What a request can do to the ids of the registry and to `next_ss_id`:
nothing, or one new node with id `next_ss_id` at the end. -/
def registry_step (st st' : NameServerState) : Prop :=
  (st'.storage_servers.map (fun s => s.id) = st.storage_servers.map (fun s => s.id) ∧
    st'.next_ss_id = st.next_ss_id) ∨
  (st'.storage_servers.map (fun s => s.id)
      = st.storage_servers.map (fun s => s.id) ++ [st.next_ss_id] ∧
    st'.next_ss_id = st.next_ss_id + 1)

/-- A REGISTER_CLIENT request of `user`. -/
def client_msg (user : String) : Message :=
  { type := "REGISTER_CLIENT", username := user }

/-- A READ request of `user` for `doc.txt`. -/
def read_msg (user : String) : Message :=
  { type := "READ", username := user, filename := "doc.txt" }

/-- A DELETE request of `user` for `doc.txt`. -/
def delete_msg (user : String) : Message :=
  { type := "DELETE", username := user, filename := "doc.txt" }

/-- An ADDACCESS request of `user` for `doc.txt` with the given payload. -/
def addaccess_msg (user payload : String) : Message :=
  { type := "ADDACCESS", username := user, filename := "doc.txt", data := payload }

/-- A REMACCESS request of `user` for `doc.txt` naming `target`. -/
def remaccess_msg (user target : String) : Message :=
  { type := "REMACCESS", username := user, filename := "doc.txt", data := target }

/-- A REQUESTACCESS request of `user` for `doc.txt` with the given payload. -/
def request_msg (user payload : String) : Message :=
  { type := "REQUESTACCESS", username := user, filename := "doc.txt", data := payload }

/-- Scenario 1 of the specification up to the CREATE: two nodes register,
`alice` and `bob` register, `alice` creates `doc.txt`. -/
def setup_requests : List Request :=
  [.register_ss (register_msg "127.0.0.1:9001") 1 "" 0,
   .register_ss (register_msg "127.0.0.1:9002") 2 "" 0,
   .register_client (client_msg "alice") 3,
   .register_client (client_msg "bob") 4,
   .create (create_msg "doc.txt") 5]

/-- The state reached from `initial_state` by `setup_requests`. -/
def setup_state : NameServerState := run_requests initial_state setup_requests

/-- The state `setup_state` after `bob` asked for write access to `doc.txt`
(REQUESTACCESS with payload `REQUEST|2`) at time 6. -/
def requested_state : NameServerState :=
  (handle_request_access setup_state (request_msg "bob" "REQUEST|2") 6 "").1

/-- The row of `access_requests` written for that request. -/
def bob_request : AccessRequestRow :=
  { id := 1, filename := "doc.txt", requester := "bob", access_type := 2, requested_at := 6 }

/-- The state `setup_state` after `alice` took the lock on sentence 0 of
`doc.txt` on socket 5 at time 6. -/
def setup_locked_state : NameServerState :=
  (handle_write setup_state 5 (lock_msg "alice") 6).1

/-- The state `setup_state` after node 1, the primary of `doc.txt`, went down. -/
def primary_down_state : NameServerState :=
  { setup_state with
    storage_servers := setup_state.storage_servers.map
      (fun s => if s.id = 1 then { s with is_alive := false } else s) }

/-! ## `nm_handlers2.c`: `handle_undo`, `handle_checkpoint` -/

/-- The tail "Get SS info" of `handle_undo` and `handle_checkpoint`: the
response built from the file's row and the registry, `text` being what
follows the primary's endpoint in the `snprintf` format. -/
def endpoint_info (st : NameServerState) (filename : String) (text : String)
    (resp : Message) : Message :=
  match select_file st.db filename with
  | some row =>
    let ss_id := row.storage_server_id
    let replica_id := column_int row.replica_server_id
    let ss := get_ss_by_id st.storage_servers ss_id
    let replica := if replica_id ≥ 0 then get_ss_by_id st.storage_servers replica_id else none
    match ss with
    | some ss =>
      let data := snprintf 65536 ("SS:" ++ ss.ip ++ ":" ++ toString ss.port ++ text)
      match replica with
      | some replica =>
        let replica_info := snprintf 128
          ("|REPLICA:" ++ replica.ip ++ ":" ++ toString replica.port)
        { resp with error_code := ERR_SUCCESS,
                    data := strncat data replica_info (65536 - data.length - 1) }
      | none => { resp with error_code := ERR_SUCCESS, data := data }
    | none => set_message_error resp ERR_SS_NOT_FOUND "Storage server not available"
  | none => set_message_error resp ERR_FILE_NOT_FOUND "File not found"

/-- The C function `handle_undo`: the caller needs `ACCESS_WRITE`. -/
def handle_undo (st : NameServerState) (msg : Message) : NameServerState × Message :=
  let resp := init_message
  if !trie_search st.file_trie msg.filename then
    (st, set_message_error resp ERR_FILE_NOT_FOUND "File not found")
  else if !check_permission st.db msg.username msg.filename ACCESS_WRITE then
    (st, set_message_error resp ERR_PERMISSION_DENIED "No write permission")
  else (st, endpoint_info st msg.filename "" resp)

/-- The C function `handle_checkpoint` (sub-commands `CREATE|tag`, `LIST`,
`REVERT|tag` in the payload).  The locals `cmd` and `tag` filled by `sscanf`
are not read again: whatever the sub-command, the caller needs `ACCESS_READ`,
and the whole payload is echoed after `|CMD:`. -/
def handle_checkpoint (st : NameServerState) (msg : Message) : NameServerState × Message :=
  let resp := init_message
  match sscanf_cmd_param msg.data with
  | (none, _) => (st, set_message_error resp ERR_INVALID_PARAM "Invalid checkpoint command")
  | (some _, _) =>
    if !trie_search st.file_trie msg.filename then
      (st, set_message_error resp ERR_FILE_NOT_FOUND "File not found")
    else if !check_permission st.db msg.username msg.filename ACCESS_READ then
      (st, set_message_error resp ERR_PERMISSION_DENIED "No read permission")
    else (st, endpoint_info st msg.filename ("|CMD:" ++ msg.data) resp)

/-- A CHECKPOINT request of `user` for `doc.txt` with the given payload. -/
def checkpoint_msg (user payload : String) : Message :=
  { type := "CHECKPOINT", username := user, filename := "doc.txt", data := payload }

/-- An UNDO request of `user` for `doc.txt`. -/
def undo_msg (user : String) : Message :=
  { type := "UNDO", username := user, filename := "doc.txt" }

/-- The state `setup_state` after `alice` granted `bob` read access
(`ACCESS_READ`, no write bit) to `doc.txt`. -/
def read_granted_state : NameServerState :=
  (handle_addaccess setup_state (addaccess_msg "alice" "bob|1")).1

/-- An `ETIRW` request of `user` for `doc.txt` with the given payload. -/
def commit_msg_with (user payload : String) : Message :=
  { type := "ETIRW", username := user, filename := "doc.txt", data := payload }

/-- A READ request of `alice` for the name `filename`. -/
def read_name_msg (filename : String) : Message :=
  { type := "READ", username := "alice", filename := filename }

/-! ## `strstr`, and the request check of the storage node (`ss_handlers.c`) -/

/-- The test `strstr(haystack, needle) != NULL` from the position where
`haystack` starts: `needle` occurs somewhere in it. -/
def strstr_from (needle : List Char) : List Char → Bool
  | [] => needle.isEmpty
  | c :: rest => needle.isPrefixOf (c :: rest) || strstr_from needle rest

/-- The test `strstr(haystack, needle) != NULL`. -/
def strstr (haystack needle : String) : Bool := strstr_from needle.data haystack.data

/-- The C function `validate_basic_request` of the storage node, called first
by each of its handlers: a user name, a non-empty file name without `..` and
without `/`. -/
def validate_basic_request (msg : Message) : Bool :=
  if msg.username.length = 0 then false
  else if msg.filename.length = 0 then false
  else if strstr msg.filename ".." || msg.filename.data.contains '/' then false
  else true

/-! ## Sequences of operations on the name index -/

/-- A call of `trie_insert` or of `trie_delete` with the given name. -/
inductive TrieOp where
  | insert (filename : String) : TrieOp
  | delete (filename : String) : TrieOp
deriving DecidableEq, Repr

def TrieOp.key : TrieOp → String
  | .insert k => k
  | .delete k => k

def apply_trie_op (trie : Trie) : TrieOp → Trie
  | .insert k => trie_insert trie k
  | .delete k => trie_delete trie k

/-- The index after the calls `ops`, one after the other, on a fresh
`trie_create()`. -/
def run_trie_ops (ops : List TrieOp) : Trie := ops.foldl apply_trie_op trie_create

/-- A C string: every character is one byte. -/
def byte_string (s : String) : Prop := ∀ c ∈ s.data, c.toNat < 256

instance (s : String) : Decidable (byte_string s) := by
  unfold byte_string; exact inferInstance

/-- The set the index stands for, in the words of the specification: `k` is
in it when `k` has been inserted and not deleted since its last insertion,
that is, when the last of the calls that name `k` is an insertion. -/
def live_key (ops : List TrieOp) (k : String) : Bool :=
  match ops.reverse.find? (fun op => op.key = k) with
  | some (.insert _) => true
  | _ => false

/-- The finite set of the keys `k` with `live_key ops k`. -/
def live_keys (ops : List TrieOp) : Finset String :=
  (ops.map TrieOp.key).toFinset.filter (fun k => live_key ops k = true)

/-! ## The catalog and the `file_count` fields -/

/-- The number of rows of `files` (files and folders) whose
`storage_server_id` is `id`. -/
def primary_count (db : Database) (id : Int) : Nat :=
  (db.files.filter (fun r => r.storage_server_id = id)).length

/-- The pairs `(filename, storage_server_id)` of the rows of `files`. -/
def placements (db : Database) : List (String × Int) :=
  db.files.map (fun r => (r.filename, r.storage_server_id))

/-- The value of the local `ss_id` of `handle_delete` once the row has been
read: the primary of the file, `-1` when the file has no row. -/
def primary_of (db : Database) (filename : String) : Int :=
  match select_file db filename with
  | some row => row.storage_server_id
  | none => -1

/-- The `filename` field of the message of a request. -/
def Request.filename : Request → String
  | .register_ss msg _ _ _ => msg.filename
  | .register_client msg _ => msg.filename
  | .create msg _ => msg.filename
  | .createfolder msg _ => msg.filename
  | .read msg _ => msg.filename
  | .write _ msg _ => msg.filename
  | .write_commit _ msg _ _ => msg.filename
  | .delete msg => msg.filename
  | .addaccess msg => msg.filename
  | .remaccess msg => msg.filename
  | .request_access msg _ _ => msg.filename
  | .close _ => ""

/-- What a request for the name `name` can do to the registry, the index and
the placements: nothing; a new node without files is registered; `name` is
created on the node of index `i`; `name` is deleted. -/
def catalog_step (st st' : NameServerState) (name : String) : Prop :=
  (st'.storage_servers = st.storage_servers ∧ st'.next_ss_id = st.next_ss_id ∧
    st'.file_trie = st.file_trie ∧ placements st'.db = placements st.db) ∨
  (∃ s : StorageServerInfo, s.id = st.next_ss_id ∧ s.file_count = 0 ∧
    st'.storage_servers = st.storage_servers ++ [s] ∧ st'.next_ss_id = st.next_ss_id + 1 ∧
    st'.file_trie = st.file_trie ∧ st'.db = st.db) ∨
  (∃ i, i < st.storage_servers.length ∧ trie_search st.file_trie name = false ∧
    (∀ p ∈ placements st.db, p.1 ≠ name) ∧
    st'.storage_servers = increment_file_count st.storage_servers i ∧
    st'.next_ss_id = st.next_ss_id ∧
    st'.file_trie = trie_insert st.file_trie name ∧
    placements st'.db = placements st.db ++ [(name, (st.storage_servers.getD i default).id)]) ∨
  (trie_search st.file_trie name = true ∧
    st'.storage_servers = decrement_file_count st.storage_servers (primary_of st.db name) ∧
    st'.next_ss_id = st.next_ss_id ∧
    st'.file_trie = trie_delete st.file_trie name ∧
    placements st'.db = (placements st.db).filter (fun p => p.1 ≠ name))

/-- The invariant behind the `file_count` fields: registry ids are distinct
and below `next_ss_id`, names are distinct in `files`, every primary is a
registered node, and each node's `file_count` is the number of rows that name
it as primary. -/
def catalog_inv (st : NameServerState) : Prop :=
  registry_inv st ∧
  ((placements st.db).map Prod.fst).Nodup ∧
  (∀ p ∈ placements st.db, p.2 ∈ st.storage_servers.map (fun s => s.id)) ∧
  (∀ s ∈ st.storage_servers, s.file_count = (primary_count st.db s.id : Int))

/-- The index and the table `files` hold the same names (among C strings),
and the root of the index is allocated. -/
def index_inv (st : NameServerState) : Prop :=
  st.file_trie.root.is_null = false ∧
  ∀ name, byte_string name →
    (trie_search st.file_trie name = true ↔ name ∈ (placements st.db).map Prod.fst)

/-! ## `utils.c`: `trim` and `parse_sentences` -/

def MAX_SENTENCE : Nat := 1024
def MAX_SENTENCES : Nat := 1000
def BUFFER_SIZE : Nat := 65536

/-- The C function `trim`, as the string its result points to: the leading
white space is skipped; if nothing is left that is the result; else the
trailing white space behind the first character is cut. -/
def trim (s : List Char) : List Char :=
  match s.dropWhile is_trim_space with
  | [] => []
  | c :: rest => c :: (rest.reverse.dropWhile is_trim_space).reverse

/-- The test `content[i] == '.' || content[i] == '!' || content[i] == '?'`. -/
def is_delimiter (c : Char) : Bool := c = '.' || c = '!' || c = '?'

/-- The `for` loop of `parse_sentences` from position `i` on: `content[i ..]`
is the first argument, `current` holds the `curr_pos` characters of the buffer
`current`, `sentences` the `count` sentences stored so far. -/
def parse_loop (max_sentences : Nat) :
    List Char → List Char → List String → List Char × List String
  | [], current, sentences => (current, sentences)
  | c :: rest, current, sentences =>
    if sentences.length < max_sentences then
      let current := if current.length < MAX_SENTENCE - 1 then current ++ [c] else current
      if is_delimiter c then
        let trimmed := trim current
        let sentences :=
          if trimmed.length > 0 then sentences ++ [strncpy ⟨trimmed⟩ (MAX_SENTENCE - 1)]
          else sentences
        parse_loop max_sentences rest [] sentences
      else parse_loop max_sentences rest current sentences
    else (current, sentences)

/-- The block "Handle remaining content" of `parse_sentences`. -/
def parse_rest (max_sentences : Nat) (current : List Char) (sentences : List String) :
    List String :=
  if current.length > 0 then
    let trimmed := trim current
    if trimmed.length > 0 ∧ sentences.length < max_sentences then
      sentences ++ [strncpy ⟨trimmed⟩ (MAX_SENTENCE - 1)]
    else sentences
  else sentences

/-- The C function `parse_sentences`: the sentences stored in the array
`sentences`, the returned `count` being the length of the list. -/
def parse_sentences (content : String) (max_sentences : Nat) : List String :=
  let r := parse_loop max_sentences content.data [] []
  parse_rest max_sentences r.1 r.2

/-- The loop that rebuilds the content from the sentences in `cmd_write`
(client) and `handle_write` (storage node): `if (i > 0) strcat(buf, " ");
strcat(buf, sentences[i]);`. -/
def rebuild_from : String → Nat → List String → String
  | new_content, _, [] => new_content
  | new_content, i, s :: rest =>
    rebuild_from ((if i > 0 then new_content ++ " " else new_content) ++ s) (i + 1) rest

def rebuild_content (sentences : List String) : String := rebuild_from "" 0 sentences

/-! ## The sentence-splitting rule of the specification -/

/-- The pieces obtained by cutting a text after every occurrence of `.`, `!`
or `?`: the delimiter ends its piece, the text after the last delimiter is the
last piece. -/
def spec_pieces : List Char → List (List Char)
  | [] => [[]]
  | c :: rest =>
    if is_delimiter c then [c] :: spec_pieces rest
    else match spec_pieces rest with
      | [] => [[c]]
      | p :: ps => (c :: p) :: ps

/-- A piece without its leading and trailing white space. -/
def spec_trim (p : List Char) : List Char :=
  ((p.dropWhile is_trim_space).reverse.dropWhile is_trim_space).reverse

/-- The sentences of a text according to the specification: the pieces,
trimmed, without those that are empty after trimming. -/
def spec_sentences (content : String) : List String :=
  (((spec_pieces content.data).map spec_trim).filter (fun p => !p.isEmpty)).map String.mk

/-! ## Pieces, sentences and the rebuilt content as character lists -/

/-- The trimmed, non-empty pieces among `ps`. -/
def sentences_of (ps : List (List Char)) : List (List Char) :=
  (ps.map spec_trim).filter (fun p => !p.isEmpty)

/-- The characters of the content rebuilt from the sentences `ts`: a blank
before every sentence but the first. -/
def join_chars : List (List Char) → List Char
  | [] => []
  | t :: ts => t ++ ts.flatMap (fun s => ' ' :: s)

/-- A text without delimiter. -/
def plain (t : List Char) : Prop := ∀ c ∈ t, is_delimiter c = false

/-- A text that ends with a delimiter and has no other. -/
def delimited (t : List Char) : Prop :=
  ∃ body d, t = body ++ [d] ∧ plain body ∧ is_delimiter d = true

/-- The shape of the list of pieces of a text: the last piece is without
delimiter, every other piece ends with its only delimiter. -/
def good_pieces : List (List Char) → Prop
  | [] => False
  | [p] => plain p
  | p :: q :: qs => delimited p ∧ good_pieces (q :: qs)

/-- A content with two sentences, the second of `MAX_SENTENCE - 1`
characters: `a.` followed, without a blank, by 1022 letters `b` and a full
stop. -/
def long_sentence_content : String := ⟨'a' :: '.' :: List.replicate 1022 'b' ++ ['.']⟩

/-! ## `nm_handlers.c`: `handle_view` -/

/-- The conversion `%-Ns` of `snprintf`: the text, then blanks up to `n` characters. -/
def pad_right (n : Nat) (s : String) : String := s ++ ⟨List.replicate (n - s.length) ' '⟩

/-- The conversion `%Nd` of `snprintf`: blanks up to `n` characters, then the number. -/
def pad_left (n : Nat) (s : String) : String := ⟨List.replicate (n - s.length) ' '⟩ ++ s

/-- The text `snprintf` leaves in `line` for one row of the listing.
`local_time t` is the text that `strftime` writes for `localtime(&t)` with the
format `%Y-%m-%d %H:%M:%S`; it depends on the time zone of the host. -/
def view_line (show_detailed : Bool) (local_time : Int → String) (r : ViewRow) : String :=
  if show_detailed then
    snprintf 512 ((if r.is_folder ≠ 0 then "d" else "-") ++ " " ++ pad_right 30 r.filename ++
      " " ++ pad_right 15 r.owner ++ " " ++ pad_left 5 (toString r.word_count) ++ "w " ++
      pad_left 3 (toString r.sentence_count) ++ "s  " ++ local_time r.created_at ++ "\n")
  else snprintf 512 ((if r.is_folder ≠ 0 then "[DIR] " else "") ++ r.filename ++ "\n")

/-- The loop `while (sqlite3_step(stmt) == SQLITE_ROW)` of `handle_view` over
the rows still to come: the line of a row is appended to `result` when it
fits the buffer, `if (strlen(result) + strlen(line) < sizeof(result) - 1)`,
and is left out otherwise. -/
def view_loop (line_of : ViewRow → String) : String → Nat → List ViewRow → String × Nat
  | result, count, [] => (result, count)
  | result, count, r :: rest =>
    if result.length + (line_of r).length < BUFFER_SIZE - 1 then
      view_loop line_of (result ++ line_of r) (count + 1) rest
    else view_loop line_of result count rest

/-- The C function `handle_view`: flag `-a` when the payload contains `-a`,
flag `-l` when it contains `-l`. -/
def handle_view (st : NameServerState) (msg : Message) (local_time : Int → String) :
    NameServerState × Message :=
  let resp := init_message
  let show_all := strstr msg.data "-a"
  let show_detailed := strstr msg.data "-l"
  let rows := view_query st.db msg.username show_all
  let r := view_loop (view_line show_detailed local_time) "" 0 rows
  let result := if r.2 = 0 then "No files found\n" else r.1
  (st, { resp with error_code := ERR_SUCCESS, data := strncpy result (BUFFER_SIZE - 1) })

/-- The lines of the rows `rows`, one after the other. -/
def view_text (line_of : ViewRow → String) : List ViewRow → String
  | [] => ""
  | r :: rest => line_of r ++ view_text line_of rest

/-- The number of characters of the lines of `rows`. -/
def line_total (line_of : ViewRow → String) (rows : List ViewRow) : Nat :=
  (rows.map (fun r => (line_of r).length)).sum

/-- A VIEW request of `user` with the flags `flags` as payload. -/
def view_msg (user flags : String) : Message :=
  { type := "VIEW", username := user, data := flags }

/-- The text of `strftime` for the first ten seconds of 1970 on a host whose
time zone is UTC. -/
def epoch_clock (t : Int) : String := "1970-01-01 00:00:0" ++ toString t

/-- The `i`-th of 255 names of 255 characters each: `i` letters `b`, then
letters `a`. -/
def long_name (i : Nat) : String := ⟨List.replicate i 'b' ++ List.replicate (255 - i) 'a'⟩

/-- The row of `files` for a file `name` created by `owner` at time `now`
while node 1 is the only registered node. -/
def created_row (name owner : String) (now : Int) : FileRow :=
  { filename := name, owner := owner, storage_server_id := 1, replica_server_id := some (-1),
    created_at := now, modified_at := now, accessed_at := now }

/-- The rows of 256 files of `alice`: the 255 names `long_name i` and a name
of 250 letters `c`. -/
def big_other_rows : List FileRow :=
  (List.range 255).map (fun i => created_row (long_name i) "alice" 4) ++
    [created_row ⟨List.replicate 250 'c'⟩ "alice" 5]

/-- The state after one node and the users `alice` and `bob` registered,
`alice` created the 256 files of `big_other_rows` and `bob` created `zzz`:
a catalog of 257 files. -/
def big_catalog_state : NameServerState :=
  { db := { files := big_other_rows ++ [created_row "zzz" "bob" 6] }
    file_trie := ((big_other_rows.map (fun r => r.filename)) ++ ["zzz"]).foldl trie_insert
      trie_create
    storage_servers := [{ id := 1, ip := "127.0.0.1", port := 9001, is_alive := true,
                          last_heartbeat := 1, file_count := 257 }]
    users := [{ username := "alice", registered_at := 2 },
              { username := "bob", registered_at := 3 }]
    next_ss_id := 2 }

/-! ## Requests whose name field is not zero-terminated -/

/-- The text read at `msg->filename` when none of the 256 bytes of the field
is zero: `receive_message` copies the bytes as they arrive, and the field's 256
letters `x` run on into the payload `0` that follows it in `Message`. -/
def unterminated_name : String := ⟨List.replicate 256 'x' ++ ['0']⟩

/-- A request of type `type` by `alice` whose field `filename` holds 256
letters `x` and whose payload is `0`. -/
def unterminated_msg (type : String) : Message :=
  { type := type, username := "alice", filename := unterminated_name, data := "0" }

/-- The state after a node registered and `alice` sent a CREATE whose name
field is not zero-terminated. -/
def unterminated_state : NameServerState :=
  run_requests initial_state
    [.register_ss (register_msg "127.0.0.1:9001") 1 "" 0,
     .create (unterminated_msg "CREATE") 2]

/-! ## `nm_main.c`: the start of the coordinator -/

/-- The C function `load_files_from_db`: every `filename` of the table `files`
is inserted in the index. -/
def load_files_from_db (file_trie : Trie) (db : Database) : Trie :=
  db.files.foldl (fun t r => trie_insert t r.filename) file_trie

/-- The state `main` sets up before it accepts the first connection, over the
store `db` that an earlier run of the coordinator left in `data/nameserver.db`:
`memset(&server_state, 0, ...)`, `trie_create`, `next_ss_id = 1`,
`init_database` (every `CREATE TABLE` is `IF NOT EXISTS`) and
`load_files_from_db`.  The registry, the users and the lock table are empty. -/
def start_state (db : Database) : NameServerState :=
  { db := db, file_trie := load_files_from_db trie_create db, next_ss_id := 1 }

/-- The coordinator is stopped and started again: the store is all that is
kept of the state. -/
def restart (st : NameServerState) : NameServerState := start_state st.db

/-! ## The registry in the states the coordinator can be in -/

/-- What holds of the registry in every state the coordinator can be in: the
only assignment to `is_alive` is `ss->is_alive = 1` in `handle_register_ss`,
and the ids are handed out from `next_ss_id` in increasing order.  Every
registered node is alive, the ids grow along the array, and they are at least
`1` and below `next_ss_id`, which is at least `1`. -/
def registry_live (st : NameServerState) : Prop :=
  (∀ s ∈ st.storage_servers, s.is_alive = true) ∧
  (st.storage_servers.map (fun s => s.id)).Pairwise (fun a b => a < b) ∧
  (∀ i ∈ st.storage_servers.map (fun s => s.id), 1 ≤ i ∧ i < st.next_ss_id) ∧
  1 ≤ st.next_ss_id

instance (st : NameServerState) : Decidable (registry_live st) := by
  unfold registry_live; exact inferInstance

/-- What a request can do to the ids and the `is_alive` flags of the
registry: nothing, or one new node, alive and with the id `next_ss_id`, at the
end. -/
def live_step (st st' : NameServerState) : Prop :=
  (st'.storage_servers.map (fun s => (s.id, s.is_alive))
      = st.storage_servers.map (fun s => (s.id, s.is_alive)) ∧
    st'.next_ss_id = st.next_ss_id) ∨
  (st'.storage_servers.map (fun s => (s.id, s.is_alive))
      = st.storage_servers.map (fun s => (s.id, s.is_alive)) ++ [(st.next_ss_id, true)] ∧
    st'.next_ss_id = st.next_ss_id + 1)

end NetworkDoc

/-! # Theorems -/

namespace NetworkDoc

/-! ## Strings -/

theorem strncpy_of_le (s : String) (n : Nat) (h : s.length ≤ n) : strncpy s n = s := by
  unfold strncpy
  have : s.data.take n = s.data := List.take_of_length_le h
  rw [this]

/-! ## The conversion `%d` of `sscanf` -/

theorem digits_value_append (l1 l2 : List Char) (acc : Nat) :
    digits_value (l1 ++ l2) acc = digits_value l2 (digits_value l1 acc) := by
  induction l1 generalizing acc with
  | nil => rfl
  | cons c l1 ih => exact ih _

theorem toDigitsCore_append (fuel n : Nat) (ds : List Char) :
    Nat.toDigitsCore 10 fuel n ds = Nat.toDigitsCore 10 fuel n [] ++ ds := by
  induction fuel generalizing n ds with
  | zero => rfl
  | succ fuel ih =>
    unfold Nat.toDigitsCore
    simp only
    split
    · rfl
    · rw [ih (n / 10) (Nat.digitChar (n % 10) :: ds), ih (n / 10) [Nat.digitChar (n % 10)],
        List.append_assoc, List.singleton_append]

theorem digitChar_value (k : Nat) (h : k < 10) :
    (Nat.digitChar k).toNat - '0'.toNat = k ∧ (Nat.digitChar k).isDigit = true := by
  interval_cases k <;> decide

theorem toDigitsCore_spec (fuel n : Nat) (h : n < fuel) :
    digits_value (Nat.toDigitsCore 10 fuel n []) 0 = n ∧
    (∀ c ∈ Nat.toDigitsCore 10 fuel n [], c.isDigit = true) ∧
    Nat.toDigitsCore 10 fuel n [] ≠ [] := by
  induction fuel generalizing n with
  | zero => omega
  | succ fuel ih =>
    have hd := digitChar_value (n % 10) (Nat.mod_lt _ (by decide))
    unfold Nat.toDigitsCore
    simp only
    by_cases h0 : n / 10 = 0
    · rw [if_pos h0]
      refine ⟨?_, ?_, by simp⟩
      · show 0 * 10 + ((Nat.digitChar (n % 10)).toNat - '0'.toNat) = n
        rw [hd.1]; omega
      · intro c hc
        rw [List.mem_singleton] at hc
        rw [hc]; exact hd.2
    · rw [if_neg h0, toDigitsCore_append]
      obtain ⟨h1, h2, h3⟩ := ih (n / 10) (by omega)
      refine ⟨?_, ?_, by simp⟩
      · rw [digits_value_append, h1]
        show n / 10 * 10 + ((Nat.digitChar (n % 10)).toNat - '0'.toNat) = n
        rw [hd.1]; omega
      · intro c hc
        rcases List.mem_append.mp hc with hc | hc
        · exact h2 c hc
        · rw [List.mem_singleton] at hc
          rw [hc]; exact hd.2

theorem repr_digits (n : Nat) :
    digits_value (Nat.repr n).data 0 = n ∧
    (∀ c ∈ (Nat.repr n).data, c.isDigit = true) ∧ (Nat.repr n).data ≠ [] :=
  toDigitsCore_spec (n + 1) n (Nat.lt_succ_self n)

theorem isDigit_toNat (c : Char) (hc : c.isDigit = true) : 48 ≤ c.toNat ∧ c.toNat ≤ 57 := by
  unfold Char.isDigit at hc
  simp only [Bool.and_eq_true, decide_eq_true_eq, ge_iff_le] at hc
  obtain ⟨h1, h2⟩ := hc
  rw [UInt32.le_def] at h1 h2
  exact ⟨h1, h2⟩

theorem isDigit_plain (c : Char) (hc : c.isDigit = true) :
    isspace c = false ∧ c ≠ '-' ∧ c ≠ '+' := by
  have h := isDigit_toNat c hc
  refine ⟨?_, ?_, ?_⟩
  · unfold isspace
    have e : ∀ d : Char, c = d → c.toNat = d.toNat := fun d hd => by rw [hd]
    have h1 : c ≠ ' ' := fun hs => by have := e _ hs; simp at this; omega
    have h2 : c ≠ '\t' := fun hs => by have := e _ hs; simp at this; omega
    have h3 : c ≠ '\n' := fun hs => by have := e _ hs; simp at this; omega
    have h4 : c ≠ '\r' := fun hs => by have := e _ hs; simp at this; omega
    simp [h1, h2, h3, h4]
    omega
  · intro hs; rw [hs] at h; revert h; decide
  · intro hs; rw [hs] at h; revert h; decide

theorem takeWhile_all {α : Type} (p : α → Bool) (l : List α) (h : ∀ x ∈ l, p x = true) :
    l.takeWhile p = l := by
  induction l with
  | nil => rfl
  | cons x l ih =>
    rw [List.takeWhile_cons_of_pos (h x (List.mem_cons_self _ _)),
      ih (fun y hy => h y (List.mem_cons_of_mem _ hy))]

/-- The conversion `%d` on a numeral without sign. -/
theorem sscanf_d_digits (ds : List Char) (hne : ds ≠ []) (hd : ∀ c ∈ ds, c.isDigit = true) :
    sscanf_d ⟨ds⟩ = some (int_of_long (strtol_value (digits_value ds 0 : Int))) := by
  cases ds with
  | nil => exact absurd rfl hne
  | cons c rest =>
    obtain ⟨hs, hm, hp⟩ := isDigit_plain c (hd c (List.mem_cons_self _ _))
    unfold sscanf_d
    simp only
    rw [List.dropWhile_cons_of_neg (by simp [hs])]
    have hneg : numeral_neg (c :: rest) = false := by
      unfold numeral_neg
      split
      · rename_i heq; cases heq; exact absurd rfl hm
      · rfl
    have hbody : numeral_body (c :: rest) = c :: rest := by
      unfold numeral_body
      split
      · rename_i heq; cases heq; exact absurd rfl hm
      · rename_i heq; cases heq; exact absurd rfl hp
      · rfl
    rw [hneg, hbody, takeWhile_all _ _ hd]
    simp

/-- The conversion `%d` on a numeral with a minus sign. -/
theorem sscanf_d_minus_digits (ds : List Char) (hne : ds ≠ [])
    (hd : ∀ c ∈ ds, c.isDigit = true) :
    sscanf_d ⟨'-' :: ds⟩ = some (int_of_long (strtol_value (- (digits_value ds 0 : Int)))) := by
  unfold sscanf_d
  simp only
  rw [List.dropWhile_cons_of_neg (by decide),
    show numeral_body ('-' :: ds) = ds from rfl, show numeral_neg ('-' :: ds) = true from rfl,
    takeWhile_all _ _ hd]
  cases ds with
  | nil => exact absurd rfl hne
  | cons c rest => simp

theorem int_of_long_of_range (i : Int) (h : int_range i) :
    int_of_long (strtol_value i) = i := by
  unfold int_range at h
  unfold int_of_long strtol_value LONG_MIN LONG_MAX
  rw [if_neg (by omega), if_neg (by omega)]
  omega

/-- A payload that is the decimal numeral of an `int`, as `snprintf` writes it
for `%d`, is read back by `sscanf` as that `int`. -/
theorem sscanf_d_toString (i : Int) (h : int_range i) : sscanf_d (toString i) = some i := by
  cases i with
  | ofNat m =>
    obtain ⟨h1, h2, h3⟩ := repr_digits m
    show sscanf_d (Nat.repr m) = some (Int.ofNat m)
    have h4 : sscanf_d (Nat.repr m) = _ := sscanf_d_digits (Nat.repr m).data h3 h2
    have h5 : int_of_long (strtol_value (Int.ofNat m)) = Int.ofNat m :=
      int_of_long_of_range _ h
    rw [h4, h1]
    exact congrArg some h5
  | negSucc m =>
    obtain ⟨h1, h2, h3⟩ := repr_digits (m + 1)
    show sscanf_d ("-" ++ Nat.repr (m + 1)) = some (Int.negSucc m)
    have h4 : sscanf_d ("-" ++ Nat.repr (m + 1)) = _ :=
      sscanf_d_minus_digits (Nat.repr (m + 1)).data h3 h2
    have h5 : int_of_long (strtol_value (Int.negSucc m)) = Int.negSucc m :=
      int_of_long_of_range _ h
    rw [h4, h1]
    exact congrArg some h5

/-- What `sscanf` stores for `%d` is an `int`. -/
theorem sscanf_d_int_range (s : String) (n : Int) (h : sscanf_d s = some n) : int_range n := by
  unfold sscanf_d at h
  simp only at h
  split at h
  · cases h
  · cases h
    unfold int_range int_of_long
    omega

/-- Examples of the conversion `%d`: numerals in the range of `int`, with sign,
white space and text behind them, and numerals beyond the range, of which the
low 32 bits are stored. -/
theorem sscanf_d_examples :
    sscanf_d "7" = some 7 ∧ sscanf_d " +12abc" = some 12 ∧ sscanf_d "-3" = some (-3) ∧
    sscanf_d "abc" = none ∧ sscanf_d "-" = none ∧
    sscanf_d "2147483647" = some 2147483647 ∧
    sscanf_d "2147483648" = some (-2147483648) ∧
    sscanf_d "4294967296" = some 0 ∧
    sscanf_d "99999999999999999999" = some (-1) := by
  decide

/-! ## The lock scan and the release loop -/

/-- With unique keys, the scan is decided by the one lock on the pair. -/
theorem scan_locks_of_mem (f : String) (n s : Int) (locks : List SentenceLock)
    (hu : locks_unique locks) (l : SentenceLock) (hl : l ∈ locks)
    (hf : l.filename = f) (hn : l.sentence_number = n) :
    scan_locks f n s locks =
      if l.client_socket = s then .held else .locked_by l.username := by
  induction locks with
  | nil => cases hl
  | cons x rest ih =>
    unfold locks_unique at hu
    rw [List.map_cons, List.nodup_cons] at hu
    unfold scan_locks
    rcases List.mem_cons.mp hl with rfl | hl
    · rw [if_pos ⟨hf, hn⟩]
    · have hx : ¬ (x.filename = f ∧ x.sentence_number = n) := by
        rintro ⟨h1, h2⟩
        apply hu.1
        rw [List.mem_map]
        exact ⟨l, hl, by rw [hf, hn, h1, h2]⟩
      rw [if_neg hx]
      exact ih hu.2 hl

theorem release_lock_loop_sublist (f : String) (n : Int) (u : String) (s : Int)
    (locks : List SentenceLock) : (release_lock_loop f n u s locks).Sublist locks := by
  induction locks with
  | nil => exact List.Sublist.refl _
  | cons l rest ih =>
    unfold release_lock_loop
    split
    · exact List.sublist_cons_self _ _
    · exact ih.cons₂ _

theorem locks_on_length_le_one (locks : List SentenceLock) (hu : locks_unique locks)
    (f : String) (i : Int) : (locks_on locks f i).length ≤ 1 := by
  induction locks with
  | nil => simp [locks_on]
  | cons x rest ih =>
    unfold locks_unique at hu
    rw [List.map_cons, List.nodup_cons] at hu
    unfold locks_on at *
    rw [List.filter_cons]
    split
    · rename_i hx
      simp only [decide_eq_true_eq] at hx
      have : List.filter (fun l => decide (l.filename = f ∧ l.sentence_number = i)) rest = [] := by
        rw [List.filter_eq_nil_iff]
        intro a ha hka
        simp only [decide_eq_true_eq] at hka
        apply hu.1
        rw [List.mem_map]
        exact ⟨a, ha, by rw [hka.1, hka.2, hx.1, hx.2]⟩
      rw [this]; simp
    · exact ih hu.2

/-! ## What `handle_write` and `handle_write_commit` do to the lock table -/

/-- The lock table after `handle_write`: unchanged, or grown at the end by the
new lock, which happens only when the scan found the pair free. -/
theorem handle_write_locks (st : NameServerState) (sock : Int) (msg : Message) (now : Int) :
    (handle_write st sock msg now).1.locks = st.locks ∨
    ∃ n, sscanf_d msg.data = some n ∧ scan_locks msg.filename n sock st.locks = .free ∧
      (handle_write st sock msg now).1.locks = st.locks ++ [new_lock sock msg now n] := by
  unfold handle_write
  cases hp : sscanf_d msg.data with
  | none => left; rfl
  | some n =>
    simp only
    split
    · left; rfl
    · split
      · left; rfl
      · split
        · left; rfl
        · left; rfl
        · rename_i hscan
          split
          · right; exact ⟨n, rfl, hscan, rfl⟩
          · left; rfl

theorem handle_write_commit_locks (st : NameServerState) (sock : Int) (msg : Message)
    (now stack_value : Int) :
    (handle_write_commit st sock msg now stack_value).1.locks =
      release_lock_loop msg.filename (commit_sentence_num msg stack_value) msg.username sock
        st.locks := rfl

theorem new_lock_key (sock : Int) (msg : Message) (now n : Int) (hwf : msg.wf) :
    (new_lock sock msg now n).filename = msg.filename ∧
    (new_lock sock msg now n).sentence_number = n ∧
    (new_lock sock msg now n).username = msg.username ∧
    (new_lock sock msg now n).client_socket = sock := by
  unfold Message.wf MAX_FILENAME MAX_USERNAME at hwf
  refine ⟨strncpy_of_le _ _ ?_, rfl, strncpy_of_le _ _ ?_, rfl⟩
  · unfold MAX_FILENAME; omega
  · unfold MAX_USERNAME; omega

theorem snprintf_of_lt (size : Nat) (s : String) (h : s.length < size) : snprintf size s = s := by
  unfold snprintf
  exact strncpy_of_le _ _ (by omega)

/-- Re-acquire: when the one lock on the pair belongs to the requesting socket,
`handle_write` returns the state as it was, and once the file and permission
checks pass the response is the one built by `write_ss_info`. -/
theorem handle_write_held (st : NameServerState) (s : Int) (msg : Message)
    (now i : Int) (l : SentenceLock)
    (hparse : sscanf_d msg.data = some i) (hu : locks_unique st.locks)
    (hl : l ∈ st.locks) (hlf : l.filename = msg.filename) (hli : l.sentence_number = i)
    (hls : l.client_socket = s) :
    (handle_write st s msg now).1 = st ∧
    (trie_search st.file_trie msg.filename = true →
     check_permission st.db msg.username msg.filename ACCESS_WRITE = true →
     (handle_write st s msg now).2 = write_ss_info st msg.filename i init_message) := by
  have hscan := scan_locks_of_mem msg.filename i s st.locks hu l hl hlf hli
  rw [if_pos hls] at hscan
  unfold handle_write
  simp only [hparse, hscan]
  constructor
  · split
    · rfl
    · split <;> rfl
  · intro hfile hperm
    simp only [hfile, hperm, Bool.not_true, Bool.false_eq_true, if_false]

theorem write_ss_info_success (st : NameServerState) (f : String) (i : Int) (row : FileRow)
    (hrow : select_file st.db f = some row)
    (hss : (get_ss_by_id st.storage_servers row.storage_server_id).isSome = true) :
    (write_ss_info st f i init_message).error_code = 0 := by
  unfold write_ss_info
  simp only [hrow]
  cases h : get_ss_by_id st.storage_servers row.storage_server_id with
  | none => rw [h] at hss; cases hss
  | some ss =>
    simp only
    split <;> rfl

theorem locks_on_eq_singleton (locks : List SentenceLock) (hu : locks_unique locks)
    (l : SentenceLock) (hl : l ∈ locks) : 
    (locks_on locks l.filename l.sentence_number).length = 1 := by
  have h1 := locks_on_length_le_one locks hu l.filename l.sentence_number
  have h2 : l ∈ locks_on locks l.filename l.sentence_number := by
    unfold locks_on
    rw [List.mem_filter]
    exact ⟨hl, by simp⟩
  have h3 : 0 < (locks_on locks l.filename l.sentence_number).length :=
    List.length_pos_of_mem h2
  omega

theorem repeat_write_lock_held (nows : List Int) (st : NameServerState) (s : Int)
    (msg : Message) (i : Int) (l : SentenceLock)
    (hparse : sscanf_d msg.data = some i) (hu : locks_unique st.locks)
    (hl : l ∈ st.locks) (hlf : l.filename = msg.filename) (hli : l.sentence_number = i)
    (hls : l.client_socket = s) : repeat_write_lock st s msg nows = st := by
  induction nows with
  | nil => rfl
  | cons now rest ih =>
    unfold repeat_write_lock
    rw [(handle_write_held st s msg now i l hparse hu hl hlf hli hls).1]
    exact ih

/-- C4, counterexample.  `bob` holds the lock on socket 6, the owner has
revoked his grant: the further WRITE_LOCK of `bob` on socket 6 does not
succeed, it is answered `ERR_PERMISSION_DENIED` (3). -/
theorem write_lock_idempotent_counterexample :
    revoked_state.locks = [bob_lock] ∧ bob_lock.client_socket = 6 ∧
    (handle_write revoked_state 6 (lock_msg "bob") 101).2.error_code = 3 := by
  decide

/-- C4, as amended.  In a state (with unique lock keys) in which socket `s`
already holds the lock on `(f, i)`, a further WRITE_LOCK for `(f, i)` on `s`
leaves the state unchanged; it succeeds when the file is in the name index,
the user has write permission and the file's primary node is alive; and after
any number of consecutive such calls exactly one lock for `(f, i)` exists. -/
theorem write_lock_idempotent (st : NameServerState) (s : Int) (msg : Message)
    (now i : Int) (l : SentenceLock) (nows : List Int)
    (hparse : sscanf_d msg.data = some i) (hu : locks_unique st.locks)
    (hl : l ∈ st.locks) (hlf : l.filename = msg.filename) (hli : l.sentence_number = i)
    (hls : l.client_socket = s) :
    (handle_write st s msg now).1.locks = st.locks ∧
    (∀ row, trie_search st.file_trie msg.filename = true →
      check_permission st.db msg.username msg.filename ACCESS_WRITE = true →
      select_file st.db msg.filename = some row →
      (get_ss_by_id st.storage_servers row.storage_server_id).isSome = true →
      (handle_write st s msg now).2.error_code = 0) ∧
    (repeat_write_lock st s msg nows).locks = st.locks ∧
    (locks_on (repeat_write_lock st s msg nows).locks msg.filename i).length = 1 := by
  obtain ⟨h1, h2⟩ := handle_write_held st s msg now i l hparse hu hl hlf hli hls
  have h3 := repeat_write_lock_held nows st s msg i l hparse hu hl hlf hli hls
  refine ⟨by rw [h1], ?_, by rw [h3], ?_⟩
  · intro row hfile hperm hrow hss
    rw [h2 hfile hperm]
    exact write_ss_info_success st msg.filename i row hrow hss
  · rw [h3, ← hlf, ← hli]
    exact locks_on_eq_singleton st.locks hu l hl

/-- Witness for C4 as amended: `alice` asks three more times on socket 5. -/
theorem write_lock_idempotent_witness :
    (handle_write locked_state 5 (lock_msg "alice") 101).1.locks = locked_state.locks ∧
    (handle_write locked_state 5 (lock_msg "alice") 101).2.error_code = 0 ∧
    (locks_on (repeat_write_lock locked_state 5 (lock_msg "alice") [101, 102, 103]).locks
      "doc.txt" 0).length = 1 :=
  have h := write_lock_idempotent locked_state 5 (lock_msg "alice") 101 0 alice_lock
    [101, 102, 103] (by decide) (by decide) (by decide) (by decide) (by decide) (by decide)
  ⟨h.1, h.2.1 _ (by decide) (by decide) (by decide : select_file locked_state.db
      (lock_msg "alice").filename = some
        { filename := "doc.txt", owner := "alice", storage_server_id := 1,
          replica_server_id := some 2 }) (by decide), h.2.2.2⟩

/-! ## C5 and C6: WRITE_COMMIT -/

theorem release_lock_loop_no_match (f : String) (n : Int) (u : String) (s : Int)
    (locks : List SentenceLock) (h : ∀ l ∈ locks, lock_matches f n u s l = false) :
    release_lock_loop f n u s locks = locks := by
  induction locks with
  | nil => rfl
  | cons l rest ih =>
    unfold release_lock_loop
    rw [h l (List.mem_cons_self _ _)]
    simp only [Bool.false_eq_true, if_false]
    rw [ih (fun x hx => h x (List.mem_cons_of_mem _ hx))]

theorem release_lock_loop_append (f : String) (n : Int) (u : String) (s : Int)
    (locks : List SentenceLock) (l : SentenceLock)
    (h : ∀ x ∈ locks, lock_matches f n u s x = false) (hl : lock_matches f n u s l = true) :
    release_lock_loop f n u s (locks ++ [l]) = locks := by
  induction locks with
  | nil =>
    show release_lock_loop f n u s [l] = []
    unfold release_lock_loop
    rw [hl]; rfl
  | cons x rest ih =>
    rw [List.cons_append]
    unfold release_lock_loop
    rw [h x (List.mem_cons_self _ _)]
    simp only [Bool.false_eq_true, if_false]
    rw [ih (fun y hy => h y (List.mem_cons_of_mem _ hy))]

/-- The shape of the table after the release loop: nothing matched and the
table is as before, or the first matching entry is gone and the entries
before and after it are as before, in the same order. -/
theorem release_lock_loop_spec (f : String) (n : Int) (u : String) (s : Int)
    (locks : List SentenceLock) :
    ((∀ l ∈ locks, lock_matches f n u s l = false) ∧
      release_lock_loop f n u s locks = locks) ∨
    (∃ pre l post, locks = pre ++ l :: post ∧ lock_matches f n u s l = true ∧
      (∀ x ∈ pre, lock_matches f n u s x = false) ∧
      release_lock_loop f n u s locks = pre ++ post) := by
  induction locks with
  | nil => left; exact ⟨by simp, rfl⟩
  | cons x rest ih =>
    cases hx : lock_matches f n u s x with
    | true =>
      right
      refine ⟨[], x, rest, rfl, hx, by simp, ?_⟩
      unfold release_lock_loop
      rw [hx]; rfl
    | false =>
      have hstep : release_lock_loop f n u s (x :: rest) =
          x :: release_lock_loop f n u s rest := by
        conv_lhs => unfold release_lock_loop
        rw [hx]; rfl
      rcases ih with ⟨hno, heq⟩ | ⟨pre, l, post, hsplit, hl, hpre, heq⟩
      · left
        refine ⟨?_, by rw [hstep, heq]⟩
        intro y hy
        rcases List.mem_cons.mp hy with rfl | hy
        · exact hx
        · exact hno y hy
      · right
        refine ⟨x :: pre, l, post, by rw [hsplit]; rfl, hl, ?_, by rw [hstep, heq]; rfl⟩
        intro y hy
        rcases List.mem_cons.mp hy with rfl | hy
        · exact hx
        · exact hpre y hy

set_option maxRecDepth 100000 in
/-- C5, counterexample.  First, socket 5 already holds the lock: its further
WRITE_LOCK succeeds, the WRITE_COMMIT that follows removes the lock, and the
table (empty) differs from the table before that WRITE_LOCK (one entry).
Second, the name field of the two requests is not zero-terminated and no lock
is held: the WRITE_LOCK succeeds and stores the first 255 bytes of the name,
the WRITE_COMMIT compares the stored name with the whole name and releases
nothing, and the table is one entry longer than before the WRITE_LOCK. -/
theorem write_lock_commit_noop_counterexample :
    (locked_state.locks = [alice_lock] ∧
      (handle_write locked_state 5 (lock_msg "alice") 101).2.error_code = 0 ∧
      (handle_write_commit (handle_write locked_state 5 (lock_msg "alice") 101).1 5
        (commit_msg "alice") 102 0).1.locks = []) ∧
    (unterminated_state.locks = [] ∧
      ¬ (unterminated_msg "WRITE_LOCK").wf ∧
      (handle_write unterminated_state 5 (unterminated_msg "WRITE_LOCK") 3).2.error_code = 0 ∧
      (handle_write_commit (handle_write unterminated_state 5 (unterminated_msg "WRITE_LOCK") 3).1
        5 (unterminated_msg "ETIRW") 4 0).1.locks.map
          (fun l => (l.filename, l.sentence_number, l.username, l.client_socket))
        = [(⟨List.replicate 255 'x'⟩, 0, "alice", 5)]) := by
  decide

/-- C5, as amended.  In every state in which socket `s` does not already hold
the lock on `(f, i)` under user `u`, and for names `f` and `u` that are
zero-terminated in their fields (`Message.wf`), a WRITE_LOCK for `(f, i)` by
`u` on `s` (successful or not) followed by the WRITE_COMMIT for `(f, i)` by
`u` on `s` leaves the lock table, entries and order, equal to what it was
before the WRITE_LOCK. -/
theorem write_lock_commit_noop (st : NameServerState) (s : Int) (msg cmsg : Message)
    (now now' stack_value i : Int) (hwf : msg.wf)
    (hparse : sscanf_d msg.data = some i)
    (hcf : cmsg.filename = msg.filename) (hcu : cmsg.username = msg.username)
    (hcparse : sscanf_d cmsg.data = some i)
    (hnot : ∀ l ∈ st.locks, lock_matches msg.filename i msg.username s l = false) :
    (handle_write_commit (handle_write st s msg now).1 s cmsg now' stack_value).1.locks
      = st.locks := by
  have hci : commit_sentence_num cmsg stack_value = i := by
    unfold commit_sentence_num; rw [hcparse]; rfl
  rw [handle_write_commit_locks, hcf, hcu, hci]
  rcases handle_write_locks st s msg now with h | ⟨n, hn, _, h⟩
  · rw [h]
    exact release_lock_loop_no_match _ _ _ _ _ hnot
  · rw [h]
    rw [hparse] at hn
    cases hn
    apply release_lock_loop_append _ _ _ _ _ _ hnot
    obtain ⟨h1, h2, h3, h4⟩ := new_lock_key s msg now i hwf
    unfold lock_matches
    rw [h1, h2, h3, h4]
    simp

/-- Witness for C5 as amended: no lock is held, `alice` locks and commits on socket 5. -/
theorem write_lock_commit_noop_witness :
    (handle_write scenario_state 5 (lock_msg "alice") 100).1.locks = [alice_lock] ∧
    (handle_write_commit (handle_write scenario_state 5 (lock_msg "alice") 100).1 5
      (commit_msg "alice") 101 0).1.locks = scenario_state.locks :=
  ⟨by decide,
   write_lock_commit_noop scenario_state 5 (lock_msg "alice") (commit_msg "alice") 100 101 0 0
     (by decide) (by decide) (by decide) (by decide) (by decide) (by decide)⟩

theorem lock_matches_eq_false (f : String) (n : Int) (u : String) (s : Int) (l : SentenceLock)
    (h : lock_matches f n u s l = false) :
    ¬ (l.filename = f ∧ l.sentence_number = n ∧ l.username = u ∧ l.client_socket = s) := by
  unfold lock_matches at h
  simpa using h

/-- The sentence index of a commit whose payload is the decimal numeral of the
`int` `i`. -/
theorem commit_sentence_num_toString (msg : Message) (stack_value i : Int) (hi : int_range i)
    (hdata : msg.data = toString i) : commit_sentence_num msg stack_value = i := by
  unfold commit_sentence_num
  rw [hdata, sscanf_d_toString i hi]
  rfl

/-- C6.  WRITE_COMMIT on socket `s` always answers `ERR_SUCCESS`, whatever its
payload.  When the payload is the decimal numeral of the sentence index `i`,
with `f` and `u` the file and user names of the request: either no lock
matches on all four of file, sentence index, user name and socket, and the
lock table is unchanged; or the table was `pre ++ l :: post` with `l` the
first entry matching on all four, and it becomes `pre ++ post`: only a
matching lock is removed, at most one, and every other lock stays, in the same
order. -/
theorem write_commit_frame (st : NameServerState) (s : Int) (msg : Message)
    (now stack_value : Int) :
    (handle_write_commit st s msg now stack_value).2.error_code = 0 ∧
    ∀ i : Int, int_range i → msg.data = toString i →
      (((∀ l ∈ st.locks, ¬ (l.filename = msg.filename ∧ l.sentence_number = i ∧
            l.username = msg.username ∧ l.client_socket = s)) ∧
          (handle_write_commit st s msg now stack_value).1.locks = st.locks) ∨
       (∃ pre l post, st.locks = pre ++ l :: post ∧
          (l.filename = msg.filename ∧ l.sentence_number = i ∧
            l.username = msg.username ∧ l.client_socket = s) ∧
          (∀ x ∈ pre, ¬ (x.filename = msg.filename ∧ x.sentence_number = i ∧
            x.username = msg.username ∧ x.client_socket = s)) ∧
          (handle_write_commit st s msg now stack_value).1.locks = pre ++ post)) := by
  refine ⟨rfl, ?_⟩
  intro i hi hdata
  rw [handle_write_commit_locks, commit_sentence_num_toString msg stack_value i hi hdata]
  rcases release_lock_loop_spec msg.filename i msg.username s st.locks with h | h
  · left
    exact ⟨fun l hl => lock_matches_eq_false _ _ _ _ l (h.1 l hl), h.2⟩
  · right
    obtain ⟨pre, l, post, h1, h2, h3, h4⟩ := h
    refine ⟨pre, l, post, h1, ?_, fun x hx => lock_matches_eq_false _ _ _ _ x (h3 x hx), h4⟩
    unfold lock_matches at h2
    simpa using h2

/-- Witness for C6: `alice` holds the lock on sentence 0 of `doc.txt` on socket
5 and commits with the payload `0`. -/
theorem write_commit_frame_witness :
    int_range 0 ∧ (commit_msg "alice").data = toString (0 : Int) ∧
    (((∀ l ∈ locked_state.locks, ¬ (l.filename = "doc.txt" ∧ l.sentence_number = 0 ∧
          l.username = "alice" ∧ l.client_socket = 5)) ∧
        (handle_write_commit locked_state 5 (commit_msg "alice") 102 7).1.locks =
          locked_state.locks) ∨
     (∃ pre l post, locked_state.locks = pre ++ l :: post ∧
        (l.filename = "doc.txt" ∧ l.sentence_number = 0 ∧
          l.username = "alice" ∧ l.client_socket = 5) ∧
        (∀ x ∈ pre, ¬ (x.filename = "doc.txt" ∧ x.sentence_number = 0 ∧
          x.username = "alice" ∧ x.client_socket = 5)) ∧
        (handle_write_commit locked_state 5 (commit_msg "alice") 102 7).1.locks =
          pre ++ post)) :=
  ⟨by decide, by decide,
   (write_commit_frame locked_state 5 (commit_msg "alice") 102 7).2 0 (by decide) (by decide)⟩

/-! ## C7: authorization -/

/-- In a list whose keys are pairwise distinct, `find?` on a test that
characterises one key returns the element with that key. -/
theorem find?_of_nodup_key {α κ : Type} (key : α → κ) (p : α → Bool) (k : κ)
    (hp : ∀ x, p x = true ↔ key x = k) (l : List α) (hnd : (l.map key).Nodup)
    (a : α) (ha : a ∈ l) (hk : key a = k) : l.find? p = some a := by
  induction l with
  | nil => cases ha
  | cons x rest ih =>
    rw [List.map_cons, List.nodup_cons] at hnd
    rcases List.mem_cons.mp ha with rfl | ha
    · rw [List.find?_cons_of_pos _ ((hp a).mpr hk)]
    · have hx : ¬ p x = true := by
        intro hpx
        apply hnd.1
        rw [(hp x).mp hpx, ← hk]
        exact List.mem_map_of_mem key ha
      rw [List.find?_cons_of_neg _ hx]
      exact ih hnd.2 ha

theorem select_file_of_mem (db : Database) (hk : db.keys_ok) (row : FileRow)
    (hrow : row ∈ db.files) : select_file db row.filename = some row := by
  unfold select_file
  exact find?_of_nodup_key (fun r => r.filename) _ row.filename (by intro x; simp)
    db.files hk.1 row hrow rfl

theorem select_access_of_mem (db : Database) (hk : db.keys_ok) (g : AccessRow)
    (hg : g ∈ db.access_control) : select_access db g.filename g.username = some g := by
  unfold select_access
  exact find?_of_nodup_key (fun r => (r.filename, r.username)) _ (g.filename, g.username)
    (by intro x; simp) db.access_control hk.2 g hg rfl

/-- C7.  Authorization: for every user, file and required permission mask `r`
(in particular read = 1 and write = 2), over a store that satisfies its
PRIMARY KEY constraints, `check_permission` returns true if and only if the
user is the owner recorded in the file's row, or `access_control` holds a row
for (file, user) whose permissions `p` satisfy `(p & r) == r`. -/
theorem check_permission_iff (db : Database) (hk : db.keys_ok) (user file : String)
    (r : Int) :
    check_permission db user file r = true ↔
      (∃ row ∈ db.files, row.filename = file ∧ row.owner = user) ∨
      (∃ g ∈ db.access_control, g.filename = file ∧ g.username = user ∧
        Int.land g.permissions r = r) := by
  unfold check_permission
  constructor
  · intro h
    simp only at h
    split at h
    · rename_i hown
      left
      split at hown
      · rename_i row hrow
        unfold select_file at hrow
        refine ⟨row, List.mem_of_find?_eq_some hrow, ?_, by simpa using hown⟩
        simpa using List.find?_some hrow
      · cases hown
    · right
      split at h
      · rename_i g hg
        unfold select_access at hg
        have hkey := List.find?_some hg
        simp only [decide_eq_true_eq] at hkey h
        exact ⟨g, List.mem_of_find?_eq_some hg, hkey.1, hkey.2, h⟩
      · cases h
  · rintro (⟨row, hrow, hf, ho⟩ | ⟨g, hg, hf, hu, hp⟩)
    · have := select_file_of_mem db hk row hrow
      rw [hf] at this
      simp [this, ho]
    · have := select_access_of_mem db hk g hg
      rw [hf, hu] at this
      simp only [this]
      split
      · rfl
      · simpa using hp

/-- Witness for C7: in the scenario `bob` holds a read-write grant on `doc.txt`. -/
theorem check_permission_iff_witness :
    check_permission scenario_state.db "bob" "doc.txt" ACCESS_WRITE = true ↔
      (∃ row ∈ scenario_state.db.files, row.filename = "doc.txt" ∧ row.owner = "bob") ∨
      (∃ g ∈ scenario_state.db.access_control, g.filename = "doc.txt" ∧ g.username = "bob" ∧
        Int.land g.permissions ACCESS_WRITE = ACCESS_WRITE) :=
  check_permission_iff scenario_state.db (by decide) "bob" "doc.txt" ACCESS_WRITE

/-! ## The loop that selects the primary -/

theorem select_ss_from_inv (servers : List StorageServerInfo) (rest : List StorageServerInfo)
    (i k : Nat) (hrest : rest = servers.drop i) (hinv : select_inv servers i k) :
    select_inv servers servers.length (select_ss_from servers rest i k) ∨
      servers.length < i := by
  induction rest generalizing i k with
  | nil =>
    unfold select_ss_from
    have hlen : servers.length ≤ i := by
      have := congrArg List.length hrest
      simp at this
      omega
    rcases Nat.lt_or_eq_of_le hlen with h | h
    · right; exact h
    · left; rw [h]; exact hinv
  | cons s rest ih =>
    have hi : i < servers.length := by
      have := congrArg List.length hrest
      simp at this
      omega
    have hs : servers.getD i default = s := by
      have h1 : (servers.drop i)[0]? = some s := by rw [← hrest]; simp
      rw [List.getElem?_drop] at h1
      simp only [Nat.add_zero] at h1
      rw [List.getD_eq_getElem?_getD, h1]; rfl
    have hrest' : rest = servers.drop (i + 1) := by
      have : (s :: rest).drop 1 = (servers.drop i).drop 1 := by rw [hrest]
      rw [List.drop_drop] at this
      simpa [Nat.add_comm] using this
    obtain ⟨hk, hka, hmin⟩ := hinv
    unfold select_ss_from
    split
    · rename_i hc
      have hfin := ih (i + 1) i hrest' (by
        refine ⟨by omega, by rw [hs]; exact hc.2, ?_⟩
        intro j hj hja
        rw [hs]
        rcases Nat.lt_or_eq_of_le (Nat.lt_succ_iff.mp hj) with hji | hji
        · have := hmin j hji hja
          exact ⟨by have := hc.1; omega, fun _ => by have := hc.1; omega⟩
        · subst hji
          rw [hs]
          exact ⟨le_refl _, fun h => absurd h (lt_irrefl _)⟩)
      rcases hfin with h | h
      · left; exact h
      · right; omega
    · rename_i hc
      have hfin := ih (i + 1) k hrest' (by
        refine ⟨by omega, hka, ?_⟩
        intro j hj hja
        rcases Nat.lt_or_eq_of_le (Nat.lt_succ_iff.mp hj) with hji | hji
        · exact hmin j hji hja
        · subst hji
          rw [hs] at hja ⊢
          have : ¬ s.file_count < (servers.getD k default).file_count := fun h => hc ⟨h, hja⟩
          exact ⟨by omega, fun h => by omega⟩)
      rcases hfin with h | h
      · left; exact h
      · right; omega

/-- What the selection loop guarantees when the first registered node is
alive: the chosen node is alive, no alive node has fewer files, and every
alive node registered before it has strictly more files. -/
theorem select_ss_spec (servers : List StorageServerInfo) (hne : servers ≠ [])
    (h0 : (servers.getD 0 default).is_alive = true) :
    select_ss servers < servers.length ∧
    (servers.getD (select_ss servers) default).is_alive = true ∧
    ∀ j, j < servers.length → (servers.getD j default).is_alive = true →
      (servers.getD (select_ss servers) default).file_count ≤
        (servers.getD j default).file_count ∧
      (j < select_ss servers →
        (servers.getD (select_ss servers) default).file_count <
          (servers.getD j default).file_count) := by
  have hlen : 1 ≤ servers.length := by
    cases servers with
    | nil => exact absurd rfl hne
    | cons a l => simp
  have hinv : select_inv servers 1 0 := by
    refine ⟨by omega, h0, ?_⟩
    intro j hj _
    have : j = 0 := by omega
    subst this
    exact ⟨le_refl _, fun h => absurd h (lt_irrefl _)⟩
  rcases select_ss_from_inv servers (servers.drop 1) 1 0 rfl hinv with h | h
  · exact h
  · omega

/-- A successful `handle_create` appended one row to `files`; its primary is
the id of the node at index `select_ss`, its replica column the id of the
node at index `select_replica` (or `-1`). -/
theorem handle_create_success (st : NameServerState) (msg : Message) (now : Int)
    (hok : (handle_create st msg now).2.error_code = 0) :
    ∃ row, (handle_create st msg now).1.db.files = st.db.files ++ [row] ∧
      row.filename = msg.filename ∧ row.owner = msg.username ∧
      row.storage_server_id =
        (st.storage_servers.getD (select_ss st.storage_servers) default).id ∧
      row.replica_server_id = some (replica_id_of st.storage_servers
        (select_replica st.storage_servers (select_ss st.storage_servers))) := by
  by_cases h1 : trie_search st.file_trie msg.filename = true
  · simp [handle_create, h1, set_message_error, ERR_FILE_EXISTS] at hok
  by_cases h2 : st.storage_servers.length = 0
  · simp [handle_create, h1, h2, set_message_error, ERR_SS_NOT_FOUND] at hok
  by_cases h3 : st.db.files.any (fun r => r.filename = msg.filename) = true
  · simp [handle_create, h1, h2, insert_file, h3, set_message_error, ERR_SERVER_ERROR] at hok
  · refine ⟨{ filename := msg.filename, owner := msg.username,
              storage_server_id :=
                (st.storage_servers.getD (select_ss st.storage_servers) default).id,
              replica_server_id := some (replica_id_of st.storage_servers
                (select_replica st.storage_servers (select_ss st.storage_servers))),
              created_at := now, modified_at := now, accessed_at := now }, ?_, rfl, rfl, rfl, rfl⟩
    simp only [handle_create, h1, h2, insert_file, h3, if_false, Bool.false_eq_true]
    cases select_replica st.storage_servers (select_ss st.storage_servers) <;> rfl

/-- With two registered nodes, the second alive and with fewer files than the
first, the selection loop picks the second. -/
theorem select_ss_second (a b : StorageServerInfo) (hb : b.is_alive = true)
    (hlt : b.file_count < a.file_count) : select_ss [a, b] = 1 := by
  unfold select_ss
  show select_ss_from [a, b] [b] 1 0 = 1
  unfold select_ss_from
  have : b.file_count < ([a, b].getD 0 default).file_count ∧ b.is_alive = true := ⟨hlt, hb⟩
  rw [if_pos this]
  rfl

/-- Scenario 3 of the specification: `a`, `b`, `c` are created with only
node 1 registered, node 2 registers, and `d` is placed on node 2. -/
theorem create_after_second_node_registered :
    let s1 := (handle_register_ss {} (register_msg "127.0.0.1:9001") 1 "" 0).1
    let s2 := (handle_create s1 (create_msg "a") 2).1
    let s3 := (handle_create s2 (create_msg "b") 3).1
    let s4 := (handle_create s3 (create_msg "c") 4).1
    let s5 := (handle_register_ss s4 (register_msg "127.0.0.1:9002") 5 "" 0).1
    s4.storage_servers.map (fun s => (s.id, s.file_count)) = [(1, 3)] ∧
    (handle_create s5 (create_msg "d") 6).2.error_code = 0 ∧
    (handle_create s5 (create_msg "d") 6).1.db.files.map
      (fun r => (r.filename, r.storage_server_id)) = [("a", 1), ("b", 1), ("c", 1), ("d", 2)] := by
  decide

/-! ## The loop that selects the replica -/

theorem select_replica_from_some (ss_idx : Nat) (rest : List StorageServerInfo) (i r : Nat)
    (h : select_replica_from ss_idx rest i = some r) :
    i ≤ r ∧ r < i + rest.length ∧ r ≠ ss_idx ∧
      (rest.getD (r - i) default).is_alive = true ∧
      ∀ j, i ≤ j → j < r → ¬ (j ≠ ss_idx ∧ (rest.getD (j - i) default).is_alive = true) := by
  induction rest generalizing i with
  | nil => unfold select_replica_from at h; cases h
  | cons s rest ih =>
    unfold select_replica_from at h
    by_cases hc : i ≠ ss_idx ∧ s.is_alive = true
    · rw [if_pos hc] at h
      cases h
      refine ⟨le_refl _, by simp, hc.1, by simpa using hc.2, ?_⟩
      intro j h1 h2; omega
    · rw [if_neg hc] at h
      obtain ⟨h1, h2, h3, h4, h5⟩ := ih (i + 1) h
      have e : r - i = (r - (i + 1)) + 1 := by omega
      refine ⟨by omega, by simp only [List.length_cons]; omega, h3,
        by rw [e]; simpa using h4, ?_⟩
      intro j hj1 hj2
      rcases Nat.eq_or_lt_of_le hj1 with rfl | hlt
      · simpa using hc
      · have e2 : j - i = (j - (i + 1)) + 1 := by omega
        have := h5 j (by omega) hj2
        rw [e2]; simpa using this

theorem select_replica_from_none (ss_idx : Nat) (rest : List StorageServerInfo) (i : Nat)
    (h : select_replica_from ss_idx rest i = none) :
    ∀ j, i ≤ j → j < i + rest.length →
      ¬ (j ≠ ss_idx ∧ (rest.getD (j - i) default).is_alive = true) := by
  induction rest generalizing i with
  | nil =>
    intro j h1 h2
    simp only [List.length_nil] at h2
    omega
  | cons s rest ih =>
    unfold select_replica_from at h
    by_cases hc : i ≠ ss_idx ∧ s.is_alive = true
    · rw [if_pos hc] at h; cases h
    · rw [if_neg hc] at h
      intro j hj1 hj2
      rcases Nat.eq_or_lt_of_le hj1 with rfl | hlt
      · simpa using hc
      · have e2 : j - i = (j - (i + 1)) + 1 := by omega
        have := ih (i + 1) h j (by omega) (by simp only [List.length_cons] at hj2; omega)
        rw [e2]; simpa using this

/-- The replica loop of `handle_create`: a recorded replica index is alive,
differs from the index of the primary and is the least such index; no replica
is recorded exactly when no alive node other than the primary exists. -/
theorem select_replica_spec (servers : List StorageServerInfo) (ss_idx : Nat) :
    (∀ r, select_replica servers ss_idx = some r →
      r < servers.length ∧ r ≠ ss_idx ∧ (servers.getD r default).is_alive = true ∧
      ∀ j, j < r → ¬ (j ≠ ss_idx ∧ (servers.getD j default).is_alive = true)) ∧
    (select_replica servers ss_idx = none →
      ∀ j, j < servers.length →
        ¬ (j ≠ ss_idx ∧ (servers.getD j default).is_alive = true)) := by
  unfold select_replica
  constructor
  · intro r h
    obtain ⟨_, h2, h3, h4, h5⟩ := select_replica_from_some ss_idx servers 0 r h
    exact ⟨by omega, h3, h4, fun j hj => h5 j (Nat.zero_le _) hj⟩
  · intro h j hj
    exact select_replica_from_none ss_idx servers 0 h j (Nat.zero_le _) (by omega)

/-! ## CREATE with an empty registry -/

/-- With an empty registry CREATE is answered `ERR_SS_NOT_FOUND` (9) and the
state is returned unchanged. -/
theorem create_empty_registry (st : NameServerState) (msg : Message) (now : Int)
    (hfresh : trie_search st.file_trie msg.filename = false)
    (hempty : st.storage_servers = []) :
    (handle_create st msg now).2.error_code = 9 ∧ (handle_create st msg now).1 = st := by
  unfold handle_create
  simp [hfresh, hempty, set_message_error, ERR_SS_NOT_FOUND]

/-! ## C11: fail-over of `handle_read` -/

theorem get_ss_by_id_some (servers : List StorageServerInfo) (ss_id : Int)
    (s : StorageServerInfo) (h : get_ss_by_id servers ss_id = some s) :
    s ∈ servers ∧ s.id = ss_id ∧ s.is_alive = true := by
  induction servers with
  | nil => unfold get_ss_by_id at h; cases h
  | cons x rest ih =>
    unfold get_ss_by_id at h
    by_cases hc : x.id = ss_id ∧ x.is_alive = true
    · rw [if_pos hc] at h
      cases h
      exact ⟨List.mem_cons_self _ _, hc.1, hc.2⟩
    · rw [if_neg hc] at h
      obtain ⟨h1, h2, h3⟩ := ih h
      exact ⟨List.mem_cons_of_mem _ h1, h2, h3⟩

theorem get_ss_by_id_none (servers : List StorageServerInfo) (ss_id : Int)
    (h : get_ss_by_id servers ss_id = none) :
    ∀ s ∈ servers, s.id = ss_id → s.is_alive = false := by
  induction servers with
  | nil => intro s hs; cases hs
  | cons x rest ih =>
    unfold get_ss_by_id at h
    by_cases hc : x.id = ss_id ∧ x.is_alive = true
    · rw [if_pos hc] at h; cases h
    · rw [if_neg hc] at h
      intro s hs hid
      rcases List.mem_cons.mp hs with rfl | hs
      · cases ha : s.is_alive with
        | false => rfl
        | true => exact absurd ⟨hid, ha⟩ hc
      · exact ih h s hs hid

/-- With pairwise distinct ids, `get_ss_by_id` finds an alive node by its id. -/
theorem get_ss_by_id_of_mem (servers : List StorageServerInfo)
    (hnd : (servers.map (fun s => s.id)).Nodup) (s : StorageServerInfo) (hs : s ∈ servers)
    (ha : s.is_alive = true) : get_ss_by_id servers s.id = some s := by
  cases h : get_ss_by_id servers s.id with
  | none =>
    have := get_ss_by_id_none servers s.id h s hs rfl
    rw [ha] at this; cases this
  | some t =>
    obtain ⟨ht, hid, _⟩ := get_ss_by_id_some servers s.id t h
    have : t = s := List.inj_on_of_nodup_map hnd ht hs hid
    rw [this]

theorem get_ss_by_id_none_of_dead (servers : List StorageServerInfo) (ss_id : Int)
    (h : ∀ s ∈ servers, s.id = ss_id → s.is_alive = false) :
    get_ss_by_id servers ss_id = none := by
  cases hg : get_ss_by_id servers ss_id with
  | none => rfl
  | some t =>
    obtain ⟨ht, hid, ha⟩ := get_ss_by_id_some servers ss_id t hg
    rw [h t ht hid] at ha; cases ha

/-- The response of `handle_read` once the file and permission checks pass
and the file has its row. -/
theorem handle_read_answer (st : NameServerState) (msg : Message) (now : Int) (row : FileRow)
    (hfile : trie_search st.file_trie msg.filename = true)
    (hperm : check_permission st.db msg.username msg.filename ACCESS_READ = true)
    (hrow : select_file st.db msg.filename = some row) :
    (handle_read st msg now).2 =
      match read_target st.storage_servers row.storage_server_id
          (column_int row.replica_server_id) with
      | some ss =>
        { init_message with
          error_code := ERR_SUCCESS
          data := snprintf 65536 ("SS:" ++ ss.ip ++ ":" ++ toString ss.port) }
      | none => set_message_error init_message ERR_SS_NOT_FOUND "Storage server not available" := by
  unfold handle_read
  simp only [hfile, hperm, hrow, Bool.not_true, Bool.false_eq_true, if_false]

/-- C11.  LOOKUP (READ) fail-over, for an existing file with its row, a user
with read permission and a registry with distinct ids that start at 1.  A
successful answer carries the endpoint of a registered node that is alive; if
the primary is alive its endpoint is returned; if the primary is not alive and
the recorded replica is alive the replica's endpoint is returned; if neither
is alive the request fails with `ERR_SS_NOT_FOUND` (9). -/
theorem read_failover (st : NameServerState) (msg : Message) (now : Int) (row : FileRow)
    (hfile : trie_search st.file_trie msg.filename = true)
    (hperm : check_permission st.db msg.username msg.filename ACCESS_READ = true)
    (hrow : select_file st.db msg.filename = some row)
    (hreg : registry_ok st.storage_servers) :
    ((handle_read st msg now).2.error_code = 0 →
      ∃ s ∈ st.storage_servers, s.is_alive = true ∧
        (handle_read st msg now).2.data =
          snprintf 65536 ("SS:" ++ s.ip ++ ":" ++ toString s.port)) ∧
    (∀ p ∈ st.storage_servers, p.id = row.storage_server_id → p.is_alive = true →
      (handle_read st msg now).2.error_code = 0 ∧
      (handle_read st msg now).2.data =
        snprintf 65536 ("SS:" ++ p.ip ++ ":" ++ toString p.port)) ∧
    ((∀ p ∈ st.storage_servers, p.id = row.storage_server_id → p.is_alive = false) →
      ∀ r ∈ st.storage_servers, row.replica_server_id = some r.id → r.is_alive = true →
        (handle_read st msg now).2.error_code = 0 ∧
        (handle_read st msg now).2.data =
          snprintf 65536 ("SS:" ++ r.ip ++ ":" ++ toString r.port)) ∧
    ((∀ p ∈ st.storage_servers, p.id = row.storage_server_id → p.is_alive = false) →
      (∀ r ∈ st.storage_servers, row.replica_server_id = some r.id → r.is_alive = false) →
      (handle_read st msg now).2.error_code = 9) := by
  rw [handle_read_answer st msg now row hfile hperm hrow]
  refine ⟨?_, ?_, ?_, ?_⟩
  · intro hok
    cases ht : read_target st.storage_servers row.storage_server_id
        (column_int row.replica_server_id) with
    | none => rw [ht] at hok; exact absurd hok (by decide)
    | some s =>
      refine ⟨s, ?_, ?_, rfl⟩
      · unfold read_target at ht
        split at ht
        · rename_i ss hss
          cases ht
          exact (get_ss_by_id_some _ _ _ hss).1
        · split at ht
          · exact (get_ss_by_id_some _ _ _ ht).1
          · cases ht
      · unfold read_target at ht
        split at ht
        · rename_i ss hss
          cases ht
          exact (get_ss_by_id_some _ _ _ hss).2.2
        · split at ht
          · exact (get_ss_by_id_some _ _ _ ht).2.2
          · cases ht
  · intro p hp hid ha
    have := get_ss_by_id_of_mem st.storage_servers hreg.1 p hp ha
    rw [hid] at this
    unfold read_target
    rw [this]
    exact ⟨rfl, rfl⟩
  · intro hdead r hr hrid ha
    have h1 := get_ss_by_id_none_of_dead st.storage_servers row.storage_server_id hdead
    have h2 := get_ss_by_id_of_mem st.storage_servers hreg.1 r hr ha
    have h3 : column_int row.replica_server_id = r.id := by rw [hrid]; rfl
    have h4 : r.id ≥ 0 := by have := hreg.2 r hr; omega
    unfold read_target
    rw [h1, h3]
    simp only
    rw [if_pos h4, h2]
    exact ⟨rfl, rfl⟩
  · intro hdead hrdead
    have h1 := get_ss_by_id_none_of_dead st.storage_servers row.storage_server_id hdead
    have h2 : get_ss_by_id st.storage_servers (column_int row.replica_server_id) = none := by
      apply get_ss_by_id_none_of_dead
      intro r hr hrid
      cases hv : row.replica_server_id with
      | none =>
        rw [hv] at hrid
        have : r.id = 0 := hrid
        have := hreg.2 r hr
        omega
      | some v =>
        rw [hv] at hrid
        have : r.id = v := hrid
        exact hrdead r hr (by rw [hv, this])
    unfold read_target
    rw [h1, h2]
    simp only [ite_self]
    rfl

/-- Witness for C11: node 1, the primary of `doc.txt`, is down and node 2, its
replica, is alive; `alice` is answered with the endpoint of node 2. -/
theorem read_failover_witness :
    (handle_read primary_down_state (read_msg "alice") 9).2.error_code = 0 ∧
    (handle_read primary_down_state (read_msg "alice") 9).2.data =
      snprintf 65536 ("SS:" ++ "127.0.0.1" ++ ":" ++ toString (9002 : Int)) :=
  (read_failover primary_down_state (read_msg "alice") 9
      { filename := "doc.txt", owner := "alice", storage_server_id := 1,
        replica_server_id := some 2, created_at := 5, modified_at := 5, accessed_at := 5 }
      (by decide) (by decide) (by decide) (by decide)).2.2.1
    (by decide)
    { id := 2, ip := "127.0.0.1", port := 9002, is_alive := true, last_heartbeat := 2 }
    (by decide) (by decide) (by decide)

/-! ## C12: the payload of `handle_read` -/

/-- When the primary is alive, `handle_read` answers with its endpoint alone. -/
theorem handle_read_primary (st : NameServerState) (msg : Message) (now : Int) (row : FileRow)
    (p : StorageServerInfo)
    (hfile : trie_search st.file_trie msg.filename = true)
    (hperm : check_permission st.db msg.username msg.filename ACCESS_READ = true)
    (hrow : select_file st.db msg.filename = some row)
    (hnd : (st.storage_servers.map (fun s => s.id)).Nodup)
    (hp : p ∈ st.storage_servers) (hid : p.id = row.storage_server_id)
    (ha : p.is_alive = true) :
    (handle_read st msg now).2.error_code = 0 ∧
    (handle_read st msg now).2.data =
      snprintf 65536 ("SS:" ++ p.ip ++ ":" ++ toString p.port) := by
  rw [handle_read_answer st msg now row hfile hperm hrow]
  have := get_ss_by_id_of_mem st.storage_servers hnd p hp ha
  rw [hid] at this
  unfold read_target
  rw [this]
  exact ⟨rfl, rfl⟩

theorem handle_read_denied (st : NameServerState) (msg : Message) (now : Int)
    (hfile : trie_search st.file_trie msg.filename = true)
    (hperm : check_permission st.db msg.username msg.filename ACCESS_READ = false) :
    (handle_read st msg now).2.error_code = 3 ∧ (handle_read st msg now).1 = st := by
  simp [handle_read, hfile, hperm, set_message_error, ERR_PERMISSION_DENIED]

/-- The effect of a granted ADDACCESS: the row is upserted, nothing else changes. -/
theorem handle_addaccess_granted (st : NameServerState) (msg : Message) (t : String) (p : Int)
    (hparse : sscanf_user_perm msg.data = some (t, p))
    (hfile : trie_search st.file_trie msg.filename = true)
    (hown : is_file_owner st.db msg.filename msg.username = true)
    (huser : user_exists st.users t = true) :
    handle_addaccess st msg =
      ({ st with db := upsert_access st.db ⟨msg.filename, t, p⟩ },
       { init_message with
         error_code := ERR_SUCCESS
         data := snprintf 65536 ("Access granted to " ++ t) }) := by
  unfold handle_addaccess
  simp only [hparse, hfile, hown, huser, Bool.not_true, Bool.false_eq_true, if_false]

theorem select_access_upsert (db : Database) (f u : String) (p : Int) :
    select_access (upsert_access db { filename := f, username := u, permissions := p }) f u =
      some { filename := f, username := u, permissions := p } := by
  unfold select_access upsert_access
  simp only
  rw [List.find?_append]
  have h1 : List.find? (fun r : AccessRow => decide (r.filename = f ∧ r.username = u))
      (List.filter (fun r : AccessRow => decide ¬(r.filename = f ∧ r.username = u))
        db.access_control) = none := by
    rw [List.find?_eq_none]
    intro x hx
    rw [List.mem_filter] at hx
    have h2 := of_decide_eq_true hx.2
    simpa using h2
  rw [h1]
  simp

theorem select_file_upsert (db : Database) (row : AccessRow) (f : String) :
    select_file (upsert_access db row) f = select_file db f := rfl

/-- C12, counterexample.  Scenario 1 of the specification: both nodes are
alive, `doc.txt` has primary 1 and replica 2.  `bob` is refused, `alice` grants
him read access, and his READ is then answered `SS:127.0.0.1:9001`, without the
`|REPLICA:127.0.0.1:9002` part. -/
theorem read_payload_counterexample :
    setup_state.db.files.map (fun r => (r.filename, r.storage_server_id, r.replica_server_id))
      = [("doc.txt", 1, some 2)] ∧
    setup_state.storage_servers.map (fun s => (s.id, s.is_alive)) = [(1, true), (2, true)] ∧
    (handle_read setup_state (read_msg "bob") 6).2.error_code = 3 ∧
    (handle_addaccess setup_state (addaccess_msg "alice" "bob|1")).2.error_code = 0 ∧
    (handle_read (handle_addaccess setup_state (addaccess_msg "alice" "bob|1")).1
      (read_msg "bob") 7).2.data = "SS:127.0.0.1:9001" := by
  decide

/-- C12, as amended.  For a file whose primary node is alive (whether or not
its replica is), a READ by a user with read permission succeeds with the
payload `SS:<primary ip>:<primary port>` and nothing after it; a non-owner
without a grant is answered `ERR_PERMISSION_DENIED` (3) and, after the owner's
ADDACCESS granting read, gets that payload. -/
theorem read_payload (st : NameServerState) (am rm : Message) (now now' : Int)
    (row : FileRow) (p : StorageServerInfo) (perms : Int)
    (hf : am.filename = rm.filename)
    (hfile : trie_search st.file_trie rm.filename = true)
    (hrow : select_file st.db rm.filename = some row)
    (hnd : (st.storage_servers.map (fun s => s.id)).Nodup)
    (hp : p ∈ st.storage_servers) (hid : p.id = row.storage_server_id)
    (ha : p.is_alive = true)
    (hown : row.owner = am.username) (hother : row.owner ≠ rm.username)
    (hnone : select_access st.db rm.filename rm.username = none)
    (hparse : sscanf_user_perm am.data = some (rm.username, perms))
    (hread : Int.land perms ACCESS_READ = ACCESS_READ)
    (huser : user_exists st.users rm.username = true) :
    (∀ m : Message, m.filename = rm.filename →
      check_permission st.db m.username m.filename ACCESS_READ = true →
      (handle_read st m now).2.error_code = 0 ∧
      (handle_read st m now).2.data =
        snprintf 65536 ("SS:" ++ p.ip ++ ":" ++ toString p.port)) ∧
    (handle_read st rm now).2.error_code = 3 ∧
    (handle_addaccess st am).2.error_code = 0 ∧
    (handle_read (handle_addaccess st am).1 rm now').2.error_code = 0 ∧
    (handle_read (handle_addaccess st am).1 rm now').2.data =
      snprintf 65536 ("SS:" ++ p.ip ++ ":" ++ toString p.port) := by
  have hdenied : check_permission st.db rm.username rm.filename ACCESS_READ = false := by
    unfold check_permission
    simp only [hrow, hnone]
    simp [hother]
  have hisown : is_file_owner st.db am.filename am.username = true := by
    unfold is_file_owner
    rw [hf, hrow]
    simp [hown]
  have hadd := handle_addaccess_granted st am rm.username perms hparse (by rw [hf]; exact hfile)
    hisown huser
  refine ⟨?_, (handle_read_denied st rm now hfile hdenied).1, by rw [hadd]; rfl, ?_⟩
  · intro m hm hperm
    exact handle_read_primary st m now row p (by rw [hm]; exact hfile) hperm
      (by rw [hm]; exact hrow) hnd hp hid ha
  · rw [hadd]
    refine handle_read_primary
      { st with db := upsert_access st.db ⟨am.filename, rm.username, perms⟩ }
      rm now' row p hfile ?_ ?_ hnd hp hid ha
    · show check_permission (upsert_access st.db _) rm.username rm.filename ACCESS_READ = true
      unfold check_permission
      rw [select_file_upsert, hrow, hf, select_access_upsert]
      simp [hother, hread]
    · show select_file (upsert_access st.db _) rm.filename = some row
      rw [select_file_upsert]; exact hrow

/-- Witness for C12 as amended: scenario 1 of the specification. -/
theorem read_payload_witness :
    (handle_read setup_state (read_msg "bob") 6).2.error_code = 3 ∧
    (handle_addaccess setup_state (addaccess_msg "alice" "bob|1")).2.error_code = 0 ∧
    (handle_read (handle_addaccess setup_state (addaccess_msg "alice" "bob|1")).1
      (read_msg "bob") 7).2.error_code = 0 ∧
    (handle_read (handle_addaccess setup_state (addaccess_msg "alice" "bob|1")).1
      (read_msg "bob") 7).2.data =
        snprintf 65536 ("SS:" ++ "127.0.0.1" ++ ":" ++ toString (9001 : Int)) :=
  (read_payload setup_state (addaccess_msg "alice" "bob|1") (read_msg "bob") 6 7
    { filename := "doc.txt", owner := "alice", storage_server_id := 1,
      replica_server_id := some 2, created_at := 5, modified_at := 5, accessed_at := 5 }
    { id := 1, ip := "127.0.0.1", port := 9001, is_alive := true, last_heartbeat := 1,
      file_count := 1 }
    1 (by decide) (by decide) (by decide) (by decide) (by decide) (by decide) (by decide)
    (by decide) (by decide) (by decide) (by decide) (by decide) (by decide)).2

/-! ## C13: refusals of `handle_delete` -/

/-- The two outcomes of `handle_delete`: refused with the state unchanged, or
accepted with the state `deleted_state`. -/
theorem handle_delete_cases (st : NameServerState) (msg : Message) :
    ((handle_delete st msg).2.error_code ≠ 0 ∧ (handle_delete st msg).1 = st) ∨
    ((handle_delete st msg).2.error_code = 0 ∧
      (handle_delete st msg).1 = deleted_state st msg ∧
      trie_search st.file_trie msg.filename = true ∧
      ∀ row, select_file st.db msg.filename = some row → row.owner = msg.username) := by
  unfold handle_delete
  by_cases hfile : trie_search st.file_trie msg.filename = true
  · cases hsel : select_file st.db msg.filename with
    | none =>
      right
      simp only [hfile, hsel, Bool.not_true, Bool.false_eq_true, if_false]
      refine ⟨?_, ?_, trivial, by intro row h; cases h⟩
      · split
        · split <;> rfl
        · rfl
      · unfold deleted_state
        rw [hsel]
        split
        · split <;> rfl
        · rfl
    | some row =>
      by_cases hown : row.owner = msg.username
      · right
        simp only [hfile, hsel, hown, Bool.not_true, Bool.false_eq_true, if_false, ne_eq,
          not_true_eq_false, decide_False]
        refine ⟨?_, ?_, trivial, by intro r h; cases h; exact hown⟩
        · split
          · split <;> rfl
          · rfl
        · unfold deleted_state
          rw [hsel]
          split
          · split <;> rfl
          · rfl
      · left
        simp [hfile, hsel, hown, set_message_error, ERR_NOT_OWNER]
  · left
    simp [hfile, set_message_error, ERR_FILE_NOT_FOUND]

/-- C13.  DELETE removes the file entry only when the user is the file's
owner.  For a name that is not in the name index it fails with
`ERR_FILE_NOT_FOUND` (1); for an existing file whose row names another owner
it fails with `ERR_NOT_OWNER` (7); in both cases the catalog and the access
list (`db`), the name index and the registry with every `file_count` are
unchanged.  And whenever the row of the file is gone after the request, the
user is the owner recorded in that row. -/
theorem delete_refusals (st : NameServerState) (msg : Message) :
    (trie_search st.file_trie msg.filename = false →
      (handle_delete st msg).2.error_code = 1 ∧
      (handle_delete st msg).1.db = st.db ∧
      (handle_delete st msg).1.file_trie = st.file_trie ∧
      (handle_delete st msg).1.storage_servers = st.storage_servers) ∧
    (∀ row, trie_search st.file_trie msg.filename = true →
      select_file st.db msg.filename = some row → row.owner ≠ msg.username →
      (handle_delete st msg).2.error_code = 7 ∧
      (handle_delete st msg).1.db = st.db ∧
      (handle_delete st msg).1.file_trie = st.file_trie ∧
      (handle_delete st msg).1.storage_servers = st.storage_servers) ∧
    (∀ row, select_file st.db msg.filename = some row →
      row ∉ (handle_delete st msg).1.db.files → row.owner = msg.username) := by
  refine ⟨?_, ?_, ?_⟩
  · intro hfile
    simp [handle_delete, hfile, set_message_error, ERR_FILE_NOT_FOUND]
  · intro row hfile hsel hown
    simp [handle_delete, hfile, hsel, hown, set_message_error, ERR_NOT_OWNER]
  · intro row hsel hgone
    rcases handle_delete_cases st msg with ⟨_, h⟩ | ⟨_, _, _, h⟩
    · rw [h] at hgone
      unfold select_file at hsel
      exact absurd (List.mem_of_find?_eq_some hsel) hgone
    · exact h row hsel

/-- Witness for C13: `bob` may not delete `doc.txt`, which `alice` owns, and
nobody can delete a name that was never created. -/
theorem delete_refusals_witness :
    ((handle_delete setup_state (delete_msg "bob")).2.error_code = 7 ∧
      (handle_delete setup_state (delete_msg "bob")).1.db = setup_state.db ∧
      (handle_delete setup_state (delete_msg "bob")).1.file_trie = setup_state.file_trie ∧
      (handle_delete setup_state (delete_msg "bob")).1.storage_servers
        = setup_state.storage_servers) ∧
    (handle_delete initial_state (delete_msg "alice")).2.error_code = 1 :=
  ⟨(delete_refusals setup_state (delete_msg "bob")).2.1
      { filename := "doc.txt", owner := "alice", storage_server_id := 1,
        replica_server_id := some 2, created_at := 5, modified_at := 5, accessed_at := 5 }
      (by decide) (by decide) (by decide),
   ((delete_refusals initial_state (delete_msg "alice")).1 (by decide)).1⟩

/-! ## C19: refusals of `handle_addaccess` -/

/-- C19.  ADDACCESS with a well-formed payload (`target|perms`) fails with
`ERR_FILE_NOT_FOUND` (1) when the file is not in the name index, with
`ERR_NOT_OWNER` (7) when the caller is not the owner recorded for the file,
and with `ERR_USER_NOT_FOUND` (8) when the caller is the owner but the target
is not a registered user; in each case the state, hence the access list, is
unchanged. -/
theorem addaccess_refusals (st : NameServerState) (msg : Message) (t : String) (p : Int)
    (hparse : sscanf_user_perm msg.data = some (t, p)) :
    (trie_search st.file_trie msg.filename = false →
      (handle_addaccess st msg).2.error_code = 1 ∧
      (handle_addaccess st msg).1.db.access_control = st.db.access_control) ∧
    (trie_search st.file_trie msg.filename = true →
      is_file_owner st.db msg.filename msg.username = false →
      (handle_addaccess st msg).2.error_code = 7 ∧
      (handle_addaccess st msg).1.db.access_control = st.db.access_control) ∧
    (trie_search st.file_trie msg.filename = true →
      is_file_owner st.db msg.filename msg.username = true →
      user_exists st.users t = false →
      (handle_addaccess st msg).2.error_code = 8 ∧
      (handle_addaccess st msg).1.db.access_control = st.db.access_control) := by
  refine ⟨?_, ?_, ?_⟩
  · intro hfile
    simp [handle_addaccess, hparse, hfile, set_message_error, ERR_FILE_NOT_FOUND]
  · intro hfile hown
    simp [handle_addaccess, hparse, hfile, hown, set_message_error, ERR_NOT_OWNER]
  · intro hfile hown huser
    simp [handle_addaccess, hparse, hfile, hown, huser, set_message_error, ERR_USER_NOT_FOUND]

/-- Witness for C19: scenario 6 of the specification (`dave` is not
registered), a caller who is not the owner, and a file that does not exist. -/
theorem addaccess_refusals_witness :
    (handle_addaccess setup_state (addaccess_msg "alice" "dave|2")).2.error_code = 8 ∧
    (handle_addaccess setup_state (addaccess_msg "bob" "bob|2")).2.error_code = 7 ∧
    (handle_addaccess initial_state (addaccess_msg "alice" "bob|2")).2.error_code = 1 :=
  ⟨((addaccess_refusals setup_state (addaccess_msg "alice" "dave|2") "dave" 2
      (by decide)).2.2 (by decide) (by decide) (by decide)).1,
   ((addaccess_refusals setup_state (addaccess_msg "bob" "bob|2") "bob" 2
      (by decide)).2.1 (by decide) (by decide)).1,
   ((addaccess_refusals initial_state (addaccess_msg "alice" "bob|2") "bob" 2
      (by decide)).1 (by decide)).1⟩

/-! ## What each request does to the store -/

theorem handle_register_ss_db (st : NameServerState) (msg : Message) (now : Int)
    (ip : String) (port : Int) : (handle_register_ss st msg now ip port).1.db = st.db := by
  unfold handle_register_ss
  split <;> rfl

theorem handle_register_client_db (st : NameServerState) (msg : Message) (now : Int) :
    (handle_register_client st msg now).1.db = st.db := by
  unfold handle_register_client
  simp only
  split <;> rfl

theorem handle_write_db (st : NameServerState) (sock : Int) (msg : Message) (now : Int) :
    (handle_write st sock msg now).1.db = st.db := by
  unfold handle_write
  cases sscanf_d msg.data with
  | none => rfl
  | some n =>
    simp only
    split
    · rfl
    · split
      · rfl
      · split
        · rfl
        · rfl
        · split <;> rfl

theorem handle_create_db (st : NameServerState) (msg : Message) (now : Int) :
    (handle_create st msg now).1.db = st.db ∨
    ∃ row, (handle_create st msg now).1.db = { st.db with files := st.db.files ++ [row] } := by
  by_cases h1 : trie_search st.file_trie msg.filename = true
  · left; simp [handle_create, h1]
  by_cases h2 : st.storage_servers.length = 0
  · left; simp [handle_create, h1, h2]
  by_cases h3 : st.db.files.any (fun r => r.filename = msg.filename) = true
  · left; simp [handle_create, h1, h2, insert_file, h3]
  · right
    refine ⟨{ filename := msg.filename, owner := msg.username,
              storage_server_id :=
                (st.storage_servers.getD (select_ss st.storage_servers) default).id,
              replica_server_id := some (replica_id_of st.storage_servers
                (select_replica st.storage_servers (select_ss st.storage_servers))),
              created_at := now, modified_at := now, accessed_at := now }, ?_⟩
    simp only [handle_create, h1, h2, insert_file, h3, if_false, Bool.false_eq_true]
    cases select_replica st.storage_servers (select_ss st.storage_servers) <;> rfl

theorem handle_createfolder_db (st : NameServerState) (msg : Message) (now : Int) :
    (handle_createfolder st msg now).1.db = st.db ∨
    ∃ row, (handle_createfolder st msg now).1.db =
      { st.db with files := st.db.files ++ [row] } := by
  by_cases h1 : trie_search st.file_trie msg.filename = true
  · left; simp [handle_createfolder, h1]
  by_cases h2 : st.storage_servers.length = 0
  · left; simp [handle_createfolder, h1, h2]
  by_cases h3 : st.db.files.any (fun r => r.filename = msg.filename) = true
  · left; simp [handle_createfolder, h1, h2, insert_file, h3]
  · right
    refine ⟨{ filename := msg.filename, owner := msg.username,
              storage_server_id :=
                (st.storage_servers.getD (select_ss st.storage_servers) default).id,
              replica_server_id := none,
              created_at := now, modified_at := now, accessed_at := now, is_folder := 1 }, ?_⟩
    simp only [handle_createfolder, h1, h2, insert_file, h3, if_false, Bool.false_eq_true]

theorem handle_read_db (st : NameServerState) (msg : Message) (now : Int) :
    (handle_read st msg now).1.db = st.db ∨
    (handle_read st msg now).1.db = update_accessed_at st.db msg.filename now := by
  unfold handle_read
  simp only
  split
  · left; rfl
  · split
    · left; rfl
    · right; rfl

theorem handle_write_commit_db (st : NameServerState) (sock : Int) (msg : Message)
    (now sv : Int) :
    (handle_write_commit st sock msg now sv).1.db = update_modified_at st.db msg.filename now :=
  rfl

theorem handle_addaccess_db (st : NameServerState) (msg : Message) :
    (handle_addaccess st msg).1 = st ∨
    ∃ t p, is_file_owner st.db msg.filename msg.username = true ∧
      user_exists st.users t = true ∧
      (handle_addaccess st msg).1 =
        { st with db := upsert_access st.db ⟨msg.filename, t, p⟩ } := by
  unfold handle_addaccess
  cases hp : sscanf_user_perm msg.data with
  | none => left; rfl
  | some tp =>
    obtain ⟨t, p⟩ := tp
    simp only
    split
    · left; rfl
    · split
      · left; rfl
      · split
        · left; rfl
        · rename_i h1 h2 h3
          right
          exact ⟨t, p, by simpa using h2, by simpa using h3, rfl⟩

theorem handle_remaccess_db (st : NameServerState) (msg : Message) :
    (handle_remaccess st msg).1 = st ∨
    (handle_remaccess st msg).1 =
      { st with db := delete_access_row st.db msg.filename (remaccess_target msg) } := by
  unfold handle_remaccess
  simp only
  split
  · left; rfl
  · split
    · left; rfl
    · right; rfl

theorem handle_request_access_db (st : NameServerState) (msg : Message) (now : Int)
    (sp : String) :
    (handle_request_access st msg now sp).1 = st ∨
    ∃ t, (handle_request_access st msg now sp).1 =
      { st with db := insert_access_request st.db msg.filename msg.username t now } := by
  unfold handle_request_access
  split
  · left; rfl
  · simp only
    split
    · split
      · left; rfl
      · right; exact ⟨_, rfl⟩
    · split <;> (left; rfl)

theorem is_file_owner_row (db : Database) (f u : String)
    (h : is_file_owner db f u = true) :
    ∃ x ∈ db.files, x.filename = f ∧ x.owner = u := by
  unfold is_file_owner at h
  split at h
  · rename_i row hrow
    unfold select_file at hrow
    exact ⟨row, List.mem_of_find?_eq_some hrow, by simpa using List.find?_some hrow,
      by simpa using h⟩
  · cases h

/-- What one request does to the catalog and the access list. -/
theorem apply_request_db_step (st : NameServerState) (r : Request) :
    db_step st.db (apply_request st r).db := by
  have keep_of_eq : ∀ db' : Database, db' = st.db → db_step st.db db' := by
    intro db' h
    left
    rw [h]
    exact ⟨rfl, fun x hx => ⟨x, hx, rfl, rfl⟩⟩
  have keep_of_add : ∀ (db' : Database) (row : FileRow),
      db' = { st.db with files := st.db.files ++ [row] } → db_step st.db db' := by
    intro db' row h
    left
    rw [h]
    exact ⟨rfl, fun x hx => ⟨x, List.mem_append_left _ hx, rfl, rfl⟩⟩
  have keep_of_map : ∀ (db' : Database) (g : FileRow → FileRow),
      (∀ x, (g x).filename = x.filename ∧ (g x).owner = x.owner) →
      db' = { st.db with files := st.db.files.map g } → db_step st.db db' := by
    intro db' g hg h
    left
    rw [h]
    exact ⟨rfl, fun x hx => ⟨g x, List.mem_map_of_mem _ hx, hg x⟩⟩
  cases r with
  | register_ss msg now ip port => exact keep_of_eq _ (handle_register_ss_db st msg now ip port)
  | register_client msg now => exact keep_of_eq _ (handle_register_client_db st msg now)
  | create msg now =>
    rcases handle_create_db st msg now with h | ⟨row, h⟩
    · exact keep_of_eq _ h
    · exact keep_of_add _ row h
  | createfolder msg now =>
    rcases handle_createfolder_db st msg now with h | ⟨row, h⟩
    · exact keep_of_eq _ h
    · exact keep_of_add _ row h
  | read msg now =>
    rcases handle_read_db st msg now with h | h
    · exact keep_of_eq _ h
    · refine keep_of_map _ _ ?_ h
      intro x
      split <;> exact ⟨rfl, rfl⟩
  | write sock msg now => exact keep_of_eq _ (handle_write_db st sock msg now)
  | write_commit sock msg now sv =>
    refine keep_of_map _ _ ?_ (handle_write_commit_db st sock msg now sv)
    intro x
    split <;> exact ⟨rfl, rfl⟩
  | delete msg =>
    rcases handle_delete_cases st msg with ⟨_, h⟩ | ⟨_, h, _⟩
    · exact keep_of_eq _ (congrArg NameServerState.db h)
    · right; right; right
      exact ⟨msg.filename, congrArg NameServerState.db h⟩
  | addaccess msg =>
    rcases handle_addaccess_db st msg with h | ⟨t, p, hown, _, h⟩
    · exact keep_of_eq _ (congrArg NameServerState.db h)
    · right; left
      obtain ⟨x, hx, hxf, _⟩ := is_file_owner_row _ _ _ hown
      exact ⟨⟨msg.filename, t, p⟩, congrArg NameServerState.db h, x, hx, hxf⟩
  | remaccess msg =>
    rcases handle_remaccess_db st msg with h | h
    · exact keep_of_eq _ (congrArg NameServerState.db h)
    · right; right; left
      exact ⟨_, _, congrArg NameServerState.db h⟩
  | request_access msg now sp =>
    rcases handle_request_access_db st msg now sp with h | ⟨t, h⟩
    · exact keep_of_eq _ (congrArg NameServerState.db h)
    · left
      have hdb := congrArg NameServerState.db h
      have hdb' : (apply_request st (.request_access msg now sp)).db =
          insert_access_request st.db msg.filename msg.username t now := hdb
      rw [hdb']
      exact ⟨rfl, fun x hx => ⟨x, hx, rfl, rfl⟩⟩
  | close sock => exact keep_of_eq _ rfl

/-! ## Invariants of the access list -/

theorem grants_have_files_step (db db' : Database) (h : db_step db db')
    (hinv : grants_have_files db) : grants_have_files db' := by
  intro g hg
  rcases h with ⟨hac, hfiles⟩ | ⟨row, hdb, x, hx, hxf⟩ | ⟨f, u, hdb⟩ | ⟨f, hdb⟩
  · rw [hac] at hg
    obtain ⟨x, hx, hxf⟩ := hinv g hg
    obtain ⟨y, hy, hyf, _⟩ := hfiles x hx
    exact ⟨y, hy, by rw [hyf, hxf]⟩
  · rw [hdb] at hg ⊢
    unfold upsert_access at hg
    simp only at hg
    rcases List.mem_append.mp hg with hg | hg
    · exact hinv g (List.mem_of_mem_filter hg)
    · rw [List.mem_singleton] at hg
      exact ⟨x, hx, by rw [hxf, hg]⟩
  · rw [hdb] at hg ⊢
    exact hinv g (List.mem_of_mem_filter hg)
  · rw [hdb] at hg ⊢
    have hg' : g ∈ db.access_control.filter (fun r => r.filename ≠ f) := hg
    rw [List.mem_filter] at hg'
    obtain ⟨x, hx, hxf⟩ := hinv g hg'.1
    have hne : g.filename ≠ f := by simpa using hg'.2
    refine ⟨x, ?_, hxf⟩
    show x ∈ db.files.filter (fun r => r.filename ≠ f)
    rw [List.mem_filter]
    exact ⟨hx, by rw [hxf]; simpa using hne⟩

theorem access_unique_upsert (db : Database) (row : AccessRow) (h : access_unique db) :
    access_unique (upsert_access db row) := by
  unfold access_unique upsert_access at *
  simp only
  rw [List.map_append, List.nodup_append]
  refine ⟨List.Nodup.sublist (List.Sublist.map _ (List.filter_sublist _)) h, by simp, ?_⟩
  intro k hk hk'
  simp only [List.map_cons, List.map_nil, List.mem_singleton] at hk'
  rw [List.mem_map] at hk
  obtain ⟨x, hx, hxk⟩ := hk
  rw [List.mem_filter] at hx
  have h2 := of_decide_eq_true hx.2
  apply h2
  rw [hk'] at hxk
  simp only [Prod.mk.injEq] at hxk
  exact hxk

theorem access_unique_step (db db' : Database) (h : db_step db db')
    (hinv : access_unique db) : access_unique db' := by
  rcases h with ⟨hac, _⟩ | ⟨row, hdb, _⟩ | ⟨f, u, hdb⟩ | ⟨f, hdb⟩
  · unfold access_unique at *
    rw [hac]; exact hinv
  · rw [hdb]; exact access_unique_upsert db row hinv
  · rw [hdb]
    exact List.Nodup.sublist (List.Sublist.map _ (List.filter_sublist _)) hinv
  · rw [hdb]
    exact List.Nodup.sublist (List.Sublist.map _ (List.filter_sublist _)) hinv

/-- A property of the store that every kind of step preserves holds after any
sequence of requests. -/
theorem run_requests_db_inv (P : Database → Prop)
    (hstep : ∀ db db', db_step db db' → P db → P db') (reqs : List Request)
    (st : NameServerState) (h : P st.db) : P (run_requests st reqs).db := by
  induction reqs generalizing st with
  | nil => exact h
  | cons r rest ih =>
    unfold run_requests
    rw [List.foldl_cons]
    exact ih _ (hstep _ _ (apply_request_db_step st r) h)

/-! ## The rows of `handle_view` -/

theorem mem_insert_by_filename (r v : ViewRow) (l : List ViewRow) :
    v ∈ insert_by_filename r l ↔ v = r ∨ v ∈ l := by
  induction l with
  | nil => simp [insert_by_filename]
  | cons x rest ih =>
    unfold insert_by_filename
    split
    · simp
    · rw [List.mem_cons, ih, List.mem_cons]
      tauto

theorem mem_order_by_filename (v : ViewRow) (l : List ViewRow) :
    v ∈ order_by_filename l ↔ v ∈ l := by
  induction l with
  | nil => simp [order_by_filename]
  | cons x rest ih =>
    unfold order_by_filename
    rw [mem_insert_by_filename, ih, List.mem_cons]

/-- Every row listed by `handle_view` is the row of a file of the catalog. -/
theorem view_query_file (db : Database) (user : String) (show_all : Bool) (v : ViewRow)
    (hv : v ∈ view_query db user show_all) : ∃ x ∈ db.files, view_row x = v := by
  unfold view_query at hv
  rw [mem_order_by_filename] at hv
  cases show_all with
  | true =>
    simp only [if_true] at hv
    rw [List.mem_map] at hv
    exact hv
  | false =>
    simp only [Bool.false_eq_true, if_false] at hv
    rw [List.mem_dedup, List.mem_map] at hv
    obtain ⟨p, hp, hpv⟩ := hv
    have hp' := List.mem_of_mem_filter hp
    unfold left_join_access at hp'
    rw [List.mem_flatMap] at hp'
    obtain ⟨f, hf, hpf⟩ := hp'
    refine ⟨f, hf, ?_⟩
    have : p.1 = f := by
      simp only at hpf
      split at hpf
      · rw [List.mem_singleton] at hpf; rw [hpf]
      · rw [List.mem_map] at hpf
        obtain ⟨a, _, ha⟩ := hpf
        rw [← ha]
    rw [← this]; exact hpv

/-! ## C14: grants refer to files of the catalog -/

/-- C14.  In every state reached from a state with an empty access list by
any sequence of requests (CREATE, CREATEFOLDER, DELETE, ADDACCESS, REMACCESS
and the other state-changing requests), every access grant names a file that
has a row in the catalog.  And after a successful DELETE of `f` no grant for
`f` remains, and no user is shown `f` by VIEW, with or without the "all" flag. -/
theorem grants_reference_files (st0 : NameServerState) (reqs : List Request)
    (hempty : st0.db.access_control = []) (msg : Message) :
    grants_have_files (run_requests st0 reqs).db ∧
    ((handle_delete (run_requests st0 reqs) msg).2.error_code = 0 →
      (∀ g ∈ (handle_delete (run_requests st0 reqs) msg).1.db.access_control,
        g.filename ≠ msg.filename) ∧
      (∀ user show_all,
        ∀ v ∈ view_query (handle_delete (run_requests st0 reqs) msg).1.db user show_all,
          v.filename ≠ msg.filename)) := by
  constructor
  · apply run_requests_db_inv grants_have_files grants_have_files_step
    intro g hg
    rw [hempty] at hg
    cases hg
  · intro hok
    rcases handle_delete_cases (run_requests st0 reqs) msg with ⟨hne, _⟩ | ⟨_, h, _⟩
    · exact absurd hok hne
    · rw [h]
      constructor
      · intro g hg
        have hg' : g ∈ List.filter (fun r : AccessRow => r.filename ≠ msg.filename)
            (run_requests st0 reqs).db.access_control := hg
        rw [List.mem_filter] at hg'
        simpa using hg'.2
      · intro user show_all v hv
        obtain ⟨x, hx, hxv⟩ := view_query_file _ user show_all v hv
        have hx' : x ∈ List.filter (fun r : FileRow => r.filename ≠ msg.filename)
            (run_requests st0 reqs).db.files := hx
        rw [List.mem_filter] at hx'
        rw [← hxv]
        simpa using hx'.2

/-- Witness for C14: scenario 4 of the specification.  `alice` grants `bob`
read access to `doc.txt` and deletes the file. -/
theorem grants_reference_files_witness :
    grants_have_files
      (run_requests setup_state [.addaccess (addaccess_msg "alice" "bob|1")]).db ∧
    (∀ g ∈ (handle_delete (run_requests setup_state
        [.addaccess (addaccess_msg "alice" "bob|1")])
        (delete_msg "alice")).1.db.access_control, g.filename ≠ "doc.txt") ∧
    (∀ v ∈ view_query (handle_delete (run_requests setup_state
        [.addaccess (addaccess_msg "alice" "bob|1")])
        (delete_msg "alice")).1.db "bob" false, v.filename ≠ "doc.txt") :=
  have h := grants_reference_files setup_state
    [.addaccess (addaccess_msg "alice" "bob|1")] (by decide) (delete_msg "alice")
  ⟨h.1, (h.2 (by decide)).1, (h.2 (by decide)).2 "bob" false⟩

/-! ## C18: ADDACCESS is an upsert -/

/-- After the upsert of `(f, u, p)` the only grant for `(f, u)` is the new row. -/
theorem grants_on_upsert (db : Database) (f u : String) (p : Int) :
    grants_on (upsert_access db ⟨f, u, p⟩) f u = [⟨f, u, p⟩] := by
  unfold grants_on upsert_access
  simp only
  rw [List.filter_append]
  have h1 : List.filter (fun g : AccessRow => decide (g.filename = f ∧ g.username = u))
      (List.filter (fun r : AccessRow => decide ¬(r.filename = f ∧ r.username = u))
        db.access_control) = [] := by
    rw [List.filter_eq_nil_iff]
    intro x hx
    rw [List.mem_filter] at hx
    have h2 := of_decide_eq_true hx.2
    simpa using h2
  rw [h1]
  simp

theorem grants_on_length_le_one (db : Database) (h : access_unique db) (f u : String) :
    (grants_on db f u).length ≤ 1 := by
  unfold access_unique grants_on at *
  generalize db.access_control = l at h
  induction l with
  | nil => simp
  | cons x rest ih =>
    rw [List.map_cons, List.nodup_cons] at h
    rw [List.filter_cons]
    split
    · rename_i hx
      simp only [decide_eq_true_eq] at hx
      have : List.filter (fun g : AccessRow => decide (g.filename = f ∧ g.username = u)) rest
          = [] := by
        rw [List.filter_eq_nil_iff]
        intro a ha hka
        simp only [decide_eq_true_eq] at hka
        apply h.1
        rw [List.mem_map]
        exact ⟨a, ha, by rw [hka.1, hka.2, hx.1, hx.2]⟩
      rw [this]; simp
    · exact ih h.2

/-- C18.  ADDACCESS is an upsert.  When the owner of `f` sends ADDACCESS for
the registered target `t` with permissions `p1` and then with permissions
`p2`, both requests succeed and the access list then holds exactly one grant
for `(f, t)`, with permissions `p2`.  And in every state reached from a state
with an empty access list by any sequence of requests there is at most one
grant per (file, grantee). -/
theorem addaccess_upsert (st : NameServerState) (m1 m2 : Message) (t : String) (p1 p2 : Int)
    (hf : m2.filename = m1.filename) (hu : m2.username = m1.username)
    (hparse1 : sscanf_user_perm m1.data = some (t, p1))
    (hparse2 : sscanf_user_perm m2.data = some (t, p2))
    (hfile : trie_search st.file_trie m1.filename = true)
    (hown : is_file_owner st.db m1.filename m1.username = true)
    (huser : user_exists st.users t = true)
    (st0 : NameServerState) (reqs : List Request) (hempty : st0.db.access_control = []) :
    (handle_addaccess st m1).2.error_code = 0 ∧
    (handle_addaccess (handle_addaccess st m1).1 m2).2.error_code = 0 ∧
    grants_on (handle_addaccess (handle_addaccess st m1).1 m2).1.db m1.filename t
      = [⟨m1.filename, t, p2⟩] ∧
    (∀ f u, (grants_on (run_requests st0 reqs).db f u).length ≤ 1) := by
  have h1 := handle_addaccess_granted st m1 t p1 hparse1 hfile hown huser
  have h2 := handle_addaccess_granted
    { st with db := upsert_access st.db ⟨m1.filename, t, p1⟩ } m2 t p2 hparse2
    (by rw [hf]; exact hfile) (by rw [hf, hu]; exact hown) huser
  refine ⟨by rw [h1]; rfl, by rw [h1, h2]; rfl, ?_, ?_⟩
  · rw [h1, h2, hf]
    exact grants_on_upsert _ _ _ _
  · intro f u
    apply grants_on_length_le_one
    apply run_requests_db_inv access_unique access_unique_step
    unfold access_unique
    rw [hempty]
    exact List.nodup_nil

/-- Witness for C18: `alice` grants `bob` read access to `doc.txt`, then write access. -/
theorem addaccess_upsert_witness :
    grants_on (handle_addaccess (handle_addaccess setup_state
        (addaccess_msg "alice" "bob|1")).1 (addaccess_msg "alice" "bob|2")).1.db "doc.txt" "bob"
      = [⟨"doc.txt", "bob", 2⟩] ∧
    (∀ f u, (grants_on (run_requests initial_state setup_requests).db f u).length ≤ 1) :=
  have h := addaccess_upsert setup_state (addaccess_msg "alice" "bob|1")
    (addaccess_msg "alice" "bob|2") "bob" 1 2 rfl rfl (by decide) (by decide) (by decide)
    (by decide) (by decide) initial_state setup_requests rfl
  ⟨h.2.2.1, h.2.2.2⟩

/-! ## C15: what DELETE leaves in `access_requests` and `checkpoints` -/

set_option maxRecDepth 100000 in
/-- C15, counterexample.  `bob` has a pending request on `doc.txt`; the owner
`alice` deletes the file, the DELETE succeeds, and the request row for
`doc.txt` is still in `access_requests`.  When `bob` then creates a file of
the same name, VIEWREQUESTS lists that old request to him. -/
theorem delete_removes_requests_counterexample :
    requested_state.db.access_requests = [bob_request] ∧
    (handle_delete requested_state (delete_msg "alice")).2.error_code = 0 ∧
    (handle_delete requested_state (delete_msg "alice")).1.db.files = [] ∧
    (handle_delete requested_state (delete_msg "alice")).1.db.access_requests = [bob_request] ∧
    (handle_request_access
      (handle_create (handle_delete requested_state (delete_msg "alice")).1
        { type := "CREATE", username := "bob", filename := "doc.txt" } 8).1
      (request_msg "bob" "VIEWREQUESTS") 9 "").2.data
      = "Pending Access Requests:\n  bob requests WRITE access to doc.txt\n" := by
  decide

/-- C15, as amended.  DELETE never writes to `access_requests` or
`checkpoints`: both tables are after the request what they were before it,
rows for `f` included.  After a DELETE of `f` succeeds, what is gone is the
row of `f` in `files` and every grant for `f` in `access_control`. -/
theorem delete_keeps_requests (st : NameServerState) (msg : Message) :
    (handle_delete st msg).1.db.access_requests = st.db.access_requests ∧
    (handle_delete st msg).1.db.checkpoints = st.db.checkpoints ∧
    ((handle_delete st msg).2.error_code = 0 →
      (∀ r ∈ (handle_delete st msg).1.db.files, r.filename ≠ msg.filename) ∧
      (∀ g ∈ (handle_delete st msg).1.db.access_control, g.filename ≠ msg.filename)) := by
  rcases handle_delete_cases st msg with ⟨hne, h⟩ | ⟨_, h, _⟩
  · rw [h]
    exact ⟨rfl, rfl, fun hok => absurd hok hne⟩
  · rw [h]
    refine ⟨rfl, rfl, fun _ => ⟨?_, ?_⟩⟩
    · intro r hr
      have hr' : r ∈ List.filter (fun r : FileRow => r.filename ≠ msg.filename) st.db.files := hr
      rw [List.mem_filter] at hr'
      simpa using hr'.2
    · intro g hg
      have hg' : g ∈ List.filter (fun r : AccessRow => r.filename ≠ msg.filename)
          st.db.access_control := hg
      rw [List.mem_filter] at hg'
      simpa using hg'.2

/-- Witness for C15 as amended: the DELETE of the counterexample. -/
theorem delete_keeps_requests_witness :
    (handle_delete requested_state (delete_msg "alice")).1.db.access_requests
      = requested_state.db.access_requests ∧
    (∀ r ∈ (handle_delete requested_state (delete_msg "alice")).1.db.files,
      r.filename ≠ "doc.txt") :=
  have h := delete_keeps_requests requested_state (delete_msg "alice")
  ⟨h.1, (h.2.2 (by decide)).1⟩

/-! ## C16: what DELETE leaves in the lock table -/

set_option maxRecDepth 100000 in
/-- C16, counterexample.  `alice` holds the lock on sentence 0 of `doc.txt`
and deletes the file: the DELETE succeeds, the name is gone from the name
index and from `files`, and the lock on `doc.txt` is still in the lock table. -/
theorem locks_name_files_counterexample :
    (handle_delete setup_locked_state (delete_msg "alice")).2.error_code = 0 ∧
    trie_search (handle_delete setup_locked_state (delete_msg "alice")).1.file_trie "doc.txt"
      = false ∧
    (handle_delete setup_locked_state (delete_msg "alice")).1.db.files = [] ∧
    (handle_delete setup_locked_state (delete_msg "alice")).1.locks =
      [{ filename := "doc.txt", sentence_number := 0, username := "alice", client_socket := 5,
         locked_at := 6 }] := by
  decide

theorem handle_delete_locks (st : NameServerState) (msg : Message) :
    (handle_delete st msg).1.locks = st.locks := by
  rcases handle_delete_cases st msg with ⟨_, h⟩ | ⟨_, h, _⟩
  · rw [h]
  · rw [h]; rfl

/-- No request other than WRITE_LOCK writes the lock table, WRITE_COMMIT
apart, which removes at most one entry. -/
theorem apply_request_locks (st : NameServerState) (r : Request)
    (hr : ∀ sock msg now, r ≠ .write sock msg now) :
    (apply_request st r).locks.Sublist st.locks := by
  have heq : ∀ st' : NameServerState, st'.locks = st.locks → st'.locks.Sublist st.locks :=
    fun st' h => by rw [h]
  cases r with
  | register_ss msg now ip port =>
    apply heq
    show (handle_register_ss st msg now ip port).1.locks = st.locks
    unfold handle_register_ss
    split <;> rfl
  | register_client msg now =>
    apply heq
    show (handle_register_client st msg now).1.locks = st.locks
    unfold handle_register_client
    simp only
    split <;> rfl
  | create msg now =>
    apply heq
    show (handle_create st msg now).1.locks = st.locks
    by_cases h1 : trie_search st.file_trie msg.filename = true
    · simp only [handle_create, h1, if_true]
    by_cases h2 : st.storage_servers.length = 0
    · simp only [handle_create, h1, h2, if_true, if_false, Bool.false_eq_true]
    by_cases h3 : st.db.files.any (fun r => r.filename = msg.filename) = true
    · simp only [handle_create, h1, h2, insert_file, h3, if_true, if_false, Bool.false_eq_true]
    · simp only [handle_create, h1, h2, insert_file, h3, if_false, Bool.false_eq_true]
      cases select_replica st.storage_servers (select_ss st.storage_servers) <;> rfl
  | createfolder msg now =>
    apply heq
    show (handle_createfolder st msg now).1.locks = st.locks
    by_cases h1 : trie_search st.file_trie msg.filename = true
    · simp only [handle_createfolder, h1, if_true]
    by_cases h2 : st.storage_servers.length = 0
    · simp only [handle_createfolder, h1, h2, if_true, if_false, Bool.false_eq_true]
    by_cases h3 : st.db.files.any (fun r => r.filename = msg.filename) = true
    · simp only [handle_createfolder, h1, h2, insert_file, h3, if_true, if_false,
        Bool.false_eq_true]
    · simp only [handle_createfolder, h1, h2, insert_file, h3, if_false, Bool.false_eq_true]
  | read msg now =>
    apply heq
    show (handle_read st msg now).1.locks = st.locks
    unfold handle_read
    simp only
    split
    · rfl
    · split <;> rfl
  | write sock msg now => exact absurd rfl (hr sock msg now)
  | write_commit sock msg now sv =>
    show (handle_write_commit st sock msg now sv).1.locks.Sublist st.locks
    rw [handle_write_commit_locks]
    exact release_lock_loop_sublist _ _ _ _ _
  | delete msg =>
    apply heq
    exact handle_delete_locks st msg
  | addaccess msg =>
    apply heq
    show (handle_addaccess st msg).1.locks = st.locks
    rcases handle_addaccess_db st msg with h | ⟨t, p, _, _, h⟩
    · rw [h]
    · rw [h]
  | remaccess msg =>
    apply heq
    show (handle_remaccess st msg).1.locks = st.locks
    rcases handle_remaccess_db st msg with h | h
    · rw [h]
    · rw [h]
  | request_access msg now sp =>
    apply heq
    show (handle_request_access st msg now sp).1.locks = st.locks
    rcases handle_request_access_db st msg now sp with h | ⟨t, h⟩
    · rw [h]
    · rw [h]
  | close sock => exact List.Sublist.refl _

/-- C16, as amended.  A lock enters the lock table only through a WRITE_LOCK:
after any other request every entry of the table was in the table before, and
an entry added by a WRITE_LOCK carries the first `MAX_FILENAME - 1` bytes of
the requested name (the name itself when it is zero-terminated in its field),
which is in the name index at that moment.  DELETE leaves the lock table
unchanged, so after a successful DELETE of `f` the locks on the sentences of
`f` remain. -/
theorem delete_keeps_locks (st : NameServerState) (msg : Message) :
    (handle_delete st msg).1.locks = st.locks ∧
    (∀ r : Request, (∀ sock wmsg now, r ≠ .write sock wmsg now) →
      ∀ l ∈ (apply_request st r).locks, l ∈ st.locks) ∧
    (∀ (sock : Int) (wmsg : Message) (now : Int),
      ∀ l ∈ (apply_request st (.write sock wmsg now)).locks,
        l ∈ st.locks ∨
        (l.filename = strncpy wmsg.filename (MAX_FILENAME - 1) ∧
          (wmsg.wf → l.filename = wmsg.filename) ∧
          trie_search st.file_trie wmsg.filename = true)) := by
  refine ⟨handle_delete_locks st msg, ?_, ?_⟩
  · intro r hr l hl
    exact (apply_request_locks st r hr).subset hl
  · intro sock wmsg now l hl
    have hl : l ∈ (handle_write st sock wmsg now).1.locks := hl
    by_cases hfile : trie_search st.file_trie wmsg.filename = true
    · rcases handle_write_locks st sock wmsg now with h | ⟨n, _, _, h⟩
      · left; rw [h] at hl; exact hl
      · rw [h] at hl
        rcases List.mem_append.mp hl with hl | hl
        · left; exact hl
        · right
          rw [List.mem_singleton] at hl
          rw [hl]
          exact ⟨rfl, fun hwf => (new_lock_key sock wmsg now n hwf).1, hfile⟩
    · left
      have : (handle_write st sock wmsg now).1 = st := by
        unfold handle_write
        cases sscanf_d wmsg.data with
        | none => rfl
        | some n => simp [hfile]
      rw [this] at hl
      exact hl

/-- Witness for C16 as amended: the DELETE of the counterexample, a
REGISTER_CLIENT in the state that holds the lock, and the WRITE_LOCK that
created the lock. -/
theorem delete_keeps_locks_witness :
    (handle_delete setup_locked_state (delete_msg "alice")).1.locks = setup_locked_state.locks ∧
    (∀ l ∈ (apply_request setup_locked_state (.register_client (client_msg "carol") 7)).locks,
      l ∈ setup_locked_state.locks) ∧
    (∀ l ∈ (apply_request setup_state (.write 5 (lock_msg "alice") 6)).locks,
      l ∈ setup_state.locks ∨
      (l.filename = strncpy "doc.txt" (MAX_FILENAME - 1) ∧
        ((lock_msg "alice").wf → l.filename = "doc.txt") ∧
        trie_search setup_state.file_trie "doc.txt" = true)) :=
  ⟨(delete_keeps_locks setup_locked_state (delete_msg "alice")).1,
   (delete_keeps_locks setup_locked_state (delete_msg "alice")).2.1
     (.register_client (client_msg "carol") 7) (fun _ _ _ h => by cases h),
   (delete_keeps_locks setup_state (delete_msg "alice")).2.2 5 (lock_msg "alice") 6⟩

/-! ## C17: the owner as grantee -/

/-- C17, counterexample.  After the setup of scenario 1, `alice`, the owner of
`doc.txt` and a registered user, sends ADDACCESS with herself as target: the
request succeeds and the access list holds a grant whose grantee is the owner. -/
theorem owner_not_grantee_counterexample :
    setup_state.db.files.map (fun r => (r.filename, r.owner)) = [("doc.txt", "alice")] ∧
    (handle_addaccess setup_state (addaccess_msg "alice" "alice|3")).2.error_code = 0 ∧
    (run_requests initial_state
      (setup_requests ++ [.addaccess (addaccess_msg "alice" "alice|3")])).db.access_control
      = [⟨"doc.txt", "alice", 3⟩] := by
  decide

/-- C17, as amended.  ADDACCESS does not compare the target with the owner:
issued by the owner with the owner's own registered name as target it succeeds
and upserts the grant `(f, owner, p)` as for any other registered target, so a
reachable state can hold a grant whose grantee is the file's owner.  The
owner's permissions do not depend on it: `check_permission` answers true for
the owner before and after. -/
theorem owner_may_be_grantee (st : NameServerState) (msg : Message) (p : Int)
    (hparse : sscanf_user_perm msg.data = some (msg.username, p))
    (hfile : trie_search st.file_trie msg.filename = true)
    (hown : is_file_owner st.db msg.filename msg.username = true)
    (huser : user_exists st.users msg.username = true) :
    (handle_addaccess st msg).2.error_code = 0 ∧
    grants_on (handle_addaccess st msg).1.db msg.filename msg.username
      = [⟨msg.filename, msg.username, p⟩] ∧
    (∀ r, check_permission st.db msg.username msg.filename r = true ∧
      check_permission (handle_addaccess st msg).1.db msg.username msg.filename r = true) := by
  have h := handle_addaccess_granted st msg msg.username p hparse hfile hown huser
  rw [h]
  refine ⟨rfl, grants_on_upsert _ _ _ _, ?_⟩
  intro r
  have hown' : (match select_file st.db msg.filename with
      | some row => decide (row.owner = msg.username)
      | none => false) = true := hown
  constructor
  · unfold check_permission
    simp only [hown', if_true]
  · show check_permission (upsert_access st.db _) msg.username msg.filename r = true
    unfold check_permission
    rw [select_file_upsert]
    simp only [hown', if_true]

/-- Witness for C17 as amended: the request of the counterexample. -/
theorem owner_may_be_grantee_witness :
    (handle_addaccess setup_state (addaccess_msg "alice" "alice|3")).2.error_code = 0 ∧
    grants_on (handle_addaccess setup_state (addaccess_msg "alice" "alice|3")).1.db
      "doc.txt" "alice" = [⟨"doc.txt", "alice", 3⟩] :=
  have h := owner_may_be_grantee setup_state (addaccess_msg "alice" "alice|3") 3
    (by decide) (by decide) (by decide) (by decide)
  ⟨h.1, h.2.1⟩

/-! ## C20: REMACCESS -/

/-- What REMACCESS does when the caller owns the file: it answers
`ERR_SUCCESS`, the grant of the named target on that file is gone, and every
other grant stays, in the same order. -/
theorem remaccess_removes_grant (st : NameServerState) (msg : Message)
    (hfile : trie_search st.file_trie msg.filename = true)
    (hown : is_file_owner st.db msg.filename msg.username = true) :
    (handle_remaccess st msg).2.error_code = 0 ∧
    (handle_remaccess st msg).1.db.access_control =
      st.db.access_control.filter
        (fun g => ¬ (g.filename = msg.filename ∧ g.username = remaccess_target msg)) := by
  unfold handle_remaccess
  simp only [hfile, hown, Bool.not_true, Bool.false_eq_true, if_false]
  exact ⟨rfl, rfl⟩

/-- C20, the failing input.  `dave` is not a registered user.  REMACCESS by
`alice`, the owner of `doc.txt`, naming `dave` is answered `ERR_SUCCESS` (0)
with the text `Access revoked from dave`, whereas the same target makes
ADDACCESS fail with `ERR_USER_NOT_FOUND` (8): `handle_remaccess` has no
"Check if target user exists" block. -/
theorem remaccess_unknown_target :
    user_exists setup_state.users "dave" = false ∧
    is_file_owner setup_state.db "doc.txt" "alice" = true ∧
    (handle_remaccess setup_state (remaccess_msg "alice" "dave")).2.error_code = 0 ∧
    (handle_remaccess setup_state (remaccess_msg "alice" "dave")).2.data
      = "Access revoked from dave" ∧
    (handle_addaccess setup_state (addaccess_msg "alice" "dave|1")).2.error_code = 8 := by
  decide

/-! ## The registry along a run -/

theorem increment_file_count_ids (servers : List StorageServerInfo) (idx : Nat) :
    (increment_file_count servers idx).map (fun s => s.id) = servers.map (fun s => s.id) := by
  unfold increment_file_count
  simp only
  induction servers generalizing idx with
  | nil => simp
  | cons x rest ih =>
    cases idx with
    | zero => simp
    | succ n =>
      simp only [List.getD_cons_succ, List.set_cons_succ, List.map_cons]
      rw [ih n]

theorem decrement_file_count_ids (servers : List StorageServerInfo) (ss_id : Int) :
    (decrement_file_count servers ss_id).map (fun s => s.id) = servers.map (fun s => s.id) := by
  induction servers with
  | nil => rfl
  | cons x rest ih =>
    unfold decrement_file_count
    split
    · rfl
    · rw [List.map_cons, ih, List.map_cons]

theorem registry_step_of_eq (st st' : NameServerState) (h : st' = st) :
    registry_step st st' := by
  left; rw [h]; exact ⟨rfl, rfl⟩

/-- A state that differs from `st` in its store and lock table only. -/
theorem registry_step_of_fields (st st' : NameServerState)
    (h1 : st'.storage_servers = st.storage_servers) (h2 : st'.next_ss_id = st.next_ss_id) :
    registry_step st st' := by
  left; rw [h1, h2]; exact ⟨rfl, rfl⟩

theorem apply_request_registry (st : NameServerState) (r : Request) :
    registry_step st (apply_request st r) := by
  cases r with
  | register_ss msg now ip port =>
    show registry_step st (handle_register_ss st msg now ip port).1
    unfold handle_register_ss
    split
    · exact registry_step_of_eq _ _ rfl
    · right
      exact ⟨by simp only [List.map_append, List.map_cons, List.map_nil], rfl⟩
  | register_client msg now =>
    show registry_step st (handle_register_client st msg now).1
    unfold handle_register_client
    simp only
    split <;> exact registry_step_of_fields _ _ rfl rfl
  | create msg now =>
    show registry_step st (handle_create st msg now).1
    by_cases h1 : trie_search st.file_trie msg.filename = true
    · simp only [handle_create, h1, if_true]
      exact registry_step_of_eq _ _ rfl
    by_cases h2 : st.storage_servers.length = 0
    · simp only [handle_create, h1, h2, if_true, if_false, Bool.false_eq_true]
      exact registry_step_of_eq _ _ rfl
    by_cases h3 : st.db.files.any (fun r => r.filename = msg.filename) = true
    · simp only [handle_create, h1, h2, insert_file, h3, if_true, if_false, Bool.false_eq_true]
      exact registry_step_of_eq _ _ rfl
    · simp only [handle_create, h1, h2, insert_file, h3, if_false, Bool.false_eq_true]
      cases select_replica st.storage_servers (select_ss st.storage_servers) <;>
        exact Or.inl ⟨increment_file_count_ids _ _, rfl⟩
  | createfolder msg now =>
    show registry_step st (handle_createfolder st msg now).1
    by_cases h1 : trie_search st.file_trie msg.filename = true
    · simp only [handle_createfolder, h1, if_true]
      exact registry_step_of_eq _ _ rfl
    by_cases h2 : st.storage_servers.length = 0
    · simp only [handle_createfolder, h1, h2, if_true, if_false, Bool.false_eq_true]
      exact registry_step_of_eq _ _ rfl
    by_cases h3 : st.db.files.any (fun r => r.filename = msg.filename) = true
    · simp only [handle_createfolder, h1, h2, insert_file, h3, if_true, if_false,
        Bool.false_eq_true]
      exact registry_step_of_eq _ _ rfl
    · simp only [handle_createfolder, h1, h2, insert_file, h3, if_false, Bool.false_eq_true]
      exact Or.inl ⟨increment_file_count_ids _ _, rfl⟩
  | read msg now =>
    show registry_step st (handle_read st msg now).1
    unfold handle_read
    simp only
    split
    · exact registry_step_of_eq _ _ rfl
    · split
      · exact registry_step_of_eq _ _ rfl
      · exact registry_step_of_fields _ _ rfl rfl
  | write sock msg now =>
    show registry_step st (handle_write st sock msg now).1
    unfold handle_write
    cases sscanf_d msg.data with
    | none => exact registry_step_of_eq _ _ rfl
    | some n =>
      simp only
      split
      · exact registry_step_of_eq _ _ rfl
      · split
        · exact registry_step_of_eq _ _ rfl
        · split
          · exact registry_step_of_eq _ _ rfl
          · exact registry_step_of_eq _ _ rfl
          · split
            · exact registry_step_of_fields _ _ rfl rfl
            · exact registry_step_of_eq _ _ rfl
  | write_commit sock msg now sv => exact registry_step_of_fields _ _ rfl rfl
  | delete msg =>
    show registry_step st (handle_delete st msg).1
    rcases handle_delete_cases st msg with ⟨_, h⟩ | ⟨_, h, _⟩
    · exact registry_step_of_eq _ _ h
    · rw [h]
      exact Or.inl ⟨decrement_file_count_ids _ _, rfl⟩
  | addaccess msg =>
    show registry_step st (handle_addaccess st msg).1
    rcases handle_addaccess_db st msg with h | ⟨t, p, _, _, h⟩
    · exact registry_step_of_eq _ _ h
    · rw [h]; exact registry_step_of_fields _ _ rfl rfl
  | remaccess msg =>
    show registry_step st (handle_remaccess st msg).1
    rcases handle_remaccess_db st msg with h | h
    · exact registry_step_of_eq _ _ h
    · rw [h]; exact registry_step_of_fields _ _ rfl rfl
  | request_access msg now sp =>
    show registry_step st (handle_request_access st msg now sp).1
    rcases handle_request_access_db st msg now sp with h | ⟨t, h⟩
    · exact registry_step_of_eq _ _ h
    · rw [h]; exact registry_step_of_fields _ _ rfl rfl
  | close sock => exact registry_step_of_eq _ _ rfl

theorem apply_request_registry_inv (st : NameServerState) (r : Request)
    (h : registry_inv st) : registry_inv (apply_request st r) := by
  obtain ⟨hnd, hrange, hnext⟩ := h
  unfold registry_inv
  rcases apply_request_registry st r with ⟨hids, hn⟩ | ⟨hids, hn⟩
  · rw [hids, hn]; exact ⟨hnd, hrange, hnext⟩
  · rw [hids, hn]
    refine ⟨?_, ?_, by omega⟩
    · rw [List.nodup_append]
      refine ⟨hnd, by simp, ?_⟩
      intro i hi hi'
      rw [List.mem_singleton] at hi'
      have := (hrange i hi).2
      omega
    · intro i hi
      rcases List.mem_append.mp hi with hi | hi
      · have := hrange i hi
        omega
      · rw [List.mem_singleton] at hi
        omega

/-- In every state reached from `initial_state` the registry has pairwise
distinct ids that are at least `1`. -/
theorem registry_ok_reachable (reqs : List Request) :
    registry_ok (run_requests initial_state reqs).storage_servers := by
  have hinv : ∀ (reqs : List Request) (st : NameServerState), registry_inv st →
      registry_inv (run_requests st reqs) := by
    intro reqs
    induction reqs with
    | nil => intro st h; exact h
    | cons r rest ih =>
      intro st h
      unfold run_requests
      rw [List.foldl_cons]
      exact ih _ (apply_request_registry_inv st r h)
  have h0 : registry_inv initial_state := by
    unfold registry_inv
    refine ⟨List.nodup_nil, ?_, by decide⟩
    intro i hi
    cases hi
  have h := hinv reqs initial_state h0
  refine ⟨h.1, ?_⟩
  intro s hs
  exact (h.2.1 s.id (List.mem_map_of_mem _ hs)).1

/-! ## C21: CHECKPOINT and the permission of its sub-commands -/

/-- The endpoint lookup never answers `ERR_PERMISSION_DENIED`. -/
theorem endpoint_info_code (st : NameServerState) (f text : String) :
    (endpoint_info st f text init_message).error_code = 0 ∨
    (endpoint_info st f text init_message).error_code = 9 ∨
    (endpoint_info st f text init_message).error_code = 1 := by
  unfold endpoint_info
  split
  · simp only
    split
    · split
      · left; rfl
      · left; rfl
    · right; left; rfl
  · right; right; rfl

/-- With a well-formed payload (a non-empty sub-command), a name of the index
and `ACCESS_READ`, `handle_checkpoint` goes on to the endpoint lookup,
whatever the sub-command is: CREATE, LIST and REVERT alike need read
permission only. -/
theorem handle_checkpoint_read (st : NameServerState) (msg : Message)
    (hcmd : (sscanf_cmd_param msg.data).1.isSome = true)
    (hfile : trie_search st.file_trie msg.filename = true)
    (hread : check_permission st.db msg.username msg.filename ACCESS_READ = true) :
    handle_checkpoint st msg =
      (st, endpoint_info st msg.filename ("|CMD:" ++ msg.data) init_message) := by
  unfold handle_checkpoint
  rcases hp : sscanf_cmd_param msg.data with ⟨cmd, tag⟩
  rw [hp] at hcmd
  cases cmd with
  | none => cases hcmd
  | some c =>
    simp only [hfile, hread, Bool.not_true, Bool.false_eq_true, if_false]

/-- Without `ACCESS_READ` every sub-command is refused with
`ERR_PERMISSION_DENIED`. -/
theorem handle_checkpoint_denied (st : NameServerState) (msg : Message)
    (hcmd : (sscanf_cmd_param msg.data).1.isSome = true)
    (hfile : trie_search st.file_trie msg.filename = true)
    (hread : check_permission st.db msg.username msg.filename ACCESS_READ = false) :
    handle_checkpoint st msg =
      (st, set_message_error init_message ERR_PERMISSION_DENIED "No read permission") := by
  unfold handle_checkpoint
  rcases hp : sscanf_cmd_param msg.data with ⟨cmd, tag⟩
  rw [hp] at hcmd
  cases cmd with
  | none => cases hcmd
  | some c =>
    simp only [hfile, hread, Bool.not_true, Bool.not_false, Bool.false_eq_true, if_false,
      if_true]

/-- C21, the failing input.  In `read_granted_state` user `bob` holds a grant
with `ACCESS_READ` only on `doc.txt`.  His CHECKPOINT request with payload
`REVERT|v1` is answered `ERR_SUCCESS` (0) with the endpoints, exactly like
`CREATE|v1` and `LIST`, whereas his UNDO request is refused with
`ERR_PERMISSION_DENIED` (3): `handle_checkpoint` tests `ACCESS_READ` for
every sub-command and never reads the `cmd` it parsed. -/
theorem checkpoint_revert_read_only :
    check_permission read_granted_state.db "bob" "doc.txt" ACCESS_READ = true ∧
    check_permission read_granted_state.db "bob" "doc.txt" ACCESS_WRITE = false ∧
    (handle_checkpoint read_granted_state (checkpoint_msg "bob" "REVERT|v1")).2.error_code = 0 ∧
    (handle_checkpoint read_granted_state (checkpoint_msg "bob" "REVERT|v1")).2.data
      = "SS:127.0.0.1:9001|CMD:REVERT|v1|REPLICA:127.0.0.1:9002" ∧
    (handle_checkpoint read_granted_state (checkpoint_msg "bob" "CREATE|v1")).2.error_code = 0 ∧
    (handle_checkpoint read_granted_state (checkpoint_msg "bob" "LIST")).2.error_code = 0 ∧
    (handle_undo read_granted_state (undo_msg "bob")).2.error_code = 3 := by
  decide

/-! ## C22: a WRITE_LOCK request that fails after taking the lock -/

/-- The failures of `handle_write` that leave the lock table as it was: every
answer other than `ERR_SUCCESS` and `ERR_SS_NOT_FOUND`, for a file that has
its row in `files`. -/
theorem handle_write_early_failure (st : NameServerState) (sock : Int) (msg : Message)
    (now : Int) (row : FileRow) (hrow : select_file st.db msg.filename = some row)
    (h0 : (handle_write st sock msg now).2.error_code ≠ 0)
    (h9 : (handle_write st sock msg now).2.error_code ≠ 9) :
    (handle_write st sock msg now).1 = st := by
  have hinfo : ∀ (s : NameServerState) (n : Int), s.db = st.db →
      (write_ss_info s msg.filename n init_message).error_code = 0 ∨
      (write_ss_info s msg.filename n init_message).error_code = 9 := by
    intro s n hs
    unfold write_ss_info
    rw [hs, hrow]
    simp only
    split
    · left; split <;> rfl
    · right; rfl
  revert h0 h9
  unfold handle_write
  cases hp : sscanf_d msg.data with
  | none => intro _ _; rfl
  | some n =>
    simp only
    split
    · intro _ _; rfl
    · split
      · intro _ _; rfl
      · split
        · intro _ _; rfl
        · intro _ _; rfl
        · split
          · intro h0 h9
            rcases hinfo { st with locks := st.locks ++ [new_lock sock msg now n] } n rfl
              with h | h
            · exact absurd h h0
            · exact absurd h h9
          · intro _ _; rfl

/-- C22, the failing input.  The coordinator is stopped after the setup of
scenario 1 and started again over its store: the index is loaded from the
table `files`, the registry and the lock table are empty.  Before a node has
registered again, the WRITE_LOCK request of the owner for sentence 0 of
`doc.txt` on socket 5 is answered `ERR_SS_NOT_FOUND` (9), yet the lock table
holds the new lock afterwards: the lock is appended before the endpoint lookup
and no error path removes it.  After node 1 has registered again, the same
request on another socket is refused with `ERR_LOCKED` (4). -/
theorem write_lock_failure_keeps_lock :
    (restart setup_state).locks = [] ∧
    (restart setup_state).storage_servers = [] ∧
    trie_search (restart setup_state).file_trie "doc.txt" = true ∧
    (handle_write (restart setup_state) 5 (lock_msg "alice") 6).2.error_code = 9 ∧
    (handle_write (restart setup_state) 5 (lock_msg "alice") 6).1.locks =
      [{ filename := "doc.txt", sentence_number := 0, username := "alice", client_socket := 5,
         locked_at := 6 }] ∧
    (handle_write
      (handle_register_ss (handle_write (restart setup_state) 5 (lock_msg "alice") 6).1
        (register_msg "127.0.0.1:9001") 7 "" 0).1 6 (lock_msg "alice") 8).2.error_code = 4 := by
  decide

/-! ## C23: malformed payloads -/

/-- WRITE_LOCK with a payload in which `sscanf` finds no decimal integer:
`ERR_INVALID_PARAM`, and the state is the one before. -/
theorem handle_write_malformed (st : NameServerState) (sock : Int) (msg : Message) (now : Int)
    (hbad : sscanf_d msg.data = none) :
    handle_write st sock msg now =
      (st, set_message_error init_message ERR_INVALID_PARAM "Invalid sentence number") := by
  unfold handle_write
  simp only [hbad]

/-- ADDACCESS with a payload that `sscanf` cannot convert to a user name and an
integer: `ERR_INVALID_PARAM`, and the state is the one before. -/
theorem handle_addaccess_malformed (st : NameServerState) (msg : Message)
    (hbad : sscanf_user_perm msg.data = none) :
    handle_addaccess st msg =
      (st, set_message_error init_message ERR_INVALID_PARAM "Invalid format") := by
  unfold handle_addaccess
  simp only [hbad]

/-- A payload without the separator `|` is not converted. -/
theorem sscanf_user_perm_no_bar (s : String) (hbar : '|' ∉ s.data) :
    sscanf_user_perm s = none := by
  have hdrop : s.data.dropWhile (fun c => decide (c ≠ '|')) = [] := by
    rw [List.dropWhile_eq_nil_iff]
    intro c hc
    have : c ≠ '|' := fun h => hbar (h ▸ hc)
    simpa using this
  unfold sscanf_user_perm
  simp only [hdrop]
  split <;> rfl

/-- A payload whose text after the first `|` holds no integer is not converted. -/
theorem sscanf_user_perm_no_int (user rest : String) (huser : '|' ∉ user.data)
    (hint : sscanf_d rest = none) :
    sscanf_user_perm (user ++ "|" ++ rest) = none := by
  have hnb : ∀ c ∈ user.data, (fun c => decide (c ≠ '|')) c = true := by
    intro c hc
    have : c ≠ '|' := fun h => huser (h ▸ hc)
    simpa using this
  have hdata : (user ++ "|" ++ rest).data = user.data ++ '|' :: rest.data := by
    simp [String.data_append]
  have hdrop : (user.data ++ '|' :: rest.data).dropWhile (fun c => decide (c ≠ '|'))
      = '|' :: rest.data := by
    rw [List.dropWhile_append_of_pos hnb]
    simp [List.dropWhile]
  unfold sscanf_user_perm
  simp only [hdata, hdrop]
  split
  · rfl
  · show Option.map _ (sscanf_d ⟨rest.data⟩) = none
    rw [show (⟨rest.data⟩ : String) = rest from rfl, hint]
    rfl

/-- C23, the failing input.  `handle_client` does not test the result of
`sscanf` in its `ETIRW` branch, so that branch answers `ERR_SUCCESS` (0)
whatever the payload is; with the payload `abc` and a local `sentence_num`
left at 0, the lock of `alice` on sentence 0 is released and `modified_at` is
written.  WRITE_LOCK and ADDACCESS do answer `ERR_INVALID_PARAM` (5) for
payloads `abc`, `bob` and `bob|x`, and leave the lock table and the access
list as they were. -/
theorem write_commit_malformed_payload :
    (∀ (st : NameServerState) (sock : Int) (msg : Message) (now stack_value : Int),
      (handle_write_commit st sock msg now stack_value).2.error_code = 0) ∧
    sscanf_d "abc" = none ∧
    locked_state.locks = [alice_lock] ∧
    (handle_write_commit locked_state 5 (commit_msg_with "alice" "abc") 7 0).2.error_code = 0 ∧
    (handle_write_commit locked_state 5 (commit_msg_with "alice" "abc") 7 0).1.locks = [] ∧
    (handle_write_commit locked_state 5 (commit_msg_with "alice" "abc") 7 0).1.db.files.map
      (fun r => r.modified_at) = [7] ∧
    (handle_write locked_state 5 { lock_msg "alice" with data := "abc" } 7).2.error_code = 5 ∧
    (handle_write locked_state 5 { lock_msg "alice" with data := "abc" } 7).1.locks
      = locked_state.locks ∧
    (handle_addaccess setup_state (addaccess_msg "alice" "bob")).2.error_code = 5 ∧
    (handle_addaccess setup_state (addaccess_msg "alice" "bob|x")).2.error_code = 5 ∧
    (handle_addaccess setup_state (addaccess_msg "alice" "bob|x")).1.db.access_control
      = setup_state.db.access_control := by
  refine ⟨fun _ _ _ _ _ => rfl, ?_⟩
  decide

/-! ## C24: names at the coordinator -/

/-- C24, the failing input.  `handle_create` and `handle_createfolder` do not
look at the characters of the name: in `setup_state` the names `a/b`, `..` and
the empty name are created with `ERR_SUCCESS` (0) and get a row in `files`.
The storage node refuses the three names (`validate_basic_request`), the
coordinator has no such test.  Names are compared byte by byte, so `Doc.txt`
is a free name while `doc.txt` exists (`ERR_FILE_EXISTS`), and READ of
`Doc.txt` is answered `ERR_FILE_NOT_FOUND`. -/
theorem create_unvalidated_name :
    validate_basic_request (create_msg "a/b") = false ∧
    validate_basic_request (create_msg "..") = false ∧
    validate_basic_request (create_msg "") = false ∧
    validate_basic_request (create_msg "doc.txt") = true ∧
    (handle_create setup_state (create_msg "a/b") 6).2.error_code = 0 ∧
    (handle_create setup_state (create_msg "a/b") 6).1.db.files.map (fun r => r.filename)
      = ["doc.txt", "a/b"] ∧
    (handle_create setup_state (create_msg "..") 6).2.error_code = 0 ∧
    (handle_create setup_state (create_msg "..") 6).1.db.files.map (fun r => r.filename)
      = ["doc.txt", ".."] ∧
    (handle_create setup_state (create_msg "") 6).2.error_code = 0 ∧
    (handle_create setup_state (create_msg "") 6).1.db.files.map (fun r => r.filename)
      = ["doc.txt", ""] ∧
    (handle_createfolder setup_state (create_msg "a/b") 6).2.error_code = 0 ∧
    (handle_createfolder setup_state (create_msg "a/b") 6).1.db.files.map
      (fun r => r.filename) = ["doc.txt", "a/b"] ∧
    (handle_create setup_state (create_msg "doc.txt") 6).2.error_code = 2 ∧
    (handle_create setup_state (create_msg "Doc.txt") 6).2.error_code = 0 ∧
    (handle_read setup_state (read_name_msg "Doc.txt") 6).2.error_code = 1 := by
  decide

/-! ## The name index as a set of byte strings -/

theorem search_from_null (cs : List Char) : search_from .null cs = false := by
  cases cs <;> rfl

theorem search_from_node_cons (e : Bool) (f : Option String) (ch : Fin 256 → TrieNode)
    (c : Char) (cs : List Char) :
    search_from (.node e f ch) (c :: cs) = search_from (ch (char_index c)) cs := by
  conv_lhs => unfold search_from
  split
  · rename_i h
    cases hch : ch (char_index c) with
    | null => cases cs <;> rfl
    | node _ _ _ => rw [hch] at h; cases h
  · rfl

theorem search_from_create_node (cs : List Char) : search_from create_node cs = false := by
  cases cs with
  | nil => rfl
  | cons c cs =>
    unfold create_node
    rw [search_from_node_cons, search_from_null]

theorem insert_from_cons (e : Bool) (f : Option String) (ch : Fin 256 → TrieNode)
    (c : Char) (cs : List Char) (name : String) :
    insert_from (.node e f ch) (c :: cs) name =
      .node e f (Function.update ch (char_index c)
        (insert_from (if (ch (char_index c)).is_null then create_node else ch (char_index c))
          cs name)) := by
  rw [insert_from]

theorem delete_helper_nil (e : Bool) (f : Option String) (ch : Fin 256 → TrieNode) :
    delete_helper (.node e f ch) [] =
      ((if e then .node false none ch else .node e f ch), !has_children ch) := by
  rw [delete_helper]

theorem delete_helper_cons (e : Bool) (f : Option String) (ch : Fin 256 → TrieNode)
    (c : Char) (cs : List Char) :
    delete_helper (.node e f ch) (c :: cs) =
      if (delete_helper (ch (char_index c)) cs).2 = true then
        (.node e f (Function.update ch (char_index c) TrieNode.null),
          if !e then !has_children (Function.update ch (char_index c) TrieNode.null) else false)
      else
        (.node e f (Function.update ch (char_index c) (delete_helper (ch (char_index c)) cs).1),
          false) := by
  rw [delete_helper]

/-- The walk of `trie_search` reads a name through the bytes of its characters. -/
theorem search_from_bytes (t : TrieNode) (k k' : List Char)
    (h : k.map char_index = k'.map char_index) : search_from t k = search_from t k' := by
  induction k generalizing t k' with
  | nil =>
    cases k' with
    | nil => rfl
    | cons c cs => simp at h
  | cons c cs ih =>
    cases k' with
    | nil => simp at h
    | cons c' cs' =>
      rw [List.map_cons, List.map_cons, List.cons.injEq] at h
      cases t with
      | null => rw [search_from_null, search_from_null]
      | node e f ch =>
        rw [search_from_node_cons, search_from_node_cons, h.1]
        exact ih _ _ h.2

theorem bytes_cons_eq (c c' : Char) (cs cs' : List Char) (hi : char_index c' = char_index c) :
    decide ((c' :: cs').map char_index = (c :: cs).map char_index)
      = decide (cs'.map char_index = cs.map char_index) := by
  simp [hi]

theorem bytes_cons_ne (c c' : Char) (cs cs' : List Char) (hi : char_index c' ≠ char_index c) :
    decide ((c' :: cs').map char_index = (c :: cs).map char_index) = false := by
  simp [hi]

/-- The walk of `trie_insert` adds the inserted name (as a byte string) and
changes the answer for no other name. -/
theorem search_insert_from (k : List Char) (name : String) (e : Bool) (f : Option String)
    (ch : Fin 256 → TrieNode) (k' : List Char) :
    search_from (insert_from (.node e f ch) k name) k' =
      (decide (k'.map char_index = k.map char_index) || search_from (.node e f ch) k') := by
  induction k generalizing e f ch k' with
  | nil =>
    cases k' with
    | nil => rfl
    | cons c cs =>
      rw [insert_from, search_from_node_cons, search_from_node_cons]
      simp
  | cons c cs ih =>
    rw [insert_from_cons]
    cases k' with
    | nil => simp [search_from]
    | cons c' cs' =>
      rw [search_from_node_cons, search_from_node_cons]
      by_cases hi : char_index c' = char_index c
      · rw [hi, Function.update_same, bytes_cons_eq c c' cs cs' hi]
        cases hch : ch (char_index c) with
        | null =>
          simp only [TrieNode.is_null, if_true]
          rw [show create_node = TrieNode.node false none (fun _ => TrieNode.null) from rfl, ih,
            ← show create_node = TrieNode.node false none (fun _ => TrieNode.null) from rfl,
            search_from_create_node, search_from_null]
        | node e2 f2 ch2 =>
          simp only [TrieNode.is_null, Bool.false_eq_true, if_false]
          rw [ih]
      · rw [Function.update_noteq hi, bytes_cons_ne c c' cs cs' hi, Bool.false_or]

theorem has_children_eq_false (ch : Fin 256 → TrieNode) (h : has_children ch = false)
    (i : Fin 256) : ch i = .null := by
  unfold has_children at h
  rw [List.any_eq_false] at h
  have hi := h i (List.mem_finRange i)
  cases hch : ch i with
  | null => rfl
  | node _ _ _ => rw [hch] at hi; simp [TrieNode.is_null] at hi

/-- When `delete_helper` tells its caller to free the node, no name is left
below that node. -/
theorem delete_helper_flag (t : TrieNode) (k : List Char)
    (h : (delete_helper t k).2 = true) (k' : List Char) :
    search_from (delete_helper t k).1 k' = false := by
  cases t with
  | null => exact search_from_null _
  | node e f ch =>
    cases k with
    | nil =>
      rw [delete_helper_nil] at h ⊢
      have hc : has_children ch = false := by
        cases hh : has_children ch with
        | false => rfl
        | true => rw [hh] at h; cases h
      cases k' with
      | nil => cases e <;> rfl
      | cons c' cs' =>
        cases e
        · show search_from (TrieNode.node false f ch) (c' :: cs') = false
          rw [search_from_node_cons, has_children_eq_false ch hc, search_from_null]
        · show search_from (TrieNode.node false none ch) (c' :: cs') = false
          rw [search_from_node_cons, has_children_eq_false ch hc, search_from_null]
    | cons c cs =>
      rw [delete_helper_cons] at h ⊢
      by_cases hr : (delete_helper (ch (char_index c)) cs).2 = true
      · rw [if_pos hr] at h ⊢
        cases e with
        | true => cases h
        | false =>
          have hc : has_children (Function.update ch (char_index c) TrieNode.null) = false := by
            cases hh : has_children (Function.update ch (char_index c) TrieNode.null) with
            | false => rfl
            | true => rw [hh] at h; simp at h
          cases k' with
          | nil => rfl
          | cons c' cs' =>
            show search_from (TrieNode.node false f _) (c' :: cs') = false
            rw [search_from_node_cons, has_children_eq_false _ hc, search_from_null]
      · rw [if_neg hr] at h
        cases h

/-- The node left by `delete_helper` no longer answers for the deleted name
(as a byte string) and answers as before for every other name. -/
theorem search_delete_helper (k : List Char) (t : TrieNode) (k' : List Char) :
    search_from (delete_helper t k).1 k' =
      (!decide (k'.map char_index = k.map char_index) && search_from t k') := by
  induction k generalizing t k' with
  | nil =>
    cases t with
    | null => simp [delete_helper, search_from_null]
    | node e f ch =>
      rw [delete_helper_nil]
      cases k' with
      | nil => cases e <;> simp [search_from]
      | cons c' cs' =>
        cases e <;> simp [search_from_node_cons]
  | cons c cs ih =>
    cases t with
    | null => simp [delete_helper, search_from_null]
    | node e f ch =>
      have hflag := delete_helper_flag (ch (char_index c)) cs
      have ih' := ih (ch (char_index c))
      rw [delete_helper_cons]
      cases k' with
      | nil =>
        by_cases hr : (delete_helper (ch (char_index c)) cs).2 = true
        · rw [if_pos hr]; simp [search_from]
        · rw [if_neg hr]; simp [search_from]
      | cons c' cs' =>
        by_cases hi : char_index c' = char_index c
        · rw [bytes_cons_eq c c' cs cs' hi]
          by_cases hr : (delete_helper (ch (char_index c)) cs).2 = true
          · rw [if_pos hr]
            show search_from (TrieNode.node e f _) (c' :: cs') = _
            rw [search_from_node_cons, search_from_node_cons, hi, Function.update_same,
              search_from_null, ← ih', hflag hr]
          · rw [if_neg hr]
            show search_from (TrieNode.node e f _) (c' :: cs') = _
            rw [search_from_node_cons, search_from_node_cons, hi, Function.update_same, ih']
        · rw [bytes_cons_ne c c' cs cs' hi]
          by_cases hr : (delete_helper (ch (char_index c)) cs).2 = true
          · rw [if_pos hr]
            show search_from (TrieNode.node e f _) (c' :: cs') = _
            rw [search_from_node_cons, search_from_node_cons, Function.update_noteq hi]
            rfl
          · rw [if_neg hr]
            show search_from (TrieNode.node e f _) (c' :: cs') = _
            rw [search_from_node_cons, search_from_node_cons, Function.update_noteq hi]
            rfl

theorem insert_from_not_null (e : Bool) (f : Option String) (ch : Fin 256 → TrieNode)
    (k : List Char) (name : String) : (insert_from (.node e f ch) k name).is_null = false := by
  cases k with
  | nil => rw [insert_from]; rfl
  | cons c cs => rw [insert_from_cons]; rfl

theorem delete_helper_not_null (e : Bool) (f : Option String) (ch : Fin 256 → TrieNode)
    (k : List Char) : (delete_helper (.node e f ch) k).1.is_null = false := by
  cases k with
  | nil => rw [delete_helper_nil]; cases e <;> rfl
  | cons c cs =>
    rw [delete_helper_cons]
    split <;> rfl

theorem is_null_eq_false (t : TrieNode) (h : t.is_null = false) :
    ∃ e f ch, t = .node e f ch := by
  cases t with
  | null => cases h
  | node e f ch => exact ⟨e, f, ch, rfl⟩

/-- After `trie_insert` of `k`, `trie_search` finds `k` (and every name with
the same bytes) and answers as before for every other name. -/
theorem trie_search_insert (t : Trie) (hroot : t.root.is_null = false) (k k' : String) :
    trie_search (trie_insert t k) k' =
      (decide (k'.data.map char_index = k.data.map char_index) || trie_search t k') := by
  obtain ⟨e, f, ch, hr⟩ := is_null_eq_false _ hroot
  unfold trie_search trie_insert
  simp only [hr]
  exact search_insert_from _ _ _ _ _ _

/-- After `trie_delete` of `k`, `trie_search` no longer finds `k` and answers
as before for every other name. -/
theorem trie_search_delete (t : Trie) (k k' : String) :
    trie_search (trie_delete t k) k' =
      (!decide (k'.data.map char_index = k.data.map char_index) && trie_search t k') := by
  unfold trie_delete
  by_cases hs : trie_search t k = true
  · rw [if_pos hs]
    unfold trie_search
    exact search_delete_helper _ _ _
  · rw [if_neg hs]
    by_cases hb : k'.data.map char_index = k.data.map char_index
    · have : trie_search t k' = trie_search t k := search_from_bytes _ _ _ hb
      rw [this]
      simp only [Bool.not_eq_true] at hs
      rw [hs]; simp
    · simp [hb]

theorem trie_insert_root (t : Trie) (hroot : t.root.is_null = false) (k : String) :
    (trie_insert t k).root.is_null = false := by
  obtain ⟨e, f, ch, hr⟩ := is_null_eq_false _ hroot
  unfold trie_insert
  simp only [hr]
  exact insert_from_not_null _ _ _ _ _

theorem trie_delete_root (t : Trie) (hroot : t.root.is_null = false) (k : String) :
    (trie_delete t k).root.is_null = false := by
  obtain ⟨e, f, ch, hr⟩ := is_null_eq_false _ hroot
  unfold trie_delete
  split
  · simp only [hr]
    exact delete_helper_not_null _ _ _ _
  · exact hroot

theorem char_index_inj (c c' : Char) (hc : c.toNat < 256) (hc' : c'.toNat < 256)
    (h : char_index c = char_index c') : c = c' := by
  unfold char_index at h
  have h1 : c.toNat % 256 = c'.toNat % 256 := congrArg Fin.val h
  rw [Nat.mod_eq_of_lt hc, Nat.mod_eq_of_lt hc'] at h1
  apply Char.ext
  apply UInt32.ext
  exact h1

/-- On byte strings, equal byte sequences are equal names. -/
theorem bytes_inj (k k' : List Char) (hk : ∀ c ∈ k, c.toNat < 256)
    (hk' : ∀ c ∈ k', c.toNat < 256) (h : k'.map char_index = k.map char_index) : k' = k := by
  induction k generalizing k' with
  | nil =>
    cases k' with
    | nil => rfl
    | cons c cs => simp at h
  | cons c cs ih =>
    cases k' with
    | nil => simp at h
    | cons c' cs' =>
      rw [List.map_cons, List.map_cons, List.cons.injEq] at h
      have h1 := char_index_inj c' c (hk' c' (List.mem_cons_self _ _))
        (hk c (List.mem_cons_self _ _)) h.1
      have h2 := ih cs' (fun x hx => hk x (List.mem_cons_of_mem _ hx))
        (fun x hx => hk' x (List.mem_cons_of_mem _ hx)) h.2
      rw [h1, h2]

theorem byte_string_bytes (k k' : String) (hk : byte_string k) (hk' : byte_string k') :
    decide (k'.data.map char_index = k.data.map char_index) = decide (k' = k) := by
  by_cases h : k' = k
  · subst h; simp
  · have : ¬ k'.data.map char_index = k.data.map char_index := by
      intro hb
      apply h
      have := bytes_inj k.data k'.data hk hk' hb
      exact String.ext this
    simp [h, this]

/-! ## C30: the name index refines a finite set -/

theorem run_trie_ops_append (ops : List TrieOp) (op : TrieOp) :
    run_trie_ops (ops ++ [op]) = apply_trie_op (run_trie_ops ops) op := by
  unfold run_trie_ops
  rw [List.foldl_append]
  rfl

theorem run_trie_ops_root (ops : List TrieOp) : (run_trie_ops ops).root.is_null = false := by
  induction ops using List.reverseRecOn with
  | nil => rfl
  | append_singleton ops op ih =>
    rw [run_trie_ops_append]
    cases op with
    | insert k => exact trie_insert_root _ ih k
    | delete k => exact trie_delete_root _ ih k

theorem live_key_append (ops : List TrieOp) (op : TrieOp) (k : String) :
    live_key (ops ++ [op]) k =
      if op.key = k then
        (match op with
         | .insert _ => true
         | .delete _ => false)
      else live_key ops k := by
  unfold live_key
  rw [List.reverse_append, List.reverse_singleton, List.singleton_append]
  by_cases h : op.key = k
  · rw [List.find?_cons_of_pos _ (by simpa using h), if_pos h]
    cases op <;> rfl
  · rw [List.find?_cons_of_neg _ (by simpa using h), if_neg h]

theorem live_key_mem (ops : List TrieOp) (k : String) (h : live_key ops k = true) :
    k ∈ ops.map TrieOp.key := by
  unfold live_key at h
  cases hf : ops.reverse.find? (fun op => op.key = k) with
  | none => rw [hf] at h; cases h
  | some op =>
    have hm := List.mem_of_find?_eq_some hf
    have hk := List.find?_some hf
    rw [List.mem_reverse] at hm
    rw [List.mem_map]
    exact ⟨op, hm, by simpa using hk⟩

theorem mem_live_keys (ops : List TrieOp) (k : String) :
    k ∈ live_keys ops ↔ live_key ops k = true := by
  unfold live_keys
  rw [Finset.mem_filter, List.mem_toFinset]
  exact ⟨fun h => h.2, fun h => ⟨live_key_mem ops k h, h⟩⟩

theorem live_keys_insert (ops : List TrieOp) (k : String) :
    live_keys (ops ++ [.insert k]) = insert k (live_keys ops) := by
  ext x
  rw [mem_live_keys, Finset.mem_insert, mem_live_keys, live_key_append]
  show (if k = x then true else live_key ops x) = true ↔ _
  by_cases h : k = x
  · rw [if_pos h]; simp [h]
  · rw [if_neg h]
    constructor
    · intro hx; exact Or.inr hx
    · rintro (hx | hx)
      · exact absurd hx.symm h
      · exact hx

theorem live_keys_delete (ops : List TrieOp) (k : String) :
    live_keys (ops ++ [.delete k]) = (live_keys ops).erase k := by
  ext x
  rw [mem_live_keys, Finset.mem_erase, mem_live_keys, live_key_append]
  show (if k = x then false else live_key ops x) = true ↔ _
  by_cases h : k = x
  · rw [if_pos h]; simp [h]
  · rw [if_neg h]
    constructor
    · intro hx; exact ⟨fun hxk => h hxk.symm, hx⟩
    · intro hx; exact hx.2

/-- The index after any sequence of calls on byte strings answers
`trie_search` by `live_key`, and its `size` is the number of live keys. -/
theorem run_trie_ops_spec (ops : List TrieOp) (hops : ∀ op ∈ ops, byte_string op.key) :
    (∀ k, byte_string k → trie_search (run_trie_ops ops) k = live_key ops k) ∧
    (run_trie_ops ops).size = ((live_keys ops).card : Int) := by
  induction ops using List.reverseRecOn with
  | nil =>
    constructor
    · intro k _
      show search_from create_node k.data = false
      exact search_from_create_node _
    · rfl
  | append_singleton ops op ih =>
    have hops' : ∀ o ∈ ops, byte_string o.key :=
      fun o ho => hops o (List.mem_append_left _ ho)
    have hop : byte_string op.key := hops op (List.mem_append_right _ (List.mem_singleton_self _))
    obtain ⟨ih1, ih2⟩ := ih hops'
    have hroot := run_trie_ops_root ops
    rw [run_trie_ops_append]
    cases op with
    | insert k =>
      constructor
      · intro x hx
        show trie_search (trie_insert _ k) x = _
        rw [trie_search_insert _ hroot, byte_string_bytes k x hop hx, live_key_append, ih1 x hx]
        show _ = if k = x then true else live_key ops x
        by_cases h : x = k
        · subst h; simp
        · have h' : ¬ k = x := fun e => h e.symm
          simp [h, h']
      · show (trie_insert _ k).size = _
        rw [live_keys_insert]
        unfold trie_insert
        simp only
        rw [ih1 k hop]
        by_cases hl : live_key ops k = true
        · rw [if_pos hl, Finset.insert_eq_of_mem ((mem_live_keys ops k).mpr hl), ih2]
        · rw [if_neg hl, Finset.card_insert_of_not_mem (fun hm => hl ((mem_live_keys ops k).mp hm)),
            ih2]
          push_cast; rfl
    | delete k =>
      constructor
      · intro x hx
        show trie_search (trie_delete _ k) x = _
        rw [trie_search_delete, byte_string_bytes k x hop hx, live_key_append, ih1 x hx]
        show _ = if k = x then false else live_key ops x
        by_cases h : x = k
        · subst h; simp
        · have h' : ¬ k = x := fun e => h e.symm
          simp [h, h']
      · show (trie_delete _ k).size = _
        rw [live_keys_delete]
        unfold trie_delete
        rw [ih1 k hop]
        by_cases hl : live_key ops k = true
        · rw [if_pos hl]
          have hm := (mem_live_keys ops k).mpr hl
          have hpos : 0 < (live_keys ops).card := Finset.card_pos.mpr ⟨k, hm⟩
          rw [Finset.card_erase_of_mem hm]
          simp only
          rw [ih2]
          omega
        · rw [if_neg hl, Finset.erase_eq_of_not_mem (fun hm => hl ((mem_live_keys ops k).mp hm)),
            ih2]

/-- C30.  For every sequence of `trie_insert` and `trie_delete` calls on a
fresh index (the names being C strings, one byte per character),
`trie_search k` is true exactly when `k` has been inserted and not deleted
since its last insertion, `size` is the number of such names, and a further
`trie_delete k` changes the answer for no other name `x`, among them the
prefixes and the extensions of `k`. -/
theorem trie_refines_set (ops : List TrieOp) (hops : ∀ op ∈ ops, byte_string op.key) :
    (∀ k, byte_string k → (trie_search (run_trie_ops ops) k = true ↔ live_key ops k = true)) ∧
    (run_trie_ops ops).size = ((live_keys ops).card : Int) ∧
    (∀ k x, byte_string k → byte_string x → x ≠ k →
      trie_search (trie_delete (run_trie_ops ops) k) x = trie_search (run_trie_ops ops) x) := by
  obtain ⟨h1, h2⟩ := run_trie_ops_spec ops hops
  refine ⟨fun k hk => by rw [h1 k hk], h2, ?_⟩
  intro k x hk hx hne
  rw [trie_search_delete, byte_string_bytes k x hk hx]
  simp [hne]

theorem trie_refines_set_witness :
    (trie_search (run_trie_ops [.insert "ab", .insert "a", .insert "abc", .delete "ab"]) "a"
        = true ↔
      live_key [.insert "ab", .insert "a", .insert "abc", .delete "ab"] "a" = true) ∧
    (run_trie_ops [.insert "ab", .insert "a", .insert "abc", .delete "ab"]).size =
      ((live_keys [.insert "ab", .insert "a", .insert "abc", .delete "ab"]).card : Int) ∧
    trie_search (trie_delete
        (run_trie_ops [.insert "ab", .insert "a", .insert "abc", .delete "ab"]) "abc") "a"
      = trie_search (run_trie_ops [.insert "ab", .insert "a", .insert "abc", .delete "ab"]) "a" :=
  have h := trie_refines_set [.insert "ab", .insert "a", .insert "abc", .delete "ab"]
    (by decide)
  ⟨h.1 "a" (by decide), h.2.1, h.2.2 "abc" "a" (by decide) (by decide) (by decide)⟩

/-! ## What one request does to the registry, the index and the placements -/

theorem select_ss_from_lt (servers rest : List StorageServerInfo) (i k : Nat) (hk : k < i) :
    select_ss_from servers rest i k < i + rest.length := by
  induction rest generalizing i k with
  | nil => unfold select_ss_from; simpa using hk
  | cons s rest ih =>
    unfold select_ss_from
    rw [List.length_cons]
    split
    · have := ih (i + 1) i (by omega)
      omega
    · have := ih (i + 1) k (by omega)
      omega

theorem select_ss_lt (servers : List StorageServerInfo) (hne : servers.length ≠ 0) :
    select_ss servers < servers.length := by
  unfold select_ss
  have := select_ss_from_lt servers (servers.drop 1) 1 0 (by omega)
  rw [List.length_drop] at this
  omega

theorem placements_update_accessed_at (db : Database) (f : String) (now : Int) :
    placements (update_accessed_at db f now) = placements db := by
  unfold placements update_accessed_at
  simp only [List.map_map]
  apply List.map_congr_left
  intro r _
  simp only [Function.comp]
  split <;> rfl

theorem placements_update_modified_at (db : Database) (f : String) (now : Int) :
    placements (update_modified_at db f now) = placements db := by
  unfold placements update_modified_at
  simp only [List.map_map]
  apply List.map_congr_left
  intro r _
  simp only [Function.comp]
  split <;> rfl

theorem catalog_step_of_fields (st st' : NameServerState) (name : String)
    (h1 : st'.storage_servers = st.storage_servers) (h2 : st'.next_ss_id = st.next_ss_id)
    (h3 : st'.file_trie = st.file_trie) (h4 : placements st'.db = placements st.db) :
    catalog_step st st' name := Or.inl ⟨h1, h2, h3, h4⟩

theorem catalog_step_of_eq (st st' : NameServerState) (name : String) (h : st' = st) :
    catalog_step st st' name := by
  subst h; exact Or.inl ⟨rfl, rfl, rfl, rfl⟩

theorem handle_register_ss_catalog (st : NameServerState) (msg : Message) (now : Int)
    (ip : String) (port : Int) :
    catalog_step st (handle_register_ss st msg now ip port).1 msg.filename := by
  unfold handle_register_ss
  split
  · exact catalog_step_of_eq _ _ _ rfl
  · right; left
    exact ⟨_, rfl, rfl, rfl, rfl, rfl, rfl⟩

theorem handle_register_client_catalog (st : NameServerState) (msg : Message) (now : Int) :
    catalog_step st (handle_register_client st msg now).1 msg.filename := by
  unfold handle_register_client
  simp only
  split
  · exact catalog_step_of_fields _ _ _ rfl rfl rfl rfl
  · exact catalog_step_of_eq _ _ _ rfl

theorem handle_write_catalog (st : NameServerState) (sock : Int) (msg : Message) (now : Int) :
    catalog_step st (handle_write st sock msg now).1 msg.filename := by
  unfold handle_write
  cases sscanf_d msg.data with
  | none => exact catalog_step_of_eq _ _ _ rfl
  | some n =>
    simp only
    split
    · exact catalog_step_of_eq _ _ _ rfl
    · split
      · exact catalog_step_of_eq _ _ _ rfl
      · split
        · exact catalog_step_of_eq _ _ _ rfl
        · exact catalog_step_of_eq _ _ _ rfl
        · split
          · exact catalog_step_of_fields _ _ _ rfl rfl rfl rfl
          · exact catalog_step_of_eq _ _ _ rfl

theorem handle_read_catalog (st : NameServerState) (msg : Message) (now : Int) :
    catalog_step st (handle_read st msg now).1 msg.filename := by
  unfold handle_read
  simp only
  split
  · exact catalog_step_of_eq _ _ _ rfl
  · split
    · exact catalog_step_of_eq _ _ _ rfl
    · exact catalog_step_of_fields _ _ _ rfl rfl rfl (placements_update_accessed_at _ _ _)

theorem handle_write_commit_catalog (st : NameServerState) (sock : Int) (msg : Message)
    (now sv : Int) :
    catalog_step st (handle_write_commit st sock msg now sv).1 msg.filename :=
  catalog_step_of_fields _ _ _ rfl rfl rfl (placements_update_modified_at _ _ _)

theorem handle_addaccess_catalog (st : NameServerState) (msg : Message) :
    catalog_step st (handle_addaccess st msg).1 msg.filename := by
  rcases handle_addaccess_db st msg with h | ⟨t, p, _, _, h⟩
  · exact catalog_step_of_eq _ _ _ h
  · rw [h]; exact catalog_step_of_fields _ _ _ rfl rfl rfl rfl

theorem handle_remaccess_catalog (st : NameServerState) (msg : Message) :
    catalog_step st (handle_remaccess st msg).1 msg.filename := by
  rcases handle_remaccess_db st msg with h | h
  · exact catalog_step_of_eq _ _ _ h
  · rw [h]; exact catalog_step_of_fields _ _ _ rfl rfl rfl rfl

theorem handle_request_access_catalog (st : NameServerState) (msg : Message) (now : Int)
    (sp : String) : catalog_step st (handle_request_access st msg now sp).1 msg.filename := by
  rcases handle_request_access_db st msg now sp with h | ⟨t, h⟩
  · exact catalog_step_of_eq _ _ _ h
  · rw [h]; exact catalog_step_of_fields _ _ _ rfl rfl rfl rfl

theorem insert_file_none (db : Database) (row : FileRow)
    (h : db.files.any (fun r => r.filename = row.filename) = true) :
    insert_file db row = none := by
  unfold insert_file; rw [if_pos h]

theorem insert_file_some (db : Database) (row : FileRow)
    (h : ¬ db.files.any (fun r => r.filename = row.filename) = true) :
    insert_file db row = some { db with files := db.files ++ [row] } := by
  unfold insert_file; rw [if_neg h]

theorem not_any_filename (db : Database) (name : String)
    (h : ¬ db.files.any (fun r => r.filename = name) = true) :
    ∀ p ∈ placements db, p.1 ≠ name := by
  intro p hp hpn
  apply h
  unfold placements at hp
  rw [List.mem_map] at hp
  obtain ⟨r, hr, rfl⟩ := hp
  rw [List.any_eq_true]
  exact ⟨r, hr, by simpa using hpn⟩

/-- The state after a successful `handle_create`. -/
theorem handle_create_state (st : NameServerState) (msg : Message) (now : Int)
    (h1 : trie_search st.file_trie msg.filename = false)
    (h2 : st.storage_servers.length ≠ 0)
    (h3 : ¬ st.db.files.any (fun r => r.filename = msg.filename) = true) :
    (handle_create st msg now).2.error_code = 0 ∧
    (handle_create st msg now).1.storage_servers =
      increment_file_count st.storage_servers (select_ss st.storage_servers) ∧
    (handle_create st msg now).1.next_ss_id = st.next_ss_id ∧
    (handle_create st msg now).1.file_trie = trie_insert st.file_trie msg.filename ∧
    placements (handle_create st msg now).1.db = placements st.db ++
      [(msg.filename, (st.storage_servers.getD (select_ss st.storage_servers) default).id)] := by
  unfold handle_create
  simp only [h1, h2, Bool.false_eq_true, if_false]
  rw [insert_file_some _ _ h3]
  simp only
  cases select_replica st.storage_servers (select_ss st.storage_servers) with
  | none => refine ⟨rfl, rfl, rfl, rfl, ?_⟩; simp [placements]
  | some r => refine ⟨rfl, rfl, rfl, rfl, ?_⟩; simp [placements]

/-- A `handle_create` that does not reach the insertion, or whose insertion
fails, leaves the state as it was and answers with an error. -/
theorem handle_create_refused (st : NameServerState) (msg : Message) (now : Int)
    (h : trie_search st.file_trie msg.filename = true ∨ st.storage_servers.length = 0 ∨
      st.db.files.any (fun r => r.filename = msg.filename) = true) :
    (handle_create st msg now).1 = st ∧ (handle_create st msg now).2.error_code ≠ 0 := by
  by_cases h1 : trie_search st.file_trie msg.filename = true
  · have he : handle_create st msg now =
        (st, set_message_error init_message ERR_FILE_EXISTS "File already exists") := by
      unfold handle_create
      simp only [h1, if_true]
    rw [he]; exact ⟨rfl, by show (ERR_FILE_EXISTS : Int) ≠ 0; decide⟩
  by_cases h2 : st.storage_servers.length = 0
  · have he : handle_create st msg now =
        (st, set_message_error init_message ERR_SS_NOT_FOUND "No storage servers available") := by
      unfold handle_create
      simp only [h1, h2, if_true, if_false, Bool.false_eq_true]
    rw [he]; exact ⟨rfl, by show (ERR_SS_NOT_FOUND : Int) ≠ 0; decide⟩
  have h3 : st.db.files.any (fun r => r.filename = msg.filename) = true := by
    rcases h with h | h | h
    · exact absurd h h1
    · exact absurd h h2
    · exact h
  have he : handle_create st msg now =
      (st, set_message_error init_message ERR_SERVER_ERROR "Failed to create file metadata") := by
    unfold handle_create
    simp only [h1, h2, if_false, Bool.false_eq_true]
    rw [insert_file_none _ _ h3]
  rw [he]; exact ⟨rfl, by show (ERR_SERVER_ERROR : Int) ≠ 0; decide⟩

theorem handle_create_catalog (st : NameServerState) (msg : Message) (now : Int) :
    catalog_step st (handle_create st msg now).1 msg.filename := by
  by_cases h1 : trie_search st.file_trie msg.filename = true
  · exact catalog_step_of_eq _ _ _ (handle_create_refused st msg now (Or.inl h1)).1
  by_cases h2 : st.storage_servers.length = 0
  · exact catalog_step_of_eq _ _ _ (handle_create_refused st msg now (Or.inr (Or.inl h2))).1
  by_cases h3 : st.db.files.any (fun r => r.filename = msg.filename) = true
  · exact catalog_step_of_eq _ _ _ (handle_create_refused st msg now (Or.inr (Or.inr h3))).1
  · have h1' : trie_search st.file_trie msg.filename = false := by simpa using h1
    obtain ⟨_, ha, hb, hc, hd⟩ := handle_create_state st msg now h1' h2 h3
    right; right; left
    exact ⟨select_ss st.storage_servers, select_ss_lt _ h2, h1', not_any_filename _ _ h3,
      ha, hb, hc, hd⟩

theorem handle_createfolder_catalog (st : NameServerState) (msg : Message) (now : Int) :
    catalog_step st (handle_createfolder st msg now).1 msg.filename := by
  unfold handle_createfolder
  by_cases h1 : trie_search st.file_trie msg.filename = true
  · simp only [h1, if_true]; exact catalog_step_of_eq _ _ _ rfl
  by_cases h2 : st.storage_servers.length = 0
  · simp only [h1, h2, if_true, if_false]; exact catalog_step_of_eq _ _ _ rfl
  by_cases h3 : st.db.files.any (fun r => r.filename = msg.filename) = true
  · simp only [h1, h2, if_false]
    rw [insert_file_none _ _ h3]
    exact catalog_step_of_eq _ _ _ rfl
  · have h1' : trie_search st.file_trie msg.filename = false := by simpa using h1
    simp only [h1, h2, if_false]
    rw [insert_file_some _ _ h3]
    right; right; left
    refine ⟨select_ss st.storage_servers, select_ss_lt _ h2, h1', not_any_filename _ _ h3,
      rfl, rfl, rfl, ?_⟩
    simp [placements]

theorem placements_delete (db : Database) (name : String) :
    placements (delete_access_rows (delete_file_rows db name) name) =
      (placements db).filter (fun p => p.1 ≠ name) := by
  unfold placements delete_access_rows delete_file_rows
  simp only
  rw [List.filter_map]
  rfl

theorem handle_delete_catalog (st : NameServerState) (msg : Message) :
    catalog_step st (handle_delete st msg).1 msg.filename := by
  rcases handle_delete_cases st msg with ⟨_, h⟩ | ⟨_, h, hfile, _⟩
  · exact catalog_step_of_eq _ _ _ h
  · rw [h]
    right; right; right
    exact ⟨hfile, rfl, rfl, rfl, placements_delete _ _⟩

/-- What one request does to the registry, the index and the placements. -/
theorem apply_request_catalog_step (st : NameServerState) (r : Request) :
    catalog_step st (apply_request st r) r.filename := by
  cases r with
  | register_ss msg now ip port => exact handle_register_ss_catalog st msg now ip port
  | register_client msg now => exact handle_register_client_catalog st msg now
  | create msg now => exact handle_create_catalog st msg now
  | createfolder msg now => exact handle_createfolder_catalog st msg now
  | read msg now => exact handle_read_catalog st msg now
  | write sock msg now => exact handle_write_catalog st sock msg now
  | write_commit sock msg now sv => exact handle_write_commit_catalog st sock msg now sv
  | delete msg => exact handle_delete_catalog st msg
  | addaccess msg => exact handle_addaccess_catalog st msg
  | remaccess msg => exact handle_remaccess_catalog st msg
  | request_access msg now sp => exact handle_request_access_catalog st msg now sp
  | close sock => exact catalog_step_of_eq _ _ _ rfl

/-! ## The counters `file_count` as a function of the registry ids -/

theorem primary_count_placements (db : Database) (id : Int) :
    primary_count db id = ((placements db).filter (fun p => p.2 = id)).length := by
  unfold primary_count placements
  rw [List.filter_map, List.length_map]
  rfl

theorem getD_mem (servers : List StorageServerInfo) (i : Nat) (hi : i < servers.length) :
    servers.getD i default ∈ servers := by
  rw [List.getD_eq_getElem _ _ hi]
  exact List.getElem_mem _

theorem map_id_of_ne (rest : List StorageServerInfo) (id : Int)
    (g : StorageServerInfo → StorageServerInfo)
    (h : id ∉ rest.map (fun s => s.id)) :
    rest.map (fun s => if s.id = id then g s else s) = rest := by
  induction rest with
  | nil => rfl
  | cons x rest ih =>
    rw [List.map_cons, List.mem_cons, not_or] at h
    rw [List.map_cons, ih h.2, if_neg (fun e => h.1 e.symm)]

/-- With pairwise distinct ids, `ss->file_count++` on the node of index `i`
changes the node with that id and no other. -/
theorem increment_file_count_map (servers : List StorageServerInfo) (i : Nat)
    (hi : i < servers.length) (hnd : (servers.map (fun s => s.id)).Nodup) :
    increment_file_count servers i =
      servers.map (fun s => if s.id = (servers.getD i default).id
        then { s with file_count := s.file_count + 1 } else s) := by
  unfold increment_file_count
  simp only
  induction servers generalizing i with
  | nil => simp at hi
  | cons x rest ih =>
    rw [List.map_cons, List.nodup_cons] at hnd
    cases i with
    | zero =>
      simp only [List.getD_cons_zero, List.set_cons_zero, List.map_cons, if_true]
      rw [map_id_of_ne rest x.id _ hnd.1]
    | succ n =>
      have hn : n < rest.length := by simpa using hi
      simp only [List.getD_cons_succ, List.set_cons_succ, List.map_cons]
      have hx : ¬ x.id = (rest.getD n default).id := by
        intro e
        apply hnd.1
        rw [e]
        exact List.mem_map_of_mem _ (getD_mem rest n hn)
      rw [if_neg hx, ih n hn hnd.2]

/-- With pairwise distinct ids, the loop "Decrease file count" changes the
node with id `ss_id` and no other. -/
theorem decrement_file_count_map (servers : List StorageServerInfo) (ss_id : Int)
    (hnd : (servers.map (fun s => s.id)).Nodup) :
    decrement_file_count servers ss_id =
      servers.map (fun s => if s.id = ss_id
        then { s with file_count := s.file_count - 1 } else s) := by
  induction servers with
  | nil => rfl
  | cons x rest ih =>
    rw [List.map_cons, List.nodup_cons] at hnd
    unfold decrement_file_count
    by_cases hx : x.id = ss_id
    · rw [if_pos hx, List.map_cons, if_pos hx]
      rw [← hx, map_id_of_ne rest x.id _ hnd.1]
    · rw [if_neg hx, List.map_cons, if_neg hx, ih hnd.2]

theorem primary_of_placements (db : Database) (name : String) :
    primary_of db name =
      match (placements db).find? (fun p => p.1 = name) with
      | some p => p.2
      | none => -1 := by
  unfold primary_of select_file placements
  induction db.files with
  | nil => rfl
  | cons r rest ih =>
    rw [List.map_cons]
    by_cases h : r.filename = name
    · rw [List.find?_cons_of_pos _ (by simpa using h), List.find?_cons_of_pos _ (by simpa using h)]
    · rw [List.find?_cons_of_neg _ (by simpa using h), List.find?_cons_of_neg _ (by simpa using h)]
      exact ih

/-- Removing the one pair of a name from a list of pairs with distinct names
lowers by one the number of pairs with that pair's second component, and
leaves the other numbers as they were. -/
theorem count_filter_name (l : List (String × Int)) (hnd : (l.map Prod.fst).Nodup)
    (name : String) (pid id : Int) (hmem : (name, pid) ∈ l) :
    ((l.filter (fun p => p.1 ≠ name)).filter (fun p => p.2 = id)).length
      + (if pid = id then 1 else 0) = (l.filter (fun p => p.2 = id)).length := by
  induction l with
  | nil => cases hmem
  | cons q rest ih =>
    rw [List.map_cons, List.nodup_cons] at hnd
    by_cases hq : q.1 = name
    · have hq2 : q = (name, pid) := by
        rcases List.mem_cons.mp hmem with h | h
        · exact h.symm
        · exfalso
          apply hnd.1
          rw [hq]
          exact List.mem_map_of_mem Prod.fst h
      have hrest : rest.filter (fun p => p.1 ≠ name) = rest := by
        rw [List.filter_eq_self]
        intro p hp
        have : p.1 ≠ name := by
          intro e
          apply hnd.1
          rw [hq, ← e]
          exact List.mem_map_of_mem Prod.fst hp
        simpa using this
      rw [List.filter_cons_of_neg (by simpa using hq), hrest, hq2]
      by_cases hp : pid = id
      · rw [if_pos hp, List.filter_cons_of_pos (by simpa using hp), List.length_cons]
      · rw [if_neg hp, List.filter_cons_of_neg (by simpa using hp)]
        rfl
    · have hmem' : (name, pid) ∈ rest := by
        rcases List.mem_cons.mp hmem with h | h
        · exact absurd (by rw [← h]) hq
        · exact h
      have := ih hnd.2 hmem'
      rw [List.filter_cons_of_pos (by simpa using hq)]
      by_cases hp : q.2 = id
      · rw [List.filter_cons_of_pos (by simpa using hp), List.filter_cons_of_pos (by simpa using hp),
          List.length_cons, List.length_cons]
        omega
      · rw [List.filter_cons_of_neg (by simpa using hp), List.filter_cons_of_neg (by simpa using hp)]
        exact this

theorem find?_placements_some (l : List (String × Int)) (name : String) (p : String × Int)
    (h : l.find? (fun p => p.1 = name) = some p) : (name, p.2) ∈ l := by
  have h1 := List.mem_of_find?_eq_some h
  have h2 : p.1 = name := by simpa using List.find?_some h
  rw [← h2]
  exact h1

theorem find?_placements_none (l : List (String × Int)) (name : String)
    (h : l.find? (fun p => p.1 = name) = none) : l.filter (fun p => p.1 ≠ name) = l := by
  rw [List.filter_eq_self]
  intro p hp
  rw [List.find?_eq_none] at h
  have := h p hp
  simpa using this

/-! ## The invariant behind `file_count` -/

theorem catalog_inv_step (st : NameServerState) (r : Request) (h : catalog_inv st) :
    catalog_inv (apply_request st r) := by
  obtain ⟨hreg, hnd, hprim, hcount⟩ := h
  have hreg' := apply_request_registry_inv st r hreg
  obtain ⟨hids, hrange, _⟩ := hreg
  refine ⟨hreg', ?_⟩
  rcases apply_request_catalog_step st r with ⟨h1, _, _, h4⟩ | ⟨s, hs1, hs2, h1, _, _, h4⟩ |
      ⟨i, hi, _, hfree, h1, _, _, h4⟩ | ⟨_, h1, _, _, h4⟩
  · -- nothing relevant changes
    rw [h1, h4]
    refine ⟨hnd, hprim, ?_⟩
    intro s hs
    rw [primary_count_placements, h4, ← primary_count_placements]
    exact hcount s hs
  · -- a node is registered
    rw [h1, h4]
    refine ⟨hnd, ?_, ?_⟩
    · intro p hp
      rw [List.map_append]
      exact List.mem_append_left _ (hprim p hp)
    · intro s' hs'
      rcases List.mem_append.mp hs' with hs' | hs'
      · exact hcount s' hs'
      · rw [List.mem_singleton] at hs'
        subst hs'
        rw [hs2, primary_count_placements]
        have : (placements st.db).filter (fun p => p.2 = s'.id) = [] := by
          rw [List.filter_eq_nil_iff]
          intro p hp
          have := (hrange p.2 (hprim p hp)).2
          have hne : p.2 ≠ s'.id := by omega
          simpa using hne
        rw [this]
        rfl
  · -- a file or folder is created on the node of index `i`
    rw [h1, h4]
    refine ⟨?_, ?_, ?_⟩
    · rw [List.map_append, List.map_singleton]
      apply List.Nodup.append hnd (List.nodup_singleton _)
      intro x hx hx'
      rw [List.mem_singleton] at hx'
      rw [List.mem_map] at hx
      obtain ⟨p, hp, hpx⟩ := hx
      exact hfree p hp (hpx.trans hx')
    · intro p hp
      rw [increment_file_count_ids]
      rcases List.mem_append.mp hp with hp | hp
      · exact hprim p hp
      · rw [List.mem_singleton] at hp
        rw [hp]
        exact List.mem_map_of_mem _ (getD_mem _ i hi)
    · intro s' hs'
      rw [increment_file_count_map _ i hi hids, List.mem_map] at hs'
      obtain ⟨s, hs, rfl⟩ := hs'
      have hc := hcount s hs
      rw [primary_count_placements] at hc
      by_cases hid : s.id = (st.storage_servers.getD i default).id
      · rw [if_pos hid, primary_count_placements, h4, List.filter_append,
          List.filter_cons_of_pos (by simpa using hid.symm), List.length_append]
        simp only [List.filter_nil, List.length_singleton]
        rw [hc]
        push_cast; rfl
      · rw [if_neg hid, primary_count_placements, h4, List.filter_append,
          List.filter_cons_of_neg (by simpa using fun e : _ = s.id => hid e.symm),
          List.length_append]
        simp only [List.filter_nil, List.length_nil, Nat.add_zero]
        exact hc
  · -- a file is deleted
    rw [h1, h4]
    refine ⟨?_, ?_, ?_⟩
    · exact hnd.sublist ((List.filter_sublist _).map _)
    · intro p hp
      rw [decrement_file_count_ids]
      exact hprim p (List.mem_of_mem_filter hp)
    · intro s' hs'
      rw [decrement_file_count_map _ _ hids, List.mem_map] at hs'
      obtain ⟨s, hs, rfl⟩ := hs'
      have hc := hcount s hs
      rw [primary_count_placements] at hc
      have hs1 : 1 ≤ s.id := (hrange s.id (List.mem_map_of_mem _ hs)).1
      rw [primary_of_placements]
      cases hf : (placements st.db).find? (fun p => p.1 = r.filename) with
      | none =>
        simp only
        have hne : ¬ s.id = -1 := by omega
        rw [if_neg hne, primary_count_placements, h4, find?_placements_none _ _ hf]
        exact hc
      | some p =>
        simp only
        have hmem := find?_placements_some _ _ _ hf
        have hk := count_filter_name (placements st.db) hnd r.filename p.2 s.id hmem
        by_cases hid : s.id = p.2
        · rw [if_pos hid, primary_count_placements, h4]
          simp only
          rw [if_pos hid.symm] at hk
          rw [hc, ← hk]
          push_cast; omega
        · rw [if_neg hid, primary_count_placements, h4]
          rw [if_neg (fun e : p.2 = s.id => hid e.symm)] at hk
          rw [hc, ← hk]
          rfl

theorem catalog_inv_initial : catalog_inv initial_state := by
  refine ⟨?_, List.nodup_nil, ?_, ?_⟩
  · unfold registry_inv
    refine ⟨List.nodup_nil, ?_, by decide⟩
    intro i hi
    cases hi
  · intro p hp; cases hp
  · intro s hs; cases hs

theorem run_requests_append (st : NameServerState) (reqs : List Request) (r : Request) :
    run_requests st (reqs ++ [r]) = apply_request (run_requests st reqs) r := by
  unfold run_requests
  rw [List.foldl_append]
  rfl

/-- The invariant holds in every state reached from the initial state. -/
theorem catalog_inv_reachable (reqs : List Request) :
    catalog_inv (run_requests initial_state reqs) := by
  induction reqs using List.reverseRecOn with
  | nil => exact catalog_inv_initial
  | append_singleton reqs r ih =>
    rw [run_requests_append]
    exact catalog_inv_step _ r ih

/-! ## The index and the table `files` hold the same names -/

theorem index_inv_step (st : NameServerState) (r : Request) (hname : byte_string r.filename)
    (h : index_inv st) : index_inv (apply_request st r) := by
  obtain ⟨hroot, hsame⟩ := h
  rcases apply_request_catalog_step st r with ⟨_, _, h3, h4⟩ | ⟨s, _, _, _, _, h3, h4⟩ |
      ⟨i, _, _, _, _, _, h3, h4⟩ | ⟨_, _, _, h3, h4⟩
  · unfold index_inv
    rw [h3, h4]
    exact ⟨hroot, hsame⟩
  · unfold index_inv
    rw [h3, h4]
    exact ⟨hroot, hsame⟩
  · unfold index_inv
    rw [h3, h4]
    refine ⟨trie_insert_root _ hroot _, ?_⟩
    intro x hx
    rw [trie_search_insert _ hroot, byte_string_bytes _ _ hname hx, List.map_append,
      List.map_singleton, List.mem_append, List.mem_singleton, ← hsame x hx]
    by_cases hxn : x = r.filename
    · simp [hxn]
    · simp [hxn]
  · unfold index_inv
    rw [h3, h4]
    refine ⟨trie_delete_root _ hroot _, ?_⟩
    intro x hx
    rw [trie_search_delete, byte_string_bytes _ _ hname hx]
    have hmem : x ∈ ((placements st.db).filter (fun p => p.1 ≠ r.filename)).map Prod.fst ↔
        x ≠ r.filename ∧ x ∈ (placements st.db).map Prod.fst := by
      simp only [List.mem_map, List.mem_filter]
      constructor
      · rintro ⟨p, ⟨hp, hpn⟩, rfl⟩
        exact ⟨by simpa using hpn, p, hp, rfl⟩
      · rintro ⟨hxn, p, hp, rfl⟩
        exact ⟨p, ⟨hp, by simpa using hxn⟩, rfl⟩
    rw [hmem, ← hsame x hx]
    by_cases hxn : x = r.filename
    · simp [hxn]
    · simp [hxn]

theorem index_inv_reachable (reqs : List Request) (hreqs : ∀ r ∈ reqs, byte_string r.filename) :
    index_inv (run_requests initial_state reqs) := by
  induction reqs using List.reverseRecOn with
  | nil =>
    refine ⟨rfl, ?_⟩
    intro x _
    constructor
    · intro h
      have : trie_search trie_create x = false := search_from_create_node _
      have h' : trie_search trie_create x = true := h
      rw [this] at h'
      cases h'
    · intro h; cases h
  | append_singleton reqs r ih =>
    rw [run_requests_append]
    exact index_inv_step _ r (hreqs r (List.mem_append_right _ (List.mem_singleton_self _)))
      (ih (fun x hx => hreqs x (List.mem_append_left _ hx)))

/-! ## C28: `file_count` and the catalog -/

theorem select_file_of_name (db : Database) (name : String)
    (h : name ∈ (placements db).map Prod.fst) : ∃ row, select_file db name = some row := by
  unfold placements at h
  rw [List.map_map, List.mem_map] at h
  obtain ⟨r, hr, hrn⟩ := h
  unfold select_file
  cases hf : db.files.find? (fun r => r.filename = name) with
  | some row => exact ⟨row, rfl⟩
  | none =>
    rw [List.find?_eq_none] at hf
    have := hf r hr
    simp only [Function.comp] at hrn
    simp [hrn] at this

/-- The primary recorded for a name that has just been added at the end of
the placements. -/
theorem primary_of_new (db db' : Database) (name : String) (id : Int)
    (hfree : ∀ p ∈ placements db, p.1 ≠ name)
    (h : placements db' = placements db ++ [(name, id)]) : primary_of db' name = id := by
  rw [primary_of_placements, h, List.find?_append]
  have : (placements db).find? (fun p => p.1 = name) = none := by
    rw [List.find?_eq_none]
    intro p hp
    simpa using hfree p hp
  rw [this]
  simp

/-- C28.  In every state reached from the initial state (empty catalog, empty
registry) by any requests, among them REGISTER_SS, CREATE, CREATEFOLDER and
DELETE, each registered node's `file_count` is the number of rows of `files`
whose primary is that node, hence it is not negative; a successful CREATE
adds one to the `file_count` of the node recorded as primary of the new file
and changes no other node; and, the names being C strings, a successful
DELETE finds the row of the file, takes one from the `file_count` of its
primary and changes no other node. -/
theorem file_count_matches_catalog (reqs : List Request) :
    (∀ s ∈ (run_requests initial_state reqs).storage_servers,
      s.file_count = (primary_count (run_requests initial_state reqs).db s.id : Int) ∧
      0 ≤ s.file_count) ∧
    (∀ msg now, (handle_create (run_requests initial_state reqs) msg now).2.error_code = 0 →
      (handle_create (run_requests initial_state reqs) msg now).1.storage_servers =
        (run_requests initial_state reqs).storage_servers.map (fun s =>
          if s.id = primary_of (handle_create (run_requests initial_state reqs) msg now).1.db
              msg.filename
          then { s with file_count := s.file_count + 1 } else s)) ∧
    ((∀ r ∈ reqs, byte_string r.filename) → ∀ msg, byte_string msg.filename →
      (handle_delete (run_requests initial_state reqs) msg).2.error_code = 0 →
      (∃ row, select_file (run_requests initial_state reqs).db msg.filename = some row) ∧
      (handle_delete (run_requests initial_state reqs) msg).1.storage_servers =
        (run_requests initial_state reqs).storage_servers.map (fun s =>
          if s.id = primary_of (run_requests initial_state reqs).db msg.filename
          then { s with file_count := s.file_count - 1 } else s)) := by
  obtain ⟨hreg, hnd, hprim, hcount⟩ := catalog_inv_reachable reqs
  refine ⟨?_, ?_, ?_⟩
  · intro s hs
    have := hcount s hs
    exact ⟨this, by rw [this]; exact Int.natCast_nonneg _⟩
  · intro msg now hok
    by_cases h1 : trie_search (run_requests initial_state reqs).file_trie msg.filename = true
    · exact absurd hok (handle_create_refused _ msg now (Or.inl h1)).2
    by_cases h2 : (run_requests initial_state reqs).storage_servers.length = 0
    · exact absurd hok (handle_create_refused _ msg now (Or.inr (Or.inl h2))).2
    by_cases h3 : (run_requests initial_state reqs).db.files.any
        (fun r => r.filename = msg.filename) = true
    · exact absurd hok (handle_create_refused _ msg now (Or.inr (Or.inr h3))).2
    have h1' : trie_search (run_requests initial_state reqs).file_trie msg.filename = false := by
      simpa using h1
    obtain ⟨_, ha, _, _, hd⟩ := handle_create_state _ msg now h1' h2 h3
    rw [primary_of_new _ _ _ _ (not_any_filename _ _ h3) hd, ha]
    exact increment_file_count_map _ _ (select_ss_lt _ h2) hreg.1
  · intro hreqs msg hmsg hok
    obtain ⟨_, hsame⟩ := index_inv_reachable reqs hreqs
    rcases handle_delete_cases (run_requests initial_state reqs) msg with ⟨hne, _⟩ |
        ⟨_, hst, hfile, _⟩
    · exact absurd hok hne
    · refine ⟨select_file_of_name _ _ ((hsame msg.filename hmsg).mp hfile), ?_⟩
      rw [hst]
      exact decrement_file_count_map _ _ hreg.1

theorem file_count_matches_catalog_witness :
    (∀ s ∈ (run_requests initial_state setup_requests).storage_servers,
      s.file_count = (primary_count (run_requests initial_state setup_requests).db s.id : Int) ∧
      0 ≤ s.file_count) ∧
    (∃ row, select_file (run_requests initial_state setup_requests).db "doc.txt" = some row) ∧
    (handle_delete (run_requests initial_state setup_requests) (delete_msg "alice")).1.storage_servers
      = (run_requests initial_state setup_requests).storage_servers.map (fun s =>
          if s.id = primary_of (run_requests initial_state setup_requests).db "doc.txt"
          then { s with file_count := s.file_count - 1 } else s) :=
  have h := file_count_matches_catalog setup_requests
  ⟨h.1, h.2.2 (by decide) (delete_msg "alice") (by decide) (by decide)⟩

/-! ## `trim` and the white space at both ends -/

theorem dropWhile_append_singleton (p : Char → Bool) (l : List Char) (c : Char)
    (hc : p c = false) : (l ++ [c]).dropWhile p = l.dropWhile p ++ [c] := by
  induction l with
  | nil => simp [List.dropWhile, hc]
  | cons x l ih =>
    by_cases hx : p x = true
    · rw [List.cons_append, List.dropWhile_cons_of_pos hx, List.dropWhile_cons_of_pos hx, ih]
    · rw [List.cons_append, List.dropWhile_cons_of_neg hx, List.dropWhile_cons_of_neg hx]
      rfl

theorem dropWhile_head (p : Char → Bool) (l : List Char) (c : Char) (rest : List Char)
    (h : l.dropWhile p = c :: rest) : p c = false := by
  induction l with
  | nil => simp at h
  | cons x l ih =>
    by_cases hx : p x = true
    · rw [List.dropWhile_cons_of_pos hx] at h
      exact ih h
    · rw [List.dropWhile_cons_of_neg hx] at h
      rw [List.cons.injEq] at h
      rw [← h.1]
      simpa using hx

/-- The C function `trim` removes the white space at both ends. -/
theorem trim_eq_spec_trim (s : List Char) : trim s = spec_trim s := by
  unfold trim spec_trim
  cases h : s.dropWhile is_trim_space with
  | nil => rfl
  | cons c rest =>
    simp only
    rw [List.reverse_cons, dropWhile_append_singleton _ _ _ (dropWhile_head _ _ _ _ h),
      List.reverse_append, List.reverse_singleton, List.singleton_append]

theorem trim_length_le (s : List Char) : (trim s).length ≤ s.length := by
  rw [trim_eq_spec_trim]
  unfold spec_trim
  rw [List.length_reverse]
  calc ((s.dropWhile is_trim_space).reverse.dropWhile is_trim_space).length
      ≤ (s.dropWhile is_trim_space).reverse.length :=
        (List.dropWhile_sublist _).length_le
    _ = (s.dropWhile is_trim_space).length := List.length_reverse _
    _ ≤ s.length := (List.dropWhile_sublist _).length_le

/-! ## The pieces of a text -/

theorem spec_pieces_ne_nil (l : List Char) : spec_pieces l ≠ [] := by
  cases l with
  | nil => simp [spec_pieces]
  | cons c rest =>
    unfold spec_pieces
    split
    · simp
    · split <;> simp

theorem spec_pieces_cons_delim (c : Char) (rest : List Char) (hc : is_delimiter c = true) :
    spec_pieces (c :: rest) = [c] :: spec_pieces rest := by
  rw [spec_pieces, if_pos hc]

theorem spec_pieces_cons_plain (c : Char) (rest : List Char) (hc : is_delimiter c = false)
    (p : List Char) (ps : List (List Char)) (h : spec_pieces rest = p :: ps) :
    spec_pieces (c :: rest) = (c :: p) :: ps := by
  rw [spec_pieces, if_neg (by simp [hc]), h]

/-- A run without delimiters in front of a text goes to the first piece. -/
theorem spec_pieces_append (cur rest : List Char) (hcur : ∀ c ∈ cur, is_delimiter c = false)
    (p : List Char) (ps : List (List Char)) (h : spec_pieces rest = p :: ps) :
    spec_pieces (cur ++ rest) = (cur ++ p) :: ps := by
  induction cur with
  | nil => exact h
  | cons c cur ih =>
    rw [List.cons_append, List.cons_append]
    exact spec_pieces_cons_plain c _ (hcur c (List.mem_cons_self _ _)) _ _
      (ih (fun x hx => hcur x (List.mem_cons_of_mem _ hx)))

theorem spec_pieces_plain (cur : List Char) (hcur : ∀ c ∈ cur, is_delimiter c = false) :
    spec_pieces cur = [cur] := by
  have := spec_pieces_append cur [] hcur [] [] rfl
  rwa [List.append_nil] at this

theorem spec_pieces_append_delim (cur : List Char) (c : Char) (rest : List Char)
    (hcur : ∀ x ∈ cur, is_delimiter x = false) (hc : is_delimiter c = true) :
    spec_pieces (cur ++ c :: rest) = (cur ++ [c]) :: spec_pieces rest :=
  spec_pieces_append cur (c :: rest) hcur [c] (spec_pieces rest)
    (spec_pieces_cons_delim c rest hc)

/-- The first piece of `cur ++ c :: rest` is longer than `cur`. -/
theorem spec_pieces_first_length (cur : List Char) (c : Char) (rest : List Char)
    (hcur : ∀ x ∈ cur, is_delimiter x = false) :
    ∃ p ∈ spec_pieces (cur ++ c :: rest), cur.length < p.length := by
  by_cases hc : is_delimiter c = true
  · rw [spec_pieces_append_delim cur c rest hcur hc]
    exact ⟨_, List.mem_cons_self _ _, by simp⟩
  · have hc' : is_delimiter c = false := by simpa using hc
    cases h : spec_pieces rest with
    | nil => exact absurd h (spec_pieces_ne_nil rest)
    | cons p ps =>
      rw [spec_pieces_append cur (c :: rest) hcur (c :: p) ps
        (spec_pieces_cons_plain c rest hc' p ps h)]
      exact ⟨_, List.mem_cons_self _ _, by simp⟩

/-! ## C26: `parse_sentences` implements the sentence-splitting rule -/

theorem filter_nonempty_cons (p : List Char) (ps : List (List Char)) :
    (p :: ps).filter (fun p => !p.isEmpty) =
      if p.isEmpty = true then ps.filter (fun p => !p.isEmpty)
      else p :: ps.filter (fun p => !p.isEmpty) := by
  cases h : p.isEmpty <;> simp [List.filter, h]

theorem strncpy_mk_of_le (l : List Char) (n : Nat) (h : l.length ≤ n) :
    strncpy ⟨l⟩ n = ⟨l⟩ := by
  unfold strncpy
  rw [List.take_of_length_le h]

/-- The loop of `parse_sentences`, started in the middle of a piece: with
`current` free of delimiters, pieces of at most `MAX_SENTENCE - 1` characters
and room for all the sentences, the result is `sentences` followed by the
sentences of `current ++ content`. -/
theorem parse_loop_spec (max_sentences : Nat) (content current : List Char)
    (sentences : List String)
    (hcur : ∀ c ∈ current, is_delimiter c = false)
    (hlen : ∀ p ∈ spec_pieces (current ++ content), p.length < MAX_SENTENCE)
    (hcount : sentences.length +
      (((spec_pieces (current ++ content)).map spec_trim).filter (fun p => !p.isEmpty)).length
        ≤ max_sentences) :
    parse_rest max_sentences (parse_loop max_sentences content current sentences).1
        (parse_loop max_sentences content current sentences).2 =
      sentences ++ (((spec_pieces (current ++ content)).map spec_trim).filter
        (fun p => !p.isEmpty)).map String.mk := by
  induction content generalizing current sentences with
  | nil =>
    rw [List.append_nil] at hlen hcount ⊢
    rw [spec_pieces_plain current hcur] at hlen hcount ⊢
    have hl : current.length < MAX_SENTENCE := hlen current (List.mem_singleton_self _)
    unfold parse_loop parse_rest
    simp only [List.map_cons, List.map_nil] at hcount ⊢
    rw [trim_eq_spec_trim]
    rw [filter_nonempty_cons] at hcount ⊢
    by_cases he : (spec_trim current).isEmpty = true
    · have he' : spec_trim current = [] := List.isEmpty_iff.mp he
      rw [if_pos he]
      simp [he']
    · have hpos : (spec_trim current).length > 0 := by
        cases hs : spec_trim current with
        | nil => rw [hs] at he; simp at he
        | cons a b => simp
      have hcp : current.length > 0 := by
        have := trim_length_le current
        rw [trim_eq_spec_trim] at this
        omega
      rw [if_neg he] at hcount ⊢
      simp only [List.filter_nil, List.length_singleton] at hcount
      have hlt : sentences.length < max_sentences := by omega
      rw [if_pos hcp, if_pos ⟨hpos, hlt⟩, strncpy_mk_of_le]
      · rfl
      · have := trim_length_le current
        rw [trim_eq_spec_trim] at this
        unfold MAX_SENTENCE at hl ⊢
        omega
  | cons c rest ih =>
    by_cases hlt : sentences.length < max_sentences
    · obtain ⟨p, hp, hpl⟩ := spec_pieces_first_length current c rest hcur
      have hroom : current.length < MAX_SENTENCE - 1 := by
        have := hlen p hp
        unfold MAX_SENTENCE at this ⊢
        omega
      rw [parse_loop, if_pos hlt]
      simp only [if_pos hroom]
      by_cases hc : is_delimiter c = true
      · rw [spec_pieces_append_delim current c rest hcur hc] at hlen hcount ⊢
        simp only [if_pos hc]
        rw [trim_eq_spec_trim]
        have hfit : (spec_trim (current ++ [c])).length ≤ MAX_SENTENCE - 1 := by
          have h1 := trim_length_le (current ++ [c])
          rw [trim_eq_spec_trim] at h1
          have h2 := hlen (current ++ [c]) (List.mem_cons_self _ _)
          unfold MAX_SENTENCE at h2 ⊢
          omega
        rw [List.map_cons, filter_nonempty_cons] at hcount ⊢
        by_cases he : (spec_trim (current ++ [c])).isEmpty = true
        · have he' : spec_trim (current ++ [c]) = [] := List.isEmpty_iff.mp he
          rw [if_pos he] at hcount ⊢
          have hnp : ¬ (spec_trim (current ++ [c])).length > 0 := by simp [he']
          rw [if_neg hnp]
          exact ih [] sentences (fun _ h => by cases h)
            (fun q hq => hlen q (List.mem_cons_of_mem _ hq)) hcount
        · have hpos : (spec_trim (current ++ [c])).length > 0 := by
            cases hs : spec_trim (current ++ [c]) with
            | nil => rw [hs] at he; simp at he
            | cons a b => simp
          rw [if_neg he] at hcount ⊢
          rw [if_pos hpos, strncpy_mk_of_le _ _ hfit]
          rw [List.length_cons] at hcount
          have := ih [] (sentences ++ [⟨spec_trim (current ++ [c])⟩]) (fun _ h => by cases h)
            (fun q hq => hlen q (List.mem_cons_of_mem _ hq))
            (by rw [List.nil_append, List.length_append, List.length_singleton]; omega)
          rw [this, List.map_cons, List.append_assoc]
          rfl
      · have hc' : is_delimiter c = false := by simpa using hc
        simp only [if_neg hc]
        have hassoc : current ++ [c] ++ rest = current ++ c :: rest := by simp
        have := ih (current ++ [c]) sentences
          (by
            intro x hx
            rcases List.mem_append.mp hx with h | h
            · exact hcur x h
            · rw [List.mem_singleton] at h; rw [h]; exact hc')
          (by rw [hassoc]; exact hlen) (by rw [hassoc]; exact hcount)
        rw [this, hassoc]
    · have hzero : (((spec_pieces (current ++ c :: rest)).map spec_trim).filter
          (fun p => !p.isEmpty)) = [] := by
        apply List.eq_nil_of_length_eq_zero
        omega
      rw [parse_loop, if_neg hlt, hzero]
      unfold parse_rest
      simp only [List.map_nil, List.append_nil]
      split
      · rw [if_neg (fun h => hlt h.2)]
      · rfl

/-- The result of `parse_sentences` within its limits is the list of
sentences of the specification. -/
theorem parse_sentences_eq (content : String) (max_sentences : Nat)
    (hlen : ∀ p ∈ spec_pieces content.data, p.length < MAX_SENTENCE)
    (hcount : (spec_sentences content).length ≤ max_sentences) :
    parse_sentences content max_sentences = spec_sentences content := by
  unfold spec_sentences at hcount ⊢
  rw [List.length_map] at hcount
  unfold parse_sentences
  simp only
  rw [parse_loop_spec max_sentences content.data [] [] (fun _ h => by cases h)
    (by rw [List.nil_append]; exact hlen)
    (by rw [List.nil_append, List.length_nil, Nat.zero_add]; exact hcount)]
  rw [List.nil_append, List.nil_append]

/-- C26.  For a content whose pieces (the text cut after every `.`, `!` or
`?`) are each shorter than `MAX_SENTENCE` and whose sentences number at most
`max_sentences`, `parse_sentences` returns, in order, exactly the pieces
trimmed of leading and trailing white space (blank, tab, newline, carriage
return), without the pieces that are empty after trimming. -/
theorem parse_sentences_spec (content : String) (max_sentences : Nat)
    (hlen : ∀ p ∈ spec_pieces content.data, p.length < MAX_SENTENCE)
    (hcount : (spec_sentences content).length ≤ max_sentences) :
    parse_sentences content max_sentences = spec_sentences content :=
  parse_sentences_eq content max_sentences hlen hcount

theorem parse_sentences_spec_witness :
    parse_sentences "Hello world.  How are you? e.g. this!   tail " 1000 =
      spec_sentences "Hello world.  How are you? e.g. this!   tail " :=
  parse_sentences_spec "Hello world.  How are you? e.g. this!   tail " 1000
    (by decide) (by decide)

/-! ## Re-parsing the rebuilt content -/

theorem is_delimiter_not_space (d : Char) (h : is_delimiter d = true) :
    is_trim_space d = false := by
  unfold is_delimiter at h
  unfold is_trim_space
  simp only [Bool.or_eq_true, decide_eq_true_eq] at h
  rcases h with (h | h) | h <;> subst h <;> decide

theorem spec_trim_nil : spec_trim [] = [] := rfl

theorem spec_trim_blank (p : List Char) : spec_trim (' ' :: p) = spec_trim p := by
  unfold spec_trim
  rw [List.dropWhile_cons_of_pos (by decide)]

/-- Trimming a text that ends with a delimiter removes the leading white
space only. -/
theorem spec_trim_delimited (body : List Char) (d : Char) (hd : is_delimiter d = true) :
    spec_trim (body ++ [d]) = body.dropWhile is_trim_space ++ [d] := by
  have hs := is_delimiter_not_space d hd
  unfold spec_trim
  rw [dropWhile_append_singleton _ _ _ hs, List.reverse_append, List.reverse_singleton,
    List.singleton_append, List.dropWhile_cons_of_neg (by simp [hs]), List.reverse_cons,
    List.reverse_reverse]

theorem spec_trim_idem (p : List Char) : spec_trim (spec_trim p) = spec_trim p := by
  unfold spec_trim
  generalize hq : p.dropWhile is_trim_space = q
  have hq1 : ∀ c rest, q = c :: rest → is_trim_space c = false := by
    intro c rest h
    exact dropWhile_head _ _ _ _ (hq.trans h)
  generalize hr : q.reverse.dropWhile is_trim_space = r
  -- `r.reverse` starts with a character that is no white space, unless it is empty
  have hr1 : ∀ c rest, r = c :: rest → is_trim_space c = false := by
    intro c rest h
    exact dropWhile_head _ _ _ _ (hr.trans h)
  have hsub : r.reverse.dropWhile is_trim_space = r.reverse := by
    cases hrr : r.reverse with
    | nil => rfl
    | cons c rest =>
      apply List.dropWhile_cons_of_neg
      -- `c` is the first character of `q`
      have hsuffix : r <:+ q.reverse := by
        rw [← hr]; exact List.dropWhile_suffix _
      obtain ⟨pre, hpre⟩ := hsuffix
      have hq2 : q = r.reverse ++ pre.reverse := by
        have := congrArg List.reverse hpre
        rw [List.reverse_append, List.reverse_reverse] at this
        exact this.symm
      rw [hrr, List.cons_append] at hq2
      have := hq1 c _ hq2
      simp [this]
  rw [hsub, List.reverse_reverse]
  cases r with
  | nil => rfl
  | cons c rest =>
    rw [List.dropWhile_cons_of_neg (by simp [hr1 c rest rfl])]

theorem plain_sublist (t u : List Char) (h : t.Sublist u) (hu : plain u) : plain t :=
  fun c hc => hu c (h.subset hc)

theorem spec_trim_sublist (p : List Char) : (spec_trim p).Sublist p := by
  unfold spec_trim
  have h1 : ((p.dropWhile is_trim_space).reverse.dropWhile is_trim_space).Sublist
      (p.dropWhile is_trim_space).reverse := List.dropWhile_sublist _
  have h2 := h1.reverse
  rw [List.reverse_reverse] at h2
  exact h2.trans (List.dropWhile_sublist _)

theorem spec_trim_length_le (p : List Char) : (spec_trim p).length ≤ p.length :=
  (spec_trim_sublist p).length_le

theorem sentences_of_cons (p : List Char) (ps : List (List Char)) :
    sentences_of (p :: ps) =
      if (spec_trim p).isEmpty = true then sentences_of ps else spec_trim p :: sentences_of ps := by
  unfold sentences_of
  rw [List.map_cons, filter_nonempty_cons]

theorem sentences_of_blank (p : List Char) (ps : List (List Char)) :
    sentences_of ((' ' :: p) :: ps) = sentences_of (p :: ps) := by
  rw [sentences_of_cons, sentences_of_cons, spec_trim_blank]

theorem join_chars_cons_cons (t u : List Char) (ts : List (List Char)) :
    join_chars (t :: u :: ts) = t ++ ' ' :: join_chars (u :: ts) := by
  simp [join_chars, List.flatMap]

/-- The pieces of a text have the shape `good_pieces`. -/
theorem good_spec_pieces (l : List Char) : good_pieces (spec_pieces l) := by
  induction l with
  | nil => intro c hc; cases hc
  | cons c rest ih =>
    cases h : spec_pieces rest with
    | nil => exact absurd h (spec_pieces_ne_nil rest)
    | cons p ps =>
      rw [h] at ih
      by_cases hc : is_delimiter c = true
      · rw [spec_pieces_cons_delim c rest hc, h]
        exact ⟨⟨[], c, rfl, (fun _ hx => by cases hx), hc⟩, ih⟩
      · have hc' : is_delimiter c = false := by simpa using hc
        rw [spec_pieces_cons_plain c rest hc' p ps h]
        cases ps with
        | nil =>
          intro x hx
          rcases List.mem_cons.mp hx with hx | hx
          · rw [hx]; exact hc'
          · exact ih x hx
        | cons q qs =>
          obtain ⟨⟨body, d, hp, hb, hd⟩, hrest⟩ := ih
          refine ⟨⟨c :: body, d, by rw [hp]; rfl, ?_, hd⟩, hrest⟩
          intro x hx
          rcases List.mem_cons.mp hx with hx | hx
          · rw [hx]; exact hc'
          · exact hb x hx

/-- The sentences of well-shaped pieces, rebuilt with single blanks and cut
again, are the same sentences; the first new piece is no longer than the
longest sentence and the other new pieces are longer by one at most. -/
theorem reparse_pieces (bound : Nat) (ps : List (List Char)) (hgood : good_pieces ps)
    (hb : ∀ t ∈ sentences_of ps, t.length ≤ bound) :
    sentences_of (spec_pieces (join_chars (sentences_of ps))) = sentences_of ps ∧
    ∃ p0 rest0, spec_pieces (join_chars (sentences_of ps)) = p0 :: rest0 ∧
      p0.length ≤ bound ∧ ∀ q ∈ rest0, q.length ≤ 1 + bound := by
  induction ps with
  | nil => cases hgood
  | cons p ps ih =>
    cases ps with
    | nil =>
      -- the last piece, without delimiter
      have hplain : plain (spec_trim p) := plain_sublist _ _ (spec_trim_sublist p) hgood
      rw [sentences_of_cons] at hb ⊢
      by_cases he : (spec_trim p).isEmpty = true
      · rw [if_pos he]
        refine ⟨rfl, [], [], rfl, Nat.zero_le _, fun _ h => by cases h⟩
      · rw [if_neg he] at hb ⊢
        have h1 : spec_pieces (join_chars (spec_trim p :: sentences_of [])) = [spec_trim p] := by
          show spec_pieces (spec_trim p ++ []) = _
          rw [List.append_nil]
          exact spec_pieces_plain _ hplain
        rw [h1]
        refine ⟨?_, spec_trim p, [], rfl, hb _ (List.mem_cons_self _ _), fun _ h => by cases h⟩
        rw [sentences_of_cons, spec_trim_idem, if_neg he]
    | cons q qs =>
      obtain ⟨⟨body, d, hp, hbody, hd⟩, hrest⟩ := hgood
      have ht : spec_trim p = body.dropWhile is_trim_space ++ [d] := by
        rw [hp]; exact spec_trim_delimited body d hd
      have hne : ¬ (spec_trim p).isEmpty = true := by rw [ht]; simp
      have hbody' : plain (body.dropWhile is_trim_space) :=
        plain_sublist _ _ (List.dropWhile_sublist _) hbody
      rw [sentences_of_cons, if_neg hne] at hb ⊢
      obtain ⟨ih1, p0, rest0, ih2, ih3, ih4⟩ :=
        ih hrest (fun t h => hb t (List.mem_cons_of_mem _ h))
      have hidem : sentences_of [spec_trim p] = [spec_trim p] := by
        rw [sentences_of_cons, spec_trim_idem, if_neg hne]; rfl
      cases hS : sentences_of (q :: qs) with
      | nil =>
        have h1 : spec_pieces (join_chars [spec_trim p]) = [spec_trim p, []] := by
          show spec_pieces (spec_trim p ++ []) = _
          rw [List.append_nil, ht]
          exact spec_pieces_append_delim _ d [] hbody' hd
        rw [h1]
        refine ⟨?_, spec_trim p, [[]], rfl, hb _ (List.mem_cons_self _ _), ?_⟩
        · rw [sentences_of_cons, spec_trim_idem, if_neg hne, sentences_of_cons]
          rfl
        · intro x hx
          rw [List.mem_singleton] at hx
          rw [hx]; exact Nat.zero_le _
      | cons u us =>
        rw [hS] at ih1 ih2
        have h1 : spec_pieces (join_chars (spec_trim p :: u :: us)) =
            spec_trim p :: (' ' :: p0) :: rest0 := by
          rw [join_chars_cons_cons, ht, List.append_assoc, List.singleton_append,
            spec_pieces_append_delim _ d _ hbody' hd,
            spec_pieces_cons_plain ' ' _ (by decide) p0 rest0 ih2]
        rw [h1]
        refine ⟨?_, spec_trim p, (' ' :: p0) :: rest0, rfl, hb _ (List.mem_cons_self _ _), ?_⟩
        · rw [sentences_of_cons, spec_trim_idem, if_neg hne, sentences_of_blank, ← ih2, ih1]
        · intro x hx
          rcases List.mem_cons.mp hx with hx | hx
          · rw [hx, List.length_cons]; omega
          · exact ih4 x hx

theorem rebuild_from_data (acc : String) (i : Nat) (hi : 0 < i) (ts : List (List Char)) :
    (rebuild_from acc i (ts.map String.mk)).data =
      acc.data ++ ts.flatMap (fun s => ' ' :: s) := by
  induction ts generalizing acc i with
  | nil => simp [rebuild_from]
  | cons t ts ih =>
    rw [List.map_cons, rebuild_from, if_pos hi, ih _ (i + 1) (Nat.succ_pos _)]
    simp [String.data_append, List.flatMap]

theorem rebuild_content_data (ts : List (List Char)) :
    (rebuild_content (ts.map String.mk)).data = join_chars ts := by
  cases ts with
  | nil => rfl
  | cons t ts =>
    unfold rebuild_content
    rw [List.map_cons, rebuild_from, if_neg (by decide), rebuild_from_data _ 1 (by decide)]
    simp [String.data_append, join_chars]

/-! ## C29: re-parsing the content rebuilt by the write path -/

/-- A run of characters without delimiter that fits the buffer `current` is
copied into it and stores no sentence. -/
theorem parse_loop_plain (max_sentences : Nat) (run rest current : List Char)
    (sentences : List String) (hrun : ∀ c ∈ run, is_delimiter c = false)
    (hroom : current.length + run.length ≤ MAX_SENTENCE - 1)
    (hcount : sentences.length < max_sentences) :
    parse_loop max_sentences (run ++ rest) current sentences =
      parse_loop max_sentences rest (current ++ run) sentences := by
  induction run generalizing current with
  | nil => rw [List.nil_append, List.append_nil]
  | cons c run ih =>
    rw [List.length_cons] at hroom
    have hlt : current.length < MAX_SENTENCE - 1 := by omega
    have hc : ¬ is_delimiter c = true := by simp [hrun c (List.mem_cons_self _ _)]
    rw [List.cons_append, parse_loop, if_pos hcount]
    simp only [if_pos hlt, if_neg hc]
    rw [ih (current ++ [c]) (fun x hx => hrun x (List.mem_cons_of_mem _ hx))
        (by rw [List.length_append, List.length_singleton]; omega),
      List.append_assoc, List.singleton_append]

/-- A delimiter met with a full buffer is not stored: the sentence is the
trimmed buffer. -/
theorem parse_loop_full (max_sentences : Nat) (d : Char) (rest current : List Char)
    (sentences : List String) (hd : is_delimiter d = true)
    (hfull : current.length = MAX_SENTENCE - 1) (hne : (trim current).length > 0)
    (hcount : sentences.length < max_sentences) :
    parse_loop max_sentences (d :: rest) current sentences =
      parse_loop max_sentences rest []
        (sentences ++ [strncpy ⟨trim current⟩ (MAX_SENTENCE - 1)]) := by
  have hlt : ¬ current.length < MAX_SENTENCE - 1 := by omega
  rw [parse_loop, if_pos hcount]
  simp only [if_neg hlt, if_pos hd, if_pos hne]

/-- The pieces of `a.` followed by a text `body` without delimiter and a full
stop. -/
theorem two_sentence_pieces (body : List Char) (hbody : ∀ c ∈ body, is_delimiter c = false) :
    spec_pieces ('a' :: '.' :: body ++ ['.']) = [['a', '.'], body ++ ['.'], []] := by
  have h2 := spec_pieces_append_delim body '.' [] hbody (by decide)
  have h1 := spec_pieces_append_delim ['a'] '.' (body ++ ['.']) (by decide) (by decide)
  rw [h2] at h1
  exact h1

/-- The first parse of `a.` followed by 1022 characters that are neither
delimiter nor white space and a full stop: two sentences, the second of 1023
characters. -/
theorem two_sentence_parse (body : List Char) (hbody : ∀ c ∈ body, is_delimiter c = false)
    (htrim : spec_trim body = body) (hlen : body.length = MAX_SENTENCE - 2) :
    parse_sentences ⟨'a' :: '.' :: body ++ ['.']⟩ MAX_SENTENCES = ["a.", ⟨body ++ ['.']⟩] := by
  have hdrop : body.dropWhile is_trim_space = body := by
    cases body with
    | nil => rfl
    | cons c body =>
      by_cases hc : is_trim_space c = true
      · have h := congrArg List.length htrim
        have hle := spec_trim_length_le body
        rw [show spec_trim (c :: body) = spec_trim body by
          unfold spec_trim
          rw [List.dropWhile_cons_of_pos hc]] at h
        rw [List.length_cons] at h
        omega
      · rw [List.dropWhile_cons_of_neg hc]
  have hne : ¬ (body ++ ['.']).isEmpty = true := by
    cases body <;> simp
  have hs : spec_sentences ⟨'a' :: '.' :: body ++ ['.']⟩ = ["a.", ⟨body ++ ['.']⟩] := by
    unfold spec_sentences
    rw [two_sentence_pieces body hbody, List.map_cons, List.map_cons, List.map_singleton,
      spec_trim_delimited body '.' (by decide), spec_trim_nil, hdrop,
      show spec_trim ['a', '.'] = ['a', '.'] by decide,
      filter_nonempty_cons, if_neg (by decide), filter_nonempty_cons, if_neg hne,
      filter_nonempty_cons, if_pos (by decide)]
    rfl
  rw [parse_sentences_eq _ MAX_SENTENCES
    (by
      rw [two_sentence_pieces body hbody]
      intro p hp
      unfold MAX_SENTENCE at hlen ⊢
      simp only [List.mem_cons, List.mem_singleton, List.not_mem_nil, or_false] at hp
      rcases hp with hp | hp | hp <;> subst hp
      · decide
      · rw [List.length_append, List.length_singleton, hlen]; decide
      · decide)
    (by rw [hs]; show 2 ≤ MAX_SENTENCES; decide), hs]

/-- The content rebuilt from the two sentences: a blank between them. -/
theorem two_sentence_rebuilt (body : List Char) :
    (rebuild_content ["a.", ⟨body ++ ['.']⟩]).data =
      ['a'] ++ ('.' :: ((' ' :: body) ++ '.' :: [])) := by
  have h := rebuild_content_data [['a', '.'], body ++ ['.']]
  rw [List.map_cons, List.map_singleton] at h
  rw [show ("a." : String) = String.mk ['a', '.'] from rfl, h]
  simp [join_chars]

/-- The second parse: the blank and the 1022 characters fill the buffer
`current`, the full stop is not stored. -/
theorem two_sentence_reparse (body : List Char) (hbody : ∀ c ∈ body, is_delimiter c = false)
    (htrim : spec_trim body = body) (hlen : body.length = MAX_SENTENCE - 2) :
    parse_sentences (rebuild_content ["a.", ⟨body ++ ['.']⟩]) MAX_SENTENCES =
      ["a.", ⟨body⟩] := by
  have hspace : ∀ c ∈ ' ' :: body, is_delimiter c = false := by
    intro c hc
    rcases List.mem_cons.1 hc with hc | hc
    · subst hc; decide
    · exact hbody c hc
  have htr : trim (' ' :: body) = body := by
    rw [trim_eq_spec_trim, spec_trim_blank, htrim]
  have hfull : (' ' :: body).length = MAX_SENTENCE - 1 := by
    rw [List.length_cons, hlen]; rfl
  have hloop : parse_loop MAX_SENTENCES
      (['a'] ++ ('.' :: ((' ' :: body) ++ '.' :: []))) [] [] = ([], ["a.", ⟨body⟩]) := by
    rw [parse_loop_plain MAX_SENTENCES ['a'] _ [] [] (by decide) (by decide) (by decide),
      parse_loop, if_pos (by decide)]
    simp only [List.nil_append, List.length_singleton]
    rw [if_pos (by decide), if_pos (by decide), if_pos (by decide),
      parse_loop_plain MAX_SENTENCES (' ' :: body) ['.'] [] _ hspace
        (by rw [List.length_nil, Nat.zero_add, hfull]) (by decide),
      List.nil_append,
      parse_loop_full MAX_SENTENCES '.' [] _ _ (by decide) hfull
        (by rw [htr, hlen]; decide) (by decide),
      htr, show trim (['a'] ++ ['.']) = ['a', '.'] by decide,
      strncpy_mk_of_le ['a', '.'] _ (by decide),
      strncpy_mk_of_le body _ (by rw [hlen]; decide), parse_loop]
    rfl
  unfold parse_sentences
  simp only
  rw [two_sentence_rebuilt, hloop]
  rfl

theorem two_sentence_rebuilt_length (body : List Char) :
    (rebuild_content ["a.", ⟨body ++ ['.']⟩]).length = body.length + 4 := by
  show (rebuild_content ["a.", ⟨body ++ ['.']⟩]).data.length = body.length + 4
  rw [two_sentence_rebuilt]
  simp

theorem two_sentence_ne (body : List Char) :
    ["a.", (⟨body⟩ : String)] ≠ ["a.", ⟨body ++ ['.']⟩] := by
  intro h
  have h3 := congrArg (fun l => l.map String.length) h
  simp only [List.map_cons, List.map_nil] at h3
  injection h3 with _ h3
  injection h3 with h3 _
  have h4 : body.length = (body ++ ['.']).length := h3
  rw [List.length_append, List.length_singleton] at h4
  omega

theorem spec_trim_replicate_b (n : Nat) :
    spec_trim (List.replicate n 'b') = List.replicate n 'b' := by
  have h : ∀ m, (List.replicate m 'b').dropWhile is_trim_space = List.replicate m 'b' := by
    intro m
    cases m with
    | zero => rfl
    | succ m => rw [List.replicate_succ, List.dropWhile_cons_of_neg (by decide)]
  unfold spec_trim
  rw [h, List.reverse_replicate, h, List.reverse_replicate]

theorem replicate_b_plain (n : Nat) : ∀ c ∈ List.replicate n 'b', is_delimiter c = false := by
  intro c hc
  rw [List.eq_of_mem_replicate hc]
  decide

/-- C29, the counterexample.  The content `a.` followed by 1022 letters `b`
and a full stop is within the limits: its pieces have 2 and 1023 characters.
`parse_sentences` returns the two sentences; rebuilt with a blank between
them, the second piece has 1024 characters, so the second parse fills the
buffer `current` before it reaches the full stop and returns the second
sentence without its delimiter. -/
theorem reparse_stable_counterexample :
    (∀ p ∈ spec_pieces long_sentence_content.data, p.length < MAX_SENTENCE) ∧
    long_sentence_content.length < BUFFER_SIZE ∧
    parse_sentences long_sentence_content MAX_SENTENCES =
      ["a.", ⟨List.replicate 1022 'b' ++ ['.']⟩] ∧
    (rebuild_content (parse_sentences long_sentence_content MAX_SENTENCES)).length
      < BUFFER_SIZE ∧
    parse_sentences (rebuild_content (parse_sentences long_sentence_content MAX_SENTENCES))
      MAX_SENTENCES = ["a.", ⟨List.replicate 1022 'b'⟩] ∧
    parse_sentences (rebuild_content (parse_sentences long_sentence_content MAX_SENTENCES))
      MAX_SENTENCES ≠ parse_sentences long_sentence_content MAX_SENTENCES := by
  have hb := replicate_b_plain 1022
  have ht := spec_trim_replicate_b 1022
  have hl : (List.replicate 1022 'b').length = MAX_SENTENCE - 2 := List.length_replicate 1022 'b'
  have h1 : parse_sentences long_sentence_content MAX_SENTENCES =
      ["a.", ⟨List.replicate 1022 'b' ++ ['.']⟩] := two_sentence_parse _ hb ht hl
  have h2 := two_sentence_reparse _ hb ht hl
  have hp : spec_pieces long_sentence_content.data = _ := two_sentence_pieces _ hb
  refine ⟨?_, ?_, h1, ?_, ?_, ?_⟩
  · rw [hp]
    intro p hp
    unfold MAX_SENTENCE at hl ⊢
    simp only [List.mem_cons, List.mem_singleton, List.not_mem_nil, or_false] at hp
    rcases hp with hp | hp | hp <;> subst hp
    · decide
    · rw [List.length_append, List.length_singleton, hl]; decide
    · decide
  · show (('a' :: '.' :: List.replicate 1022 'b') ++ ['.']).length < BUFFER_SIZE
    rw [List.length_append, List.length_cons, List.length_cons, hl]
    decide
  · rw [h1, two_sentence_rebuilt_length, hl]
    decide
  · rw [h1]; exact h2
  · rw [h1, h2]
    exact two_sentence_ne _

/-- C29, amended.  For a content within the limits of `parse_sentences`
(pieces shorter than `MAX_SENTENCE`, at most `max_sentences` sentences) whose
sentences are shorter than `MAX_SENTENCE - 1`, so that each still fits the
buffer with the blank put before it, and whose rebuilt text fits the content
buffer: joining the sentences with single blanks and parsing the result
returns the same list of sentences. -/
theorem reparse_stable (content : String) (max_sentences : Nat)
    (hlen : ∀ p ∈ spec_pieces content.data, p.length < MAX_SENTENCE)
    (hcount : (spec_sentences content).length ≤ max_sentences)
    (hroom : ∀ s ∈ parse_sentences content max_sentences, s.length < MAX_SENTENCE - 1)
    (_hfit : (rebuild_content (parse_sentences content max_sentences)).length < BUFFER_SIZE) :
    parse_sentences (rebuild_content (parse_sentences content max_sentences)) max_sentences
      = parse_sentences content max_sentences := by
  rw [parse_sentences_eq content max_sentences hlen hcount] at hroom ⊢
  have hspec : spec_sentences content =
      (sentences_of (spec_pieces content.data)).map String.mk := rfl
  have hb : ∀ t ∈ sentences_of (spec_pieces content.data), t.length ≤ 1022 := by
    intro t ht
    have := hroom ⟨t⟩ (by rw [hspec]; exact List.mem_map_of_mem _ ht)
    unfold MAX_SENTENCE at this
    have hl : (String.mk t).length = t.length := rfl
    omega
  obtain ⟨h1, p0, rest0, h2, h3, h4⟩ :=
    reparse_pieces 1022 _ (good_spec_pieces content.data) hb
  have hdata : (rebuild_content (spec_sentences content)).data =
      join_chars (sentences_of (spec_pieces content.data)) := by
    rw [hspec]; exact rebuild_content_data _
  have hspec' : spec_sentences (rebuild_content (spec_sentences content)) =
      spec_sentences content := by
    show (sentences_of (spec_pieces (rebuild_content (spec_sentences content)).data)).map
      String.mk = _
    rw [hdata, h1]
    rfl
  rw [parse_sentences_eq _ max_sentences ?_ ?_, hspec']
  · intro p hp
    rw [hdata, h2] at hp
    unfold MAX_SENTENCE
    rcases List.mem_cons.mp hp with hp | hp
    · rw [hp]; omega
    · have := h4 p hp; omega
  · rw [hspec']; exact hcount

theorem reparse_stable_witness :
    parse_sentences (rebuild_content
        (parse_sentences "Hello world.  How are you? e.g. this!   tail " 1000)) 1000
      = parse_sentences "Hello world.  How are you? e.g. this!   tail " 1000 :=
  reparse_stable "Hello world.  How are you? e.g. this!   tail " 1000
    (by decide) (by decide) (by decide) (by decide)

/-! ## The listing loop of `handle_view` -/

theorem view_loop_append (line_of : ViewRow → String) (l1 l2 : List ViewRow)
    (result : String) (count : Nat) (result1 : String) (count1 : Nat)
    (h : view_loop line_of result count l1 = (result1, count1)) :
    view_loop line_of result count (l1 ++ l2) = view_loop line_of result1 count1 l2 := by
  induction l1 generalizing result count with
  | nil =>
    rw [view_loop] at h
    rw [Prod.mk.injEq] at h
    rw [List.nil_append, h.1, h.2]
  | cons r rest ih =>
    rw [view_loop] at h
    rw [List.cons_append, view_loop]
    split
    · rename_i hc
      rw [if_pos hc] at h
      exact ih _ _ h
    · rename_i hc
      rw [if_neg hc] at h
      exact ih _ _ h

theorem view_text_length (line_of : ViewRow → String) (rows : List ViewRow) :
    (view_text line_of rows).length = line_total line_of rows := by
  induction rows with
  | nil => rfl
  | cons r rest ih =>
    unfold view_text line_total
    rw [String.length_append, ih, List.map_cons, List.sum_cons]
    rfl

theorem line_total_cons (line_of : ViewRow → String) (r : ViewRow) (rows : List ViewRow) :
    line_total line_of (r :: rows) = (line_of r).length + line_total line_of rows := by
  unfold line_total
  rw [List.map_cons, List.sum_cons]

/-- While the lines fit the buffer, the loop appends every one of them. -/
theorem view_loop_fits (line_of : ViewRow → String) (rows : List ViewRow) (result : String)
    (count : Nat) (hfit : result.length + line_total line_of rows < BUFFER_SIZE - 1) :
    view_loop line_of result count rows =
      (result ++ view_text line_of rows, count + rows.length) := by
  induction rows generalizing result count with
  | nil =>
    unfold view_loop view_text
    rw [String.append_empty]
    rfl
  | cons r rest ih =>
    rw [line_total_cons] at hfit
    rw [view_loop, if_pos (by omega), ih _ _ (by rw [String.length_append]; omega)]
    rw [show view_text line_of (r :: rest) = line_of r ++ view_text line_of rest from rfl,
      String.append_assoc, List.length_cons, Nat.add_assoc, Nat.add_comm 1]

theorem line_total_perm (line_of : ViewRow → String) (l1 l2 : List ViewRow)
    (h : l1.Perm l2) : line_total line_of l1 = line_total line_of l2 := by
  unfold line_total
  exact (h.map _).sum_eq

theorem sum_sublist_le (l1 l2 : List Nat) (h : l1.Sublist l2) : l1.sum ≤ l2.sum :=
  h.sum_le_sum (fun _ _ => Nat.zero_le _)

/-- The lines of distinct rows taken from `l2` are no longer than the lines
of `l2`. -/
theorem line_total_subset (line_of : ViewRow → String) (l1 l2 : List ViewRow)
    (hnd : l1.Nodup) (hsub : l1 ⊆ l2) : line_total line_of l1 ≤ line_total line_of l2 := by
  obtain ⟨l, hperm, hl⟩ := List.subperm_of_subset hnd hsub
  rw [← line_total_perm line_of l l1 hperm]
  unfold line_total
  exact sum_sublist_le _ _ (hl.map _)

theorem insert_by_filename_perm (r : ViewRow) (l : List ViewRow) :
    (insert_by_filename r l).Perm (r :: l) := by
  induction l with
  | nil => exact List.Perm.refl _
  | cons x rest ih =>
    unfold insert_by_filename
    split
    · exact List.Perm.refl _
    · exact ((List.perm_cons x).mpr ih).trans (List.Perm.swap r x rest)

theorem order_by_filename_perm (l : List ViewRow) : (order_by_filename l).Perm l := by
  induction l with
  | nil => exact List.Perm.refl _
  | cons r rest ih =>
    unfold order_by_filename
    exact (insert_by_filename_perm r _).trans ((List.perm_cons r).mpr ih)

/-- The rows of a listing are distinct rows of files, so their lines are no
longer than the lines of all files. -/
theorem view_query_total (db : Database) (user : String) (show_all : Bool)
    (line_of : ViewRow → String) :
    line_total line_of (view_query db user show_all) ≤
      line_total line_of (db.files.map view_row) := by
  unfold view_query
  simp only
  rw [line_total_perm _ _ _ (order_by_filename_perm _)]
  cases show_all with
  | true => exact le_refl _
  | false =>
    simp only [Bool.false_eq_true, if_false]
    apply line_total_subset _ _ _ (List.nodup_dedup _)
    intro v hv
    have hv' : v ∈ view_query db user false := by
      unfold view_query
      simp only [Bool.false_eq_true, if_false]
      rw [mem_order_by_filename]
      exact hv
    obtain ⟨x, hx, hxv⟩ := view_query_file db user false v hv'
    rw [← hxv]
    exact List.mem_map_of_mem _ hx

/-- The answer of `handle_view` when the lines of all files fit the buffer:
the lines of all the rows of the query, or `No files found`. -/
theorem handle_view_fits (st : NameServerState) (msg : Message) (local_time : Int → String)
    (hfit : line_total (view_line (strstr msg.data "-l") local_time)
      (st.db.files.map view_row) < BUFFER_SIZE - 1) :
    handle_view st msg local_time =
      (st, { init_message with
        error_code := ERR_SUCCESS
        data := if view_query st.db msg.username (strstr msg.data "-a") = [] then
            "No files found\n"
          else view_text (view_line (strstr msg.data "-l") local_time)
            (view_query st.db msg.username (strstr msg.data "-a")) }) := by
  have htot := view_query_total st.db msg.username (strstr msg.data "-a")
    (view_line (strstr msg.data "-l") local_time)
  have hloop := view_loop_fits (view_line (strstr msg.data "-l") local_time)
    (view_query st.db msg.username (strstr msg.data "-a")) "" 0
    (by rw [show ("" : String).length = 0 from rfl]; omega)
  unfold handle_view
  simp only
  rw [hloop, String.empty_append, Nat.zero_add]
  cases hq : view_query st.db msg.username (strstr msg.data "-a") with
  | nil => rfl
  | cons r rest =>
    rw [← hq]
    have hne : ¬ (view_query st.db msg.username (strstr msg.data "-a")).length = 0 := by
      rw [hq]; simp
    have hne' : ¬ view_query st.db msg.username (strstr msg.data "-a") = [] := by
      rw [hq]; simp
    simp only [if_neg hne, if_neg hne']
    have hlen := view_text_length (view_line (strstr msg.data "-l") local_time)
      (view_query st.db msg.username (strstr msg.data "-a"))
    rw [strncpy_of_le _ _ (by rw [hlen]; omega)]

/-! ## The rows of the two queries of `handle_view` -/

theorem mem_left_join_access (db : Database) (p : FileRow × Option AccessRow) :
    p ∈ left_join_access db ↔
      p.1 ∈ db.files ∧
      ((p.2 = none ∧ ∀ a ∈ db.access_control, a.filename ≠ p.1.filename) ∨
       ∃ a ∈ db.access_control, a.filename = p.1.filename ∧ p.2 = some a) := by
  unfold left_join_access
  rw [List.mem_flatMap]
  constructor
  · rintro ⟨f, hf, hp⟩
    simp only at hp
    split at hp
    · rename_i hempty
      rw [List.mem_singleton] at hp
      subst hp
      refine ⟨hf, Or.inl ⟨rfl, ?_⟩⟩
      intro a ha hname
      have hmem : a ∈ db.access_control.filter (fun a => a.filename = f.filename) := by
        rw [List.mem_filter]; exact ⟨ha, by simpa using hname⟩
      rw [List.isEmpty_iff.mp hempty] at hmem
      cases hmem
    · rw [List.mem_map] at hp
      obtain ⟨a, ha, rfl⟩ := hp
      rw [List.mem_filter] at ha
      exact ⟨hf, Or.inr ⟨a, ha.1, by simpa using ha.2, rfl⟩⟩
  · rintro ⟨hf, h⟩
    refine ⟨p.1, hf, ?_⟩
    simp only
    rcases h with ⟨hnone, hno⟩ | ⟨a, ha, hname, hsome⟩
    · have hempty : (db.access_control.filter (fun a => a.filename = p.1.filename)).isEmpty
          = true := by
        rw [List.isEmpty_iff, List.filter_eq_nil_iff]
        intro a ha
        simpa using hno a ha
      rw [if_pos hempty, List.mem_singleton]
      exact Prod.ext rfl hnone
    · have hmem : a ∈ db.access_control.filter (fun a => a.filename = p.1.filename) := by
        rw [List.mem_filter]; exact ⟨ha, by simpa using hname⟩
      have hne : ¬ (db.access_control.filter (fun a => a.filename = p.1.filename)).isEmpty
          = true := by
        intro h
        rw [List.isEmpty_iff.mp h] at hmem
        cases hmem
      rw [if_neg hne, List.mem_map]
      exact ⟨a, hmem, Prod.ext rfl hsome.symm⟩

/-- VIEW with the flag `-a` steps through the rows of all files. -/
theorem view_query_all_names (db : Database) (user name : String) :
    name ∈ (view_query db user true).map (fun r => r.filename) ↔
      ∃ f ∈ db.files, f.filename = name := by
  unfold view_query
  simp only [if_true]
  rw [List.mem_map]
  constructor
  · rintro ⟨v, hv, rfl⟩
    rw [mem_order_by_filename, List.mem_map] at hv
    obtain ⟨f, hf, rfl⟩ := hv
    exact ⟨f, hf, rfl⟩
  · rintro ⟨f, hf, rfl⟩
    refine ⟨view_row f, ?_, rfl⟩
    rw [mem_order_by_filename]
    exact List.mem_map_of_mem _ hf

/-- VIEW without the flag `-a` steps through the rows of the files that the
user owns or has a grant on. -/
theorem mem_view_query_own (db : Database) (user : String) (v : ViewRow) :
    v ∈ view_query db user false ↔
      ∃ f ∈ db.files, view_row f = v ∧
        (f.owner = user ∨
          ∃ g ∈ db.access_control, g.filename = f.filename ∧ g.username = user) := by
  unfold view_query
  simp only [Bool.false_eq_true, if_false]
  rw [mem_order_by_filename, List.mem_dedup, List.mem_map]
  constructor
  · rintro ⟨p, hp, rfl⟩
    rw [List.mem_filter, mem_left_join_access] at hp
    obtain ⟨⟨hf, hcase⟩, hwhere⟩ := hp
    refine ⟨p.1, hf, rfl, ?_⟩
    unfold view_where at hwhere
    rcases hcase with ⟨hnone, _⟩ | ⟨a, ha, hname, hsome⟩
    · rw [hnone] at hwhere
      left; simpa using hwhere
    · rw [hsome] at hwhere
      simp only [Bool.or_eq_true, decide_eq_true_eq] at hwhere
      rcases hwhere with h | h
      · left; exact h
      · right; exact ⟨a, ha, hname, h⟩
  · rintro ⟨f, hf, rfl, hown⟩
    by_cases hg : ∃ g ∈ db.access_control, g.filename = f.filename ∧ g.username = user
    · obtain ⟨g, hg1, hg2, hg3⟩ := hg
      refine ⟨(f, some g), ?_, rfl⟩
      rw [List.mem_filter, mem_left_join_access]
      refine ⟨⟨hf, Or.inr ⟨g, hg1, hg2, rfl⟩⟩, ?_⟩
      unfold view_where
      simp [hg3]
    · have hown' : f.owner = user := by
        rcases hown with h | h
        · exact h
        · exact absurd h hg
      by_cases hany : ∃ a ∈ db.access_control, a.filename = f.filename
      · obtain ⟨a, ha1, ha2⟩ := hany
        refine ⟨(f, some a), ?_, rfl⟩
        rw [List.mem_filter, mem_left_join_access]
        refine ⟨⟨hf, Or.inr ⟨a, ha1, ha2, rfl⟩⟩, ?_⟩
        unfold view_where
        simp [hown']
      · refine ⟨(f, none), ?_, rfl⟩
        rw [List.mem_filter, mem_left_join_access]
        refine ⟨⟨hf, Or.inl ⟨rfl, fun a ha hn => hany ⟨a, ha, hn⟩⟩⟩, ?_⟩
        unfold view_where
        simp [hown']

theorem view_query_own_names (db : Database) (user name : String) :
    name ∈ (view_query db user false).map (fun r => r.filename) ↔
      ∃ f ∈ db.files, f.filename = name ∧
        (f.owner = user ∨
          ∃ g ∈ db.access_control, g.filename = name ∧ g.username = user) := by
  rw [List.mem_map]
  constructor
  · rintro ⟨v, hv, rfl⟩
    obtain ⟨f, hf, rfl, h⟩ := (mem_view_query_own db user v).mp hv
    exact ⟨f, hf, rfl, h⟩
  · rintro ⟨f, hf, rfl, h⟩
    exact ⟨view_row f, (mem_view_query_own db user _).mpr ⟨f, hf, rfl, h⟩, rfl⟩

theorem view_query_own_nodup (db : Database) (user : String) :
    (view_query db user false).Nodup := by
  unfold view_query
  simp only [Bool.false_eq_true, if_false]
  exact (order_by_filename_perm _).nodup_iff.mpr (List.nodup_dedup _)

/-! ## A catalog whose listing does not fit the buffer -/

theorem text_lt_head (x y : Char) (xs ys : List Char) (h : x.toNat < y.toNat) :
    text_lt (x :: xs) (y :: ys) = true := by
  rw [text_lt, if_pos h]

/-- A row that sorts before the last row of a list is inserted before it. -/
theorem insert_by_filename_last (r z : ViewRow) (l : List ViewRow)
    (h : text_lt r.filename.data z.filename.data = true) :
    insert_by_filename r (l ++ [z]) = insert_by_filename r l ++ [z] := by
  induction l with
  | nil =>
    show insert_by_filename r [z] = [r] ++ [z]
    rw [insert_by_filename, if_pos h]
    rfl
  | cons x rest ih =>
    rw [List.cons_append, insert_by_filename, insert_by_filename]
    split
    · rfl
    · rw [ih]; rfl

/-- A row behind rows that all sort before it stays the last row. -/
theorem order_by_filename_last (z : ViewRow) (l : List ViewRow)
    (h : ∀ r ∈ l, text_lt r.filename.data z.filename.data = true) :
    order_by_filename (l ++ [z]) = order_by_filename l ++ [z] := by
  induction l with
  | nil => rfl
  | cons x rest ih =>
    rw [List.cons_append, order_by_filename, order_by_filename,
      ih (fun r hr => h r (List.mem_cons_of_mem _ hr)),
      insert_by_filename_last _ _ _ (h x (List.mem_cons_self _ _))]

/-- The line of a file (not a folder) in the short format: its name and a
newline. -/
theorem view_line_short (local_time : Int → String) (r : ViewRow) (hfile : r.is_folder = 0)
    (hlen : r.filename.length < 511) :
    view_line false local_time r = r.filename ++ "\n" := by
  unfold view_line
  simp only [Bool.false_eq_true, if_false, hfile, ne_eq, not_true_eq_false]
  rw [String.empty_append, snprintf_of_lt]
  rw [String.length_append]
  show r.filename.length + 1 < 512
  omega

theorem long_name_length (i : Nat) (hi : i < 255) : (long_name i).length = 255 := by
  show (List.replicate i 'b' ++ List.replicate (255 - i) 'a').length = 255
  rw [List.length_append, List.length_replicate, List.length_replicate]
  omega

theorem long_name_chars (i : Nat) (c : Char) (hc : c ∈ (long_name i).data) :
    c = 'a' ∨ c = 'b' := by
  have hc' : c ∈ List.replicate i 'b' ++ List.replicate (255 - i) 'a' := hc
  rcases List.mem_append.mp hc' with h | h
  · right; exact List.eq_of_mem_replicate h
  · left; exact List.eq_of_mem_replicate h

theorem long_name_head (i : Nat) (hi : i < 255) :
    ∃ x xs, (long_name i).data = x :: xs ∧ x.toNat < 'z'.toNat := by
  cases i with
  | zero => exact ⟨'a', List.replicate 254 'a', rfl, by decide⟩
  | succ k =>
    refine ⟨'b', List.replicate k 'b' ++ List.replicate (255 - (k + 1)) 'a', ?_, by decide⟩
    show List.replicate (k + 1) 'b' ++ _ = _
    rw [List.replicate_succ]
    rfl

/-- What is needed of each of the 256 files of `alice`: no folder, owner
`alice`, a name made of the letters `a`, `b`, `c` that sorts before `zzz`, and
either 255 characters, or 250 for the one row of time 5. -/
theorem big_other_rows_spec (f : FileRow) (hf : f ∈ big_other_rows) :
    f.is_folder = 0 ∧ f.owner = "alice" ∧
    (∀ c ∈ f.filename.data, c = 'a' ∨ c = 'b' ∨ c = 'c') ∧
    text_lt f.filename.data "zzz".data = true ∧
    f.filename.length < 511 := by
  unfold big_other_rows at hf
  rcases List.mem_append.mp hf with h | h
  · rw [List.mem_map] at h
    obtain ⟨i, hi, rfl⟩ := h
    rw [List.mem_range] at hi
    refine ⟨rfl, rfl, ?_, ?_, ?_⟩
    · intro c hc
      rcases long_name_chars i c hc with h | h
      · left; exact h
      · right; left; exact h
    · obtain ⟨x, xs, hx, hlt⟩ := long_name_head i hi
      show text_lt (long_name i).data "zzz".data = true
      rw [hx]
      exact text_lt_head _ _ _ _ hlt
    · show (long_name i).length < 511
      rw [long_name_length i hi]
      decide
  · rw [List.mem_singleton] at h
    subst h
    refine ⟨rfl, rfl, ?_, ?_, ?_⟩
    · intro c hc
      right; right
      exact List.eq_of_mem_replicate hc
    · show text_lt (List.replicate 250 'c') "zzz".data = true
      rw [show List.replicate 250 'c' = 'c' :: List.replicate 249 'c' from
        List.replicate_succ 'c' 249]
      exact text_lt_head _ _ _ _ (by decide)
    · show (List.replicate 250 'c').length < 511
      rw [List.length_replicate]
      decide

theorem sum_map_const (l : List Nat) (f : Nat → Nat) (k : Nat) (h : ∀ i ∈ l, f i = k) :
    (l.map f).sum = l.length * k := by
  induction l with
  | nil => simp
  | cons x rest ih =>
    rw [List.map_cons, List.sum_cons, h x (List.mem_cons_self _ _),
      ih (fun i hi => h i (List.mem_cons_of_mem _ hi)), List.length_cons]
    ring

/-- The lines of the 256 files of `alice` have 65531 characters. -/
theorem big_other_rows_total (local_time : Int → String) :
    line_total (view_line false local_time) (big_other_rows.map view_row) = 65531 := by
  unfold line_total big_other_rows
  rw [List.map_append, List.map_append, List.sum_append, List.map_map, List.map_map]
  rw [sum_map_const (List.range 255) _ 256]
  · rw [List.length_range]
    simp only [List.map_cons, List.map_nil, List.sum_cons, List.sum_nil]
    rw [view_line_short local_time _ rfl
      (by show (List.replicate 250 'c').length < 511; rw [List.length_replicate]; decide)]
    have hc : (view_row (created_row ⟨List.replicate 250 'c'⟩ "alice" 5)).filename.length
        = 250 := List.length_replicate 250 'c'
    rw [String.length_append, hc]
    rfl
  · intro i hi
    rw [List.mem_range] at hi
    simp only [Function.comp]
    rw [view_line_short local_time _ rfl
      (by show (long_name i).length < 511; rw [long_name_length i hi]; decide)]
    rw [String.length_append]
    show (long_name i).length + 1 = 256
    rw [long_name_length i hi]

theorem big_other_rows_length : big_other_rows.length = 256 := by
  unfold big_other_rows
  rw [List.length_append, List.length_map, List.length_range]
  rfl

theorem view_text_chars (line_of : ViewRow → String) (rows : List ViewRow) (c : Char)
    (hc : c ∈ (view_text line_of rows).data) : ∃ r ∈ rows, c ∈ (line_of r).data := by
  induction rows with
  | nil => cases hc
  | cons r rest ih =>
    rw [show view_text line_of (r :: rest) = line_of r ++ view_text line_of rest from rfl,
      String.data_append] at hc
    rcases List.mem_append.mp hc with h | h
    · exact ⟨r, List.mem_cons_self _ _, h⟩
    · obtain ⟨r', hr', hc'⟩ := ih h
      exact ⟨r', List.mem_cons_of_mem _ hr', hc'⟩

theorem view_loop_skip (line_of : ViewRow → String) (result : String) (count : Nat)
    (r : ViewRow) (h : ¬ result.length + (line_of r).length < BUFFER_SIZE - 1) :
    view_loop line_of result count [r] = (result, count) := by
  rw [view_loop, if_neg h, view_loop]

theorem view_loop_take (line_of : ViewRow → String) (result : String) (count : Nat)
    (r : ViewRow) (h : result.length + (line_of r).length < BUFFER_SIZE - 1) :
    view_loop line_of result count [r] = (result ++ line_of r, count + 1) := by
  rw [view_loop, if_pos h, view_loop]

/-- The answer text of `handle_view` in terms of the result of its loop. -/
theorem handle_view_data (st : NameServerState) (user flags : String)
    (local_time : Int → String) (all detailed : Bool)
    (ha : strstr flags "-a" = all) (hl : strstr flags "-l" = detailed)
    (result : String) (count : Nat)
    (hloop : view_loop (view_line detailed local_time) "" 0 (view_query st.db user all)
      = (result, count)) :
    (handle_view st (view_msg user flags) local_time).2.data =
      strncpy (if count = 0 then "No files found\n" else result) (BUFFER_SIZE - 1) := by
  subst ha hl
  show strncpy (if (view_loop _ "" 0 (view_query st.db user _)).2 = 0 then "No files found\n"
    else (view_loop _ "" 0 (view_query st.db user _)).1) (BUFFER_SIZE - 1) = _
  rw [show (view_msg user flags).data = flags from rfl, hloop]

/-- The listing of `big_catalog_state` with the flag `-a`: the loop appends
the lines of the 256 files of `alice`, 65531 characters, and leaves out the
line of `zzz`, the last row, because 65531 + 4 is not less than 65535. -/
theorem handle_view_big_all (user : String) (local_time : Int → String) :
    (handle_view big_catalog_state (view_msg user "-a") local_time).2.data =
      view_text (view_line false local_time)
        (order_by_filename (big_other_rows.map view_row)) := by
  have hrows : view_query big_catalog_state.db user true =
      order_by_filename (big_other_rows.map view_row) ++ [view_row (created_row "zzz" "bob" 6)] := by
    unfold view_query
    simp only [if_true]
    show order_by_filename ((big_other_rows ++ [created_row "zzz" "bob" 6]).map view_row) = _
    rw [List.map_append, List.map_singleton]
    apply order_by_filename_last
    intro r hr
    rw [List.mem_map] at hr
    obtain ⟨f, hf, rfl⟩ := hr
    exact (big_other_rows_spec f hf).2.2.2.1
  have htot : line_total (view_line false local_time)
      (order_by_filename (big_other_rows.map view_row)) = 65531 := by
    rw [line_total_perm _ _ _ (order_by_filename_perm _)]
    exact big_other_rows_total local_time
  have hlen : (order_by_filename (big_other_rows.map view_row)).length = 256 := by
    rw [(order_by_filename_perm _).length_eq, List.length_map]
    exact big_other_rows_length
  have htl := view_text_length (view_line false local_time)
    (order_by_filename (big_other_rows.map view_row))
  rw [htot] at htl
  have hz : (view_line false local_time (view_row (created_row "zzz" "bob" 6))).length = 4 := by
    rw [view_line_short local_time _ rfl (by decide)]
    rfl
  have hloop : view_loop (view_line false local_time) "" 0
      (view_query big_catalog_state.db user true) =
      (view_text (view_line false local_time)
        (order_by_filename (big_other_rows.map view_row)), 256) := by
    have hfirst : view_loop (view_line false local_time) "" 0
        (order_by_filename (big_other_rows.map view_row)) =
        (view_text (view_line false local_time)
          (order_by_filename (big_other_rows.map view_row)), 256) := by
      rw [view_loop_fits _ _ _ _ (by rw [htot]; unfold BUFFER_SIZE; decide), hlen,
        String.empty_append]
    have hskip : ¬ (view_text (view_line false local_time)
        (order_by_filename (big_other_rows.map view_row))).length +
        (view_line false local_time (view_row (created_row "zzz" "bob" 6))).length
          < BUFFER_SIZE - 1 := by
      rw [htl, hz]; unfold BUFFER_SIZE; omega
    rw [hrows, view_loop_append _ _ _ _ _ _ _ hfirst]
    exact view_loop_skip _ _ _ _ hskip
  rw [handle_view_data big_catalog_state user "-a" local_time true false (by decide)
    (by decide) _ _ hloop, if_neg (by decide)]
  exact strncpy_of_le _ _ (by rw [htl]; unfold BUFFER_SIZE; omega)

/-- The listing of `big_catalog_state` for `bob` without the flag `-a`. -/
theorem handle_view_big_own (local_time : Int → String) :
    (handle_view big_catalog_state (view_msg "bob" "") local_time).2.data = "zzz\n" := by
  have hrows : view_query big_catalog_state.db "bob" false =
      [view_row (created_row "zzz" "bob" 6)] := by
    have hnd := view_query_own_nodup big_catalog_state.db "bob"
    have hmem : ∀ v, v ∈ view_query big_catalog_state.db "bob" false ↔
        v = view_row (created_row "zzz" "bob" 6) := by
      intro v
      rw [mem_view_query_own]
      constructor
      · rintro ⟨f, hf, rfl, hown⟩
        have hf' : f ∈ big_other_rows ++ [created_row "zzz" "bob" 6] := hf
        rcases List.mem_append.mp hf' with h | h
        · exfalso
          have ha := (big_other_rows_spec f h).2.1
          rcases hown with ho | ⟨g, hg, _⟩
          · rw [ha] at ho; exact absurd ho (by decide)
          · cases hg
        · rw [List.mem_singleton] at h
          rw [h]
      · rintro rfl
        exact ⟨created_row "zzz" "bob" 6,
          List.mem_append_right _ (List.mem_singleton_self _), rfl, Or.inl rfl⟩
    cases hq : view_query big_catalog_state.db "bob" false with
    | nil =>
      have := (hmem _).mpr rfl
      rw [hq] at this
      cases this
    | cons a rest =>
      rw [hq] at hnd hmem
      have ha := (hmem a).mp (List.mem_cons_self _ _)
      cases rest with
      | nil => rw [ha]
      | cons b rest' =>
        have hb := (hmem b).mp (List.mem_cons_of_mem _ (List.mem_cons_self _ _))
        rw [List.nodup_cons] at hnd
        exact absurd (by rw [ha, hb]; exact List.mem_cons_self _ _) hnd.1
  have hz : view_line false local_time (view_row (created_row "zzz" "bob" 6)) = "zzz\n" := by
    rw [view_line_short local_time _ rfl (by decide)]
    rfl
  have hloop : view_loop (view_line false local_time) "" 0
      (view_query big_catalog_state.db "bob" false) = ("zzz\n", 1) := by
    rw [hrows, view_loop_take _ _ _ _ (by rw [hz]; decide), hz]
    rfl
  rw [handle_view_data big_catalog_state "bob" "" local_time false false (by decide)
    (by decide) _ _ hloop]
  decide

/-! ## C25: VIEW with and without the flag `-a` -/

/-- C25, the counterexample.  The catalog of `big_catalog_state` has 257
files; the lines of the 256 files of `alice` fill 65531 of the 65535
characters that the loop of `handle_view` accepts, so the line of `zzz`, the
last row in the order of names, is left out.  VIEW without the flag lists
`zzz` to its owner `bob`; VIEW with the flag `-a` does not: its answer is the
listing of the other 256 files and holds no letter `z`. -/
theorem view_all_superset_counterexample :
    big_catalog_state.db.files.length = 257 ∧
    created_row "zzz" "bob" 6 ∈ big_catalog_state.db.files ∧
    (handle_view big_catalog_state (view_msg "bob" "") epoch_clock).2.data = "zzz\n" ∧
    (handle_view big_catalog_state (view_msg "bob" "-a") epoch_clock).2.data =
      view_text (view_line false epoch_clock)
        (order_by_filename (big_other_rows.map view_row)) ∧
    (handle_view big_catalog_state (view_msg "bob" "-a") epoch_clock).2.data.length = 65531 ∧
    'z' ∉ (handle_view big_catalog_state (view_msg "bob" "-a") epoch_clock).2.data.data := by
  have hall := handle_view_big_all "bob" epoch_clock
  refine ⟨?_, ?_, handle_view_big_own epoch_clock, hall, ?_, ?_⟩
  · show (big_other_rows ++ [created_row "zzz" "bob" 6]).length = 257
    rw [List.length_append, big_other_rows_length]
    rfl
  · exact List.mem_append_right _ (List.mem_singleton_self _)
  · rw [hall, view_text_length, line_total_perm _ _ _ (order_by_filename_perm _)]
    exact big_other_rows_total epoch_clock
  · rw [hall]
    intro hz
    obtain ⟨r, hr, hc⟩ := view_text_chars _ _ _ hz
    rw [mem_order_by_filename, List.mem_map] at hr
    obtain ⟨f, hf, rfl⟩ := hr
    obtain ⟨hfile, _, hchars, _, hlen⟩ := big_other_rows_spec f hf
    rw [view_line_short epoch_clock _ hfile hlen, String.data_append] at hc
    rcases List.mem_append.mp hc with h | h
    · rcases hchars 'z' h with h1 | h1 | h1 <;> exact absurd h1 (by decide)
    · exact absurd h (by decide)

/-- C25, amended.  When the lines of all files, in the format asked for, fit
the buffer `result` (fewer than `BUFFER_SIZE - 1` characters), the answer of
VIEW is the lines of all the rows of its query, in the order of the names, or
`No files found` when there is none.  The query with the flag `-a` has a row
for every file; the query without it has a row exactly for the files that
the user owns or has a grant on; hence every name of the second is a name of
the first. -/
theorem view_listing (st : NameServerState) (msg : Message) (local_time : Int → String)
    (hfit : line_total (view_line (strstr msg.data "-l") local_time)
      (st.db.files.map view_row) < BUFFER_SIZE - 1) :
    (handle_view st msg local_time).2.data =
      (if view_query st.db msg.username (strstr msg.data "-a") = [] then "No files found\n"
       else view_text (view_line (strstr msg.data "-l") local_time)
         (view_query st.db msg.username (strstr msg.data "-a"))) ∧
    (∀ name, name ∈ (view_query st.db msg.username true).map (fun r => r.filename) ↔
      ∃ f ∈ st.db.files, f.filename = name) ∧
    (∀ name, name ∈ (view_query st.db msg.username false).map (fun r => r.filename) ↔
      ∃ f ∈ st.db.files, f.filename = name ∧
        (f.owner = msg.username ∨
          ∃ g ∈ st.db.access_control, g.filename = name ∧ g.username = msg.username)) ∧
    (∀ name, name ∈ (view_query st.db msg.username false).map (fun r => r.filename) →
      name ∈ (view_query st.db msg.username true).map (fun r => r.filename)) := by
  refine ⟨?_, view_query_all_names st.db msg.username, view_query_own_names st.db msg.username,
    ?_⟩
  · rw [handle_view_fits st msg local_time hfit]
  · intro name h
    obtain ⟨f, hf, hname, _⟩ := (view_query_own_names st.db msg.username name).mp h
    exact (view_query_all_names st.db msg.username name).mpr ⟨f, hf, hname⟩

theorem view_listing_witness :
    (handle_view read_granted_state (view_msg "bob" "") epoch_clock).2.data = "doc.txt\n" ∧
    "doc.txt" ∈ (view_query read_granted_state.db "bob" true).map (fun r => r.filename) :=
  have h := view_listing read_granted_state (view_msg "bob" "") epoch_clock (by decide)
  ⟨h.1.trans (by decide), h.2.2.2 "doc.txt" (by decide)⟩

/-! ## C27: the flag string `-al` -/

/-- C27, the failing input.  The payload `-al` contains `-a` but not `-l`
(`strstr` looks for the two characters `-l` side by side), so `handle_view`
answers it exactly as it answers `-a`: all files, each line in the short
format.  In `setup_state` the answer to `-al` is the line `doc.txt`, whereas
the payload `-a -l` gets the detailed line with type, name, owner, word and
sentence counts and creation time. -/
theorem view_al_short_format :
    strstr "-al" "-a" = true ∧ strstr "-al" "-l" = false ∧
    (∀ (st : NameServerState) (user : String) (local_time : Int → String),
      handle_view st (view_msg user "-al") local_time =
        handle_view st (view_msg user "-a") local_time) ∧
    (handle_view setup_state (view_msg "alice" "-al") epoch_clock).2.data = "doc.txt\n" ∧
    (handle_view setup_state (view_msg "alice" "-a -l") epoch_clock).2.data =
      "- doc.txt                        alice               0w   0s  1970-01-01 00:00:05\n" := by
  refine ⟨by decide, by decide, fun _ _ _ => rfl, by decide, by decide⟩

/-! ## The registry along a run: every node is alive, the ids grow -/

theorem increment_file_count_keys (servers : List StorageServerInfo) (idx : Nat) :
    (increment_file_count servers idx).map (fun s => (s.id, s.is_alive)) =
      servers.map (fun s => (s.id, s.is_alive)) := by
  unfold increment_file_count
  simp only
  induction servers generalizing idx with
  | nil => simp
  | cons x rest ih =>
    cases idx with
    | zero => simp
    | succ n =>
      simp only [List.getD_cons_succ, List.set_cons_succ, List.map_cons]
      rw [ih n]

theorem decrement_file_count_keys (servers : List StorageServerInfo) (ss_id : Int) :
    (decrement_file_count servers ss_id).map (fun s => (s.id, s.is_alive)) =
      servers.map (fun s => (s.id, s.is_alive)) := by
  induction servers with
  | nil => rfl
  | cons x rest ih =>
    unfold decrement_file_count
    split
    · rfl
    · rw [List.map_cons, ih, List.map_cons]

theorem live_step_of_eq (st st' : NameServerState) (h : st' = st) : live_step st st' := by
  left; rw [h]; exact ⟨rfl, rfl⟩

theorem live_step_of_fields (st st' : NameServerState)
    (h1 : st'.storage_servers = st.storage_servers) (h2 : st'.next_ss_id = st.next_ss_id) :
    live_step st st' := by
  left; rw [h1, h2]; exact ⟨rfl, rfl⟩

/-- No request clears an `is_alive` flag or changes an id: a request leaves
the ids and flags of the registry as they are, or (REGISTER_SS) adds a node
that is alive. -/
theorem apply_request_live (st : NameServerState) (r : Request) :
    live_step st (apply_request st r) := by
  cases r with
  | register_ss msg now ip port =>
    show live_step st (handle_register_ss st msg now ip port).1
    unfold handle_register_ss
    split
    · exact live_step_of_eq _ _ rfl
    · right
      exact ⟨by simp only [List.map_append, List.map_cons, List.map_nil], rfl⟩
  | register_client msg now =>
    show live_step st (handle_register_client st msg now).1
    unfold handle_register_client
    simp only
    split <;> exact live_step_of_fields _ _ rfl rfl
  | create msg now =>
    show live_step st (handle_create st msg now).1
    by_cases h1 : trie_search st.file_trie msg.filename = true
    · simp only [handle_create, h1, if_true]
      exact live_step_of_eq _ _ rfl
    by_cases h2 : st.storage_servers.length = 0
    · simp only [handle_create, h1, h2, if_true, if_false, Bool.false_eq_true]
      exact live_step_of_eq _ _ rfl
    by_cases h3 : st.db.files.any (fun r => r.filename = msg.filename) = true
    · simp only [handle_create, h1, h2, insert_file, h3, if_true, if_false, Bool.false_eq_true]
      exact live_step_of_eq _ _ rfl
    · simp only [handle_create, h1, h2, insert_file, h3, if_false, Bool.false_eq_true]
      cases select_replica st.storage_servers (select_ss st.storage_servers) <;>
        exact Or.inl ⟨increment_file_count_keys _ _, rfl⟩
  | createfolder msg now =>
    show live_step st (handle_createfolder st msg now).1
    by_cases h1 : trie_search st.file_trie msg.filename = true
    · simp only [handle_createfolder, h1, if_true]
      exact live_step_of_eq _ _ rfl
    by_cases h2 : st.storage_servers.length = 0
    · simp only [handle_createfolder, h1, h2, if_true, if_false, Bool.false_eq_true]
      exact live_step_of_eq _ _ rfl
    by_cases h3 : st.db.files.any (fun r => r.filename = msg.filename) = true
    · simp only [handle_createfolder, h1, h2, insert_file, h3, if_true, if_false,
        Bool.false_eq_true]
      exact live_step_of_eq _ _ rfl
    · simp only [handle_createfolder, h1, h2, insert_file, h3, if_false, Bool.false_eq_true]
      exact Or.inl ⟨increment_file_count_keys _ _, rfl⟩
  | read msg now =>
    show live_step st (handle_read st msg now).1
    unfold handle_read
    simp only
    split
    · exact live_step_of_eq _ _ rfl
    · split
      · exact live_step_of_eq _ _ rfl
      · exact live_step_of_fields _ _ rfl rfl
  | write sock msg now =>
    show live_step st (handle_write st sock msg now).1
    unfold handle_write
    cases sscanf_d msg.data with
    | none => exact live_step_of_eq _ _ rfl
    | some n =>
      simp only
      split
      · exact live_step_of_eq _ _ rfl
      · split
        · exact live_step_of_eq _ _ rfl
        · split
          · exact live_step_of_eq _ _ rfl
          · exact live_step_of_eq _ _ rfl
          · split
            · exact live_step_of_fields _ _ rfl rfl
            · exact live_step_of_eq _ _ rfl
  | write_commit sock msg now sv => exact live_step_of_fields _ _ rfl rfl
  | delete msg =>
    show live_step st (handle_delete st msg).1
    rcases handle_delete_cases st msg with ⟨_, h⟩ | ⟨_, h, _⟩
    · exact live_step_of_eq _ _ h
    · rw [h]
      exact Or.inl ⟨decrement_file_count_keys _ _, rfl⟩
  | addaccess msg =>
    show live_step st (handle_addaccess st msg).1
    rcases handle_addaccess_db st msg with h | ⟨t, p, _, _, h⟩
    · exact live_step_of_eq _ _ h
    · rw [h]; exact live_step_of_fields _ _ rfl rfl
  | remaccess msg =>
    show live_step st (handle_remaccess st msg).1
    rcases handle_remaccess_db st msg with h | h
    · exact live_step_of_eq _ _ h
    · rw [h]; exact live_step_of_fields _ _ rfl rfl
  | request_access msg now sp =>
    show live_step st (handle_request_access st msg now sp).1
    rcases handle_request_access_db st msg now sp with h | ⟨t, h⟩
    · exact live_step_of_eq _ _ h
    · rw [h]; exact live_step_of_fields _ _ rfl rfl
  | close sock => exact live_step_of_eq _ _ rfl

theorem registry_live_of_keys (st st' : NameServerState)
    (hk : st'.storage_servers.map (fun s => (s.id, s.is_alive))
      = st.storage_servers.map (fun s => (s.id, s.is_alive))) :
    (∀ s ∈ st.storage_servers, s.is_alive = true) →
      ∀ s ∈ st'.storage_servers, s.is_alive = true := by
  intro h s hs
  have hm : (s.id, s.is_alive) ∈ st'.storage_servers.map (fun s => (s.id, s.is_alive)) :=
    List.mem_map_of_mem _ hs
  rw [hk, List.mem_map] at hm
  obtain ⟨t, ht, he⟩ := hm
  have : t.is_alive = s.is_alive := congrArg Prod.snd he
  rw [← this]
  exact h t ht

theorem ids_of_keys (l : List StorageServerInfo) :
    l.map (fun s => s.id) = (l.map (fun s => (s.id, s.is_alive))).map Prod.fst := by
  rw [List.map_map]; rfl

theorem registry_live_step (st : NameServerState) (r : Request) (h : registry_live st) :
    registry_live (apply_request st r) := by
  obtain ⟨halive, hsorted, hrange, hnext⟩ := h
  unfold registry_live
  rcases apply_request_live st r with ⟨hk, hn⟩ | ⟨hk, hn⟩
  · have hids : (apply_request st r).storage_servers.map (fun s => s.id) =
        st.storage_servers.map (fun s => s.id) := by
      rw [ids_of_keys, hk, ← ids_of_keys]
    rw [hids, hn]
    exact ⟨registry_live_of_keys st _ hk halive, hsorted, hrange, hnext⟩
  · have hids : (apply_request st r).storage_servers.map (fun s => s.id) =
        st.storage_servers.map (fun s => s.id) ++ [st.next_ss_id] := by
      rw [ids_of_keys, hk, List.map_append, ← ids_of_keys]; rfl
    rw [hids, hn]
    refine ⟨?_, ?_, ?_, by omega⟩
    · intro s hs
      have hm : (s.id, s.is_alive) ∈
          (apply_request st r).storage_servers.map (fun s => (s.id, s.is_alive)) :=
        List.mem_map_of_mem _ hs
      rw [hk, List.mem_append] at hm
      rcases hm with hm | hm
      · rw [List.mem_map] at hm
        obtain ⟨t, ht, he⟩ := hm
        have : t.is_alive = s.is_alive := congrArg Prod.snd he
        rw [← this]
        exact halive t ht
      · rw [List.mem_singleton] at hm
        exact congrArg Prod.snd hm
    · rw [List.pairwise_append]
      refine ⟨hsorted, List.pairwise_singleton _ _, ?_⟩
      intro a ha b hb
      rw [List.mem_singleton] at hb
      rw [hb]
      exact (hrange a ha).2
    · intro i hi
      rcases List.mem_append.mp hi with hi | hi
      · have := hrange i hi
        omega
      · rw [List.mem_singleton] at hi
        omega

theorem registry_live_initial : registry_live initial_state := by decide

/-- The registry is empty when the coordinator starts. -/
theorem registry_live_start (db : Database) : registry_live (start_state db) := by
  unfold registry_live start_state
  simp

theorem registry_live_run (st : NameServerState) (reqs : List Request)
    (h : registry_live st) : registry_live (run_requests st reqs) := by
  induction reqs using List.reverseRecOn with
  | nil => exact h
  | append_singleton reqs r ih =>
    rw [run_requests_append]
    exact registry_live_step _ r ih

/-- In every state reached from the initial state, and in every state reached
after the coordinator was started again over the store of such a state, every
registered node is alive and the ids grow along the registry. -/
theorem registry_live_reachable (reqs reqs' : List Request) :
    registry_live (run_requests initial_state reqs) ∧
    registry_live (run_requests (restart (run_requests initial_state reqs)) reqs') :=
  ⟨registry_live_run _ reqs registry_live_initial,
   registry_live_run _ reqs' (registry_live_start _)⟩

/-! ## C8, C9 and C10: placement in the states the coordinator can be in -/

theorem getD_mem_servers (l : List StorageServerInfo) (k : Nat) (h : k < l.length) :
    l.getD k default ∈ l := by
  induction l generalizing k with
  | nil => simp at h
  | cons x rest ih =>
    cases k with
    | zero => simp
    | succ n =>
      rw [List.getD_cons_succ]
      exact List.mem_cons_of_mem _ (ih n (by simpa using h))

theorem mem_servers_getD (l : List StorageServerInfo) (s : StorageServerInfo) (h : s ∈ l) :
    ∃ j, j < l.length ∧ l.getD j default = s := by
  induction l with
  | nil => cases h
  | cons x rest ih =>
    rcases List.mem_cons.mp h with rfl | h
    · exact ⟨0, by simp, rfl⟩
    · obtain ⟨j, hj, he⟩ := ih h
      exact ⟨j + 1, by simpa using hj, by rw [List.getD_cons_succ]; exact he⟩

/-- Along a registry whose ids grow, a later index has a greater id. -/
theorem ids_lt_of_index_lt (l : List StorageServerInfo)
    (hs : (l.map (fun s => s.id)).Pairwise (fun a b => a < b)) (i j : Nat) (hij : i < j)
    (hj : j < l.length) : (l.getD i default).id < (l.getD j default).id := by
  induction l generalizing i j with
  | nil => simp at hj
  | cons x rest ih =>
    rw [List.map_cons, List.pairwise_cons] at hs
    cases j with
    | zero => omega
    | succ j =>
      have hj' : j < rest.length := by simpa using hj
      rw [List.getD_cons_succ]
      cases i with
      | zero =>
        rw [List.getD_cons_zero]
        exact hs.1 _ (List.mem_map_of_mem _ (getD_mem_servers rest j hj'))
      | succ i =>
        rw [List.getD_cons_succ]
        exact ih hs.2 i j (by omega) hj'

/-- A successful `handle_createfolder` appended one row to `files`; its
primary is the id of the node at index `select_ss`. -/
theorem handle_createfolder_success (st : NameServerState) (msg : Message) (now : Int)
    (hok : (handle_createfolder st msg now).2.error_code = 0) :
    ∃ row, (handle_createfolder st msg now).1.db.files = st.db.files ++ [row] ∧
      row.filename = msg.filename ∧ row.owner = msg.username ∧ st.storage_servers ≠ [] ∧
      row.storage_server_id =
        (st.storage_servers.getD (select_ss st.storage_servers) default).id := by
  by_cases h1 : trie_search st.file_trie msg.filename = true
  · simp [handle_createfolder, h1, set_message_error, ERR_FILE_EXISTS] at hok
  by_cases h2 : st.storage_servers.length = 0
  · simp [handle_createfolder, h1, h2, set_message_error, ERR_SS_NOT_FOUND] at hok
  by_cases h3 : st.db.files.any (fun r => r.filename = msg.filename) = true
  · simp [handle_createfolder, h1, h2, insert_file, h3, set_message_error, ERR_SERVER_ERROR]
      at hok
  · refine ⟨{ filename := msg.filename, owner := msg.username,
              storage_server_id :=
                (st.storage_servers.getD (select_ss st.storage_servers) default).id,
              replica_server_id := none,
              created_at := now, modified_at := now, accessed_at := now, is_folder := 1 },
      ?_, rfl, rfl, ?_, rfl⟩
    · simp only [handle_createfolder, h1, h2, insert_file, h3, if_false, Bool.false_eq_true]
    · intro h; rw [h] at h2; exact h2 rfl

/-- A successful `handle_create` found a registered node. -/
theorem handle_create_success_nonempty (st : NameServerState) (msg : Message) (now : Int)
    (hok : (handle_create st msg now).2.error_code = 0) : st.storage_servers ≠ [] := by
  intro h
  exact (handle_create_refused st msg now (Or.inr (Or.inl (by rw [h]; rfl)))).2 hok

/-- The node the selection loop picks in a registry whose nodes are alive and
whose ids grow: it is alive, no alive node has fewer files, and among the
alive nodes with as few files it has the least id. -/
theorem select_ss_least_loaded (st : NameServerState) (hlive : registry_live st)
    (hne : st.storage_servers ≠ []) :
    st.storage_servers.getD (select_ss st.storage_servers) default ∈ st.storage_servers ∧
    (st.storage_servers.getD (select_ss st.storage_servers) default).is_alive = true ∧
    ∀ s ∈ st.storage_servers, s.is_alive = true →
      (st.storage_servers.getD (select_ss st.storage_servers) default).file_count
        ≤ s.file_count ∧
      (s.file_count =
          (st.storage_servers.getD (select_ss st.storage_servers) default).file_count →
        (st.storage_servers.getD (select_ss st.storage_servers) default).id ≤ s.id) := by
  obtain ⟨halive, hsorted, _, _⟩ := hlive
  have hlen : 0 < st.storage_servers.length := List.length_pos.mpr hne
  have h0 : (st.storage_servers.getD 0 default).is_alive = true :=
    halive _ (getD_mem_servers _ 0 hlen)
  obtain ⟨hk, hka, hmin⟩ := select_ss_spec st.storage_servers hne h0
  refine ⟨getD_mem_servers _ _ hk, hka, ?_⟩
  intro s hs hsa
  obtain ⟨j, hj, he⟩ := mem_servers_getD _ s hs
  have hm := hmin j hj (by rw [he]; exact hsa)
  rw [he] at hm
  refine ⟨hm.1, ?_⟩
  intro heq
  rcases Nat.lt_trichotomy j (select_ss st.storage_servers) with hlt | heq' | hgt
  · have := hm.2 hlt
    omega
  · rw [← he, heq']
  · have := ids_lt_of_index_lt _ hsorted _ j hgt hj
    rw [he] at this
    omega

/-- The registry after a second node registered. -/
theorem handle_register_ss_second (st : NameServerState) (msg : Message) (now : Int)
    (stack_ip : String) (stack_port : Int) (a : StorageServerInfo)
    (h : st.storage_servers = [a]) :
    ∃ b : StorageServerInfo,
      (handle_register_ss st msg now stack_ip stack_port).1.storage_servers = [a, b] ∧
      b.id = st.next_ss_id ∧ b.is_alive = true ∧ b.file_count = 0 ∧
      (handle_register_ss st msg now stack_ip stack_port).1.db = st.db := by
  unfold handle_register_ss
  rw [h, if_neg (by show ¬ (1 ≥ MAX_STORAGE_SERVERS); decide)]
  exact ⟨_, rfl, rfl, rfl, rfl, rfl⟩

/-- C8.  In every state the coordinator can be in (`registry_live`: every
registered node is alive and the ids grow along the registry), a successful
CREATE, and likewise a successful CREATEFOLDER, appends one row to the catalog
whose primary is a registered node that is alive, has the least `file_count`
among the alive nodes and, among the alive nodes with that `file_count`, the
least id.  In particular, when the registry holds a single node with at least
one file and a second node registers, the next successful CREATE gets the new
node as primary. -/
theorem create_primary_least_loaded (st : NameServerState) (msg : Message) (now : Int)
    (hlive : registry_live st) :
    ((handle_create st msg now).2.error_code = 0 →
      ∃ row p, (handle_create st msg now).1.db.files = st.db.files ++ [row] ∧
        row.filename = msg.filename ∧ row.storage_server_id = p.id ∧
        p ∈ st.storage_servers ∧ p.is_alive = true ∧
        ∀ s ∈ st.storage_servers, s.is_alive = true →
          p.file_count ≤ s.file_count ∧ (s.file_count = p.file_count → p.id ≤ s.id)) ∧
    ((handle_createfolder st msg now).2.error_code = 0 →
      ∃ row p, (handle_createfolder st msg now).1.db.files = st.db.files ++ [row] ∧
        row.filename = msg.filename ∧ row.storage_server_id = p.id ∧
        p ∈ st.storage_servers ∧ p.is_alive = true ∧
        ∀ s ∈ st.storage_servers, s.is_alive = true →
          p.file_count ≤ s.file_count ∧ (s.file_count = p.file_count → p.id ≤ s.id)) ∧
    (∀ (a : StorageServerInfo) (rmsg : Message) (rnow : Int) (stack_ip : String)
        (stack_port : Int),
      st.storage_servers = [a] → 1 ≤ a.file_count →
      (handle_create (handle_register_ss st rmsg rnow stack_ip stack_port).1 msg now).2.error_code
        = 0 →
      ∃ row, (handle_create (handle_register_ss st rmsg rnow stack_ip stack_port).1 msg
            now).1.db.files = st.db.files ++ [row] ∧
        row.filename = msg.filename ∧ row.storage_server_id = st.next_ss_id) := by
  refine ⟨?_, ?_, ?_⟩
  · intro hok
    obtain ⟨row, hfiles, hname, _, hprim, _⟩ := handle_create_success st msg now hok
    obtain ⟨hp, hpa, hmin⟩ :=
      select_ss_least_loaded st hlive (handle_create_success_nonempty st msg now hok)
    exact ⟨row, _, hfiles, hname, hprim, hp, hpa, hmin⟩
  · intro hok
    obtain ⟨row, hfiles, hname, _, hne, hprim⟩ := handle_createfolder_success st msg now hok
    obtain ⟨hp, hpa, hmin⟩ := select_ss_least_loaded st hlive hne
    exact ⟨row, _, hfiles, hname, hprim, hp, hpa, hmin⟩
  · intro a rmsg rnow stack_ip stack_port hreg hfc hok
    obtain ⟨b, hservers, hid, hb, hfc0, hdb⟩ :=
      handle_register_ss_second st rmsg rnow stack_ip stack_port a hreg
    obtain ⟨row, hfiles, hname, _, hprim, _⟩ := handle_create_success _ msg now hok
    rw [hdb] at hfiles
    refine ⟨row, hfiles, hname, ?_⟩
    rw [hprim, hservers, select_ss_second a b hb (by rw [hfc0]; omega)]
    exact hid

/-- Witness for C8: in the state after the setup of scenario 1 node 1 has one
file and node 2 none. -/
theorem create_primary_least_loaded_witness :
    registry_live setup_state ∧
    (handle_create setup_state (create_msg "b") 6).2.error_code = 0 ∧
    ∃ row p, (handle_create setup_state (create_msg "b") 6).1.db.files =
        setup_state.db.files ++ [row] ∧
      row.filename = "b" ∧ row.storage_server_id = p.id ∧
      p ∈ setup_state.storage_servers ∧ p.is_alive = true ∧
      ∀ s ∈ setup_state.storage_servers, s.is_alive = true →
        p.file_count ≤ s.file_count ∧ (s.file_count = p.file_count → p.id ≤ s.id) :=
  ⟨by decide, by decide,
   (create_primary_least_loaded setup_state (create_msg "b") 6 (by decide)).1 (by decide)⟩

/-- In a registry whose ids grow, nodes at different indices have different ids. -/
theorem ids_ne_of_index_ne (l : List StorageServerInfo)
    (hs : (l.map (fun s => s.id)).Pairwise (fun a b => a < b)) (i j : Nat) (hij : i ≠ j)
    (hi : i < l.length) (hj : j < l.length) :
    (l.getD i default).id ≠ (l.getD j default).id := by
  rcases Nat.lt_or_gt_of_ne hij with h | h
  · have := ids_lt_of_index_lt l hs i j h hj
    omega
  · have := ids_lt_of_index_lt l hs j i h hi
    omega

/-- C9.  In every state the coordinator can be in (`registry_live`), a
successful CREATE appends one row to the catalog such that: with at least two
alive nodes the replica of the row is an alive registered node other than the
primary, the one with the least id among them; with fewer than two alive nodes
no replica is recorded (the column holds `-1`); and the replica is never the
primary. -/
theorem create_replica_choice (st : NameServerState) (msg : Message) (now : Int)
    (hlive : registry_live st) (hok : (handle_create st msg now).2.error_code = 0) :
    ∃ row, (handle_create st msg now).1.db.files = st.db.files ++ [row] ∧
      row.filename = msg.filename ∧
      row.replica_server_id ≠ some row.storage_server_id ∧
      (2 ≤ (st.storage_servers.filter (fun s => s.is_alive)).length →
        ∃ q ∈ st.storage_servers, q.is_alive = true ∧ q.id ≠ row.storage_server_id ∧
          row.replica_server_id = some q.id ∧
          ∀ s ∈ st.storage_servers, s.is_alive = true → s.id ≠ row.storage_server_id →
            q.id ≤ s.id) ∧
      ((st.storage_servers.filter (fun s => s.is_alive)).length < 2 →
        row.replica_server_id = some (-1)) := by
  obtain ⟨row, hfiles, hname, _, hprim, hrep⟩ := handle_create_success st msg now hok
  have hne := handle_create_success_nonempty st msg now hok
  obtain ⟨halive, hsorted, hrange, _⟩ := hlive
  have hlen : 0 < st.storage_servers.length := List.length_pos.mpr hne
  have h0 : (st.storage_servers.getD 0 default).is_alive = true :=
    halive _ (getD_mem_servers _ 0 hlen)
  obtain ⟨hk, _, _⟩ := select_ss_spec st.storage_servers hne h0
  have hfilter : st.storage_servers.filter (fun s => s.is_alive) = st.storage_servers :=
    List.filter_eq_self.mpr halive
  obtain ⟨hsome, hnone⟩ := select_replica_spec st.storage_servers (select_ss st.storage_servers)
  refine ⟨row, hfiles, hname, ?_⟩
  rw [hfilter, hrep, hprim]
  cases hsel : select_replica st.storage_servers (select_ss st.storage_servers) with
  | none =>
    have hall := hnone hsel
    have hlen1 : st.storage_servers.length < 2 := by
      by_contra hge
      have h2 : 2 ≤ st.storage_servers.length := by omega
      by_cases hk0 : select_ss st.storage_servers = 0
      · exact hall 1 (by omega) ⟨by omega, halive _ (getD_mem_servers _ 1 (by omega))⟩
      · exact hall 0 (by omega) ⟨fun h => hk0 h.symm, h0⟩
    refine ⟨?_, fun h2 => by omega, fun _ => rfl⟩
    show some (-1 : Int) ≠ some _
    intro h
    have hid := (hrange _ (List.mem_map_of_mem (fun s => s.id) (getD_mem_servers _ _ hk))).1
    have h' : (-1 : Int) =
        (st.storage_servers.getD (select_ss st.storage_servers) default).id :=
      Option.some.inj h
    omega
  | some r =>
    obtain ⟨hr, hrk, hra, hfirst⟩ := hsome r hsel
    have hidne := ids_ne_of_index_ne _ hsorted r _ hrk hr hk
    refine ⟨?_, fun _ => ?_, fun h1 => by omega⟩
    · show some _ ≠ some _
      intro h
      exact hidne (Option.some.inj h)
    · refine ⟨_, getD_mem_servers _ r hr, hra, hidne, rfl, ?_⟩
      intro s hs hsa hsne
      obtain ⟨j, hj, he⟩ := mem_servers_getD _ s hs
      have hjk : j ≠ select_ss st.storage_servers := by
        intro h
        rw [← he, h] at hsne
        exact hsne rfl
      rcases Nat.lt_trichotomy j r with hlt | heq | hgt
      · exact absurd ⟨hjk, by rw [he]; exact hsa⟩ (hfirst j hlt)
      · rw [← he, heq]
      · have := ids_lt_of_index_lt _ hsorted r j hgt hj
        rw [he] at this
        omega

/-- Witness for C9: after the setup of scenario 1 both nodes are alive; a
CREATE of `b` gets node 2 as primary and node 1 as replica. -/
theorem create_replica_choice_witness :
    registry_live setup_state ∧
    (handle_create setup_state (create_msg "b") 6).2.error_code = 0 ∧
    (handle_create setup_state (create_msg "b") 6).1.db.files.map
      (fun r => (r.filename, r.storage_server_id, r.replica_server_id)) =
        [("doc.txt", 1, some 2), ("b", 2, some 1)] ∧
    ∃ row, (handle_create setup_state (create_msg "b") 6).1.db.files =
        setup_state.db.files ++ [row] ∧
      row.filename = "b" ∧
      row.replica_server_id ≠ some row.storage_server_id ∧
      (2 ≤ (setup_state.storage_servers.filter (fun s => s.is_alive)).length →
        ∃ q ∈ setup_state.storage_servers, q.is_alive = true ∧
          q.id ≠ row.storage_server_id ∧ row.replica_server_id = some q.id ∧
          ∀ s ∈ setup_state.storage_servers, s.is_alive = true →
            s.id ≠ row.storage_server_id → q.id ≤ s.id) ∧
      ((setup_state.storage_servers.filter (fun s => s.is_alive)).length < 2 →
        row.replica_server_id = some (-1)) :=
  ⟨by decide, by decide, by decide,
   create_replica_choice setup_state (create_msg "b") 6 (by decide) (by decide)⟩

/-- C10.  In every state the coordinator can be in (`registry_live`), when no
registered node is alive, which is then the case of the empty registry only,
CREATE of a fresh name is answered `ERR_SS_NOT_FOUND` (9) and the state is
unchanged: the catalog, the name index and every node's `file_count`. -/
theorem create_without_alive_node (st : NameServerState) (msg : Message) (now : Int)
    (hlive : registry_live st)
    (hnone : ∀ s ∈ st.storage_servers, s.is_alive = false)
    (hfresh : trie_search st.file_trie msg.filename = false) :
    (handle_create st msg now).2.error_code = 9 ∧
    (handle_create st msg now).1.db = st.db ∧
    (handle_create st msg now).1.file_trie = st.file_trie ∧
    (handle_create st msg now).1.storage_servers = st.storage_servers ∧
    (handle_create st msg now).1 = st := by
  have hempty : st.storage_servers = [] := by
    cases hs : st.storage_servers with
    | nil => rfl
    | cons a l =>
      have ha : a ∈ st.storage_servers := by rw [hs]; exact List.mem_cons_self _ _
      have h1 := hlive.1 a ha
      rw [hnone a ha] at h1
      cases h1
  obtain ⟨h9, hst⟩ := create_empty_registry st msg now hfresh hempty
  exact ⟨h9, by rw [hst], by rw [hst], by rw [hst], hst⟩

/-- Witness for C10: the coordinator was started again over the store of
scenario 1 and no node has registered yet; `alice` creates `b`. -/
theorem create_without_alive_node_witness :
    registry_live (restart setup_state) ∧
    (∀ s ∈ (restart setup_state).storage_servers, s.is_alive = false) ∧
    trie_search (restart setup_state).file_trie "b" = false ∧
    (handle_create (restart setup_state) (create_msg "b") 6).2.error_code = 9 ∧
    (handle_create (restart setup_state) (create_msg "b") 6).1 = restart setup_state :=
  have h := create_without_alive_node (restart setup_state) (create_msg "b") 6
    (by decide) (by decide) (by decide)
  ⟨by decide, by decide, by decide, h.1, h.2.2.2.2⟩

end NetworkDoc
